import Mathlib

/-!
# go-saga: a shallow embedding of the saga builder, navigation and the SEC dispatch

The Go packages `command` and `saga` are embedded as Lean namespaces of the same
names.  Conventions of the embedding:

* Go `string` is `String`, the `any` payload `SagaParams` is `Option α`
  (`none` is the nil interface), a Go `error` result is `Option GoError`
  (`none` is nil).
* A Go `map[string]V` is `GoMap V`: an association list with unique keys,
  read with `get?` (the comma-ok lookup) and written with `insert`.
* A `TransactionFunc` is a state-passing function over a world `W` (everything
  a user body may touch); the command log and the error sink act on a separate
  state `L`.  The `context.Context` argument is part of that world.
* `Command.ID` (a fresh uuid) and `Command.CreatedAt` (the wall clock) are not
  represented: no function of `saga` or `command` reads them to choose a
  follow-up command.  `SEC.Start` prints the ID in the errors it logs; their text
  is rendered here as for the empty ID.
* Builder slices are lists.  This is the behaviour of the Go code when every
  `Builder` value is used once (linear use), where no two live values share a
  backing array.  Namespace `saga.shared` has the builder over slice headers and
  backing arrays, for builder values that are used more than once;
  `saga.shared.End_foldl_andThen` shows that both give the same saga on every
  linear chain.
* Calling a nil `TransactionFunc` is a Go panic; fallible operations return
  `Option` with `none` for the panic.
-/

/-! ## Go errors and maps -/

/-- Go error values, as far as `errors.Is` can tell them apart. -/
inductive GoError where
  /-- the value of one `errors.New` call, identified by its allocation -/
  | errorsNew (ident : Nat) (msg : String)
  /-- the value of `fmt.Errorf` without a `%w` verb: a fresh leaf -/
  | errorf (msg : String)
  /-- the value of `fmt.Errorf` with one `%w` verb: wraps `inner` -/
  | wrap (msg : String) (inner : GoError)
  deriving DecidableEq, Repr

namespace GoError

/-- Go `errors.Is(err, target)` for non-nil arguments: walk the unwrap chain
of `err`, comparing each link with `target`. -/
def Is : GoError → GoError → Bool
  | errorsNew i m, target => decide (errorsNew i m = target)
  | errorf m, target => decide (errorf m = target)
  | wrap m inner, target => decide (wrap m inner = target) || Is inner target

/-- Go `err.Error()`: the text of the error; a wrapping error holds its whole text,
the text of the wrapped error included. -/
def Error : GoError → String
  | errorsNew _ m => m
  | errorf m => m
  | wrap m _ => m

end GoError

/-- Go `map[string]V`, as a list of entries with pairwise distinct keys. -/
structure GoMap (V : Type) where
  entries : List (String × V)

namespace GoMap

/-- The empty (or nil) map. -/
def empty {V : Type} : GoMap V := ⟨[]⟩

/-- Go `v, ok := m[k]`: `some v` when `ok`. -/
def get? {V : Type} (m : GoMap V) (k : String) : Option V :=
  (m.entries.find? (fun e => decide (e.1 = k))).map Prod.snd

/-- Go `m[k] = v`. -/
def insert {V : Type} (m : GoMap V) (k : String) (v : V) : GoMap V :=
  ⟨(k, v) :: m.entries.filter (fun e => decide (e.1 ≠ k))⟩

/-- The keys of the map. -/
def keys {V : Type} (m : GoMap V) : List String := m.entries.map Prod.fst

/-- Apply `f` to every value of the map, keys unchanged. -/
def mapValues {V : Type} (f : V → V) (m : GoMap V) : GoMap V :=
  ⟨m.entries.map (fun e => (e.1, f e.2))⟩

end GoMap

/-! ## Package `command` -/

namespace command

/-- Go `type Name int`: the kind of a command. -/
abbrev Name := Int

def BeginSagaCommand : Name := 1
def EndSagaCommand : Name := 2
def BeginTransactionCommand : Name := 3
def EndTransactionCommand : Name := 4
def AbortTransactionCommand : Name := 5
def AbortSagaCommand : Name := 6

/-- Go `command.Command` (without `ID` and `CreatedAt`). -/
structure Command (α : Type) where
  Name : Name := 0
  SagaID : String := ""
  SagaName : String := ""
  SagaParams : Option α := none
  TransactionID : String := ""
  CompensationID : String := ""
  deriving DecidableEq, Repr

/-- Go `command.BeginSaga`; the fresh saga ID is passed in. -/
def BeginSaga {α : Type} (sagaName : String) (sagaID : String) (params : Option α) : Command α :=
  { Name := BeginSagaCommand, SagaID := sagaID, SagaName := sagaName, SagaParams := params }

/-- Go `command.EndSaga`. -/
def EndSaga {α : Type} (sagaName sagaID : String) : Command α :=
  { SagaName := sagaName, Name := EndSagaCommand, SagaID := sagaID }

/-- Go `command.AbortSaga`. -/
def AbortSaga {α : Type} (sagaName sagaID : String) (transactionID : String) : Command α :=
  { Name := AbortSagaCommand, SagaID := sagaID, SagaName := sagaName,
    TransactionID := transactionID }

/-- Go `command.BeginTransaction`. -/
def BeginTransaction {α : Type} (sagaName sagaID : String) (transactionID : String)
    (params : Option α) : Command α :=
  { Name := BeginTransactionCommand, SagaID := sagaID, SagaName := sagaName,
    SagaParams := params, TransactionID := transactionID }

/-- Go `command.EndTransaction`. -/
def EndTransaction {α : Type} (sagaName sagaID transactionID : String)
    (params : Option α) : Command α :=
  { Name := EndTransactionCommand, SagaID := sagaID, SagaName := sagaName,
    SagaParams := params, TransactionID := transactionID }

/-- Go `command.EndTransactionCompensate`. -/
def EndTransactionCompensate {α : Type} (sagaName sagaID : String)
    (transactionID compensationID : String) (params : Option α) : Command α :=
  { Name := EndTransactionCommand, SagaID := sagaID, SagaName := sagaName,
    SagaParams := params, TransactionID := transactionID, CompensationID := compensationID }

/-- Go `command.AbortTransaction`. -/
def AbortTransaction {α : Type} (sagaName sagaID : String) (transactionID : String)
    (params : Option α) : Command α :=
  { Name := AbortTransactionCommand, SagaID := sagaID, SagaName := sagaName,
    SagaParams := params, TransactionID := transactionID }

end command

/-! ## Package `log` (imported as `cmdlog` by the example) -/

namespace cmdlog

/-- The `Key` of the `kafka.Message` that `KafkaCommandLog.Write` builds for a
command: `[]byte(c.SagaID)`. -/
def KafkaCommandLog.messageKey {α : Type} (c : command.Command α) : String := c.SagaID

end cmdlog

/-! ## Package `saga` -/

namespace saga

open command

/-- Go `saga.TransactionFunc`: called with the params, acting on the world. -/
abbrev TransactionFunc (W α : Type) := Option α → W → Option GoError × W

/-- Go `saga.Transaction`; `Func = none` is the nil function. -/
structure Transaction (W α : Type) where
  Name : String := ""
  NextTransactionName : String := ""
  CompensationName : String := ""
  IsSavePoint : Bool := false
  Func : Option (TransactionFunc W α) := none

/-- Go `saga.Compensation`; `Func = none` is the nil function. -/
structure Compensation (W α : Type) where
  Name : String := ""
  NextCompensationName : String := ""
  Func : Option (TransactionFunc W α) := none

/-- Go `saga.Saga`. -/
structure Saga (W α : Type) where
  name : String := ""
  firstTransaction : String := ""
  transactions : GoMap (Transaction W α) := GoMap.empty
  compensations : GoMap (Compensation W α) := GoMap.empty

namespace Saga

variable {W α : Type}

/-- Go `Saga.Name`. -/
def Name (s : Saga W α) : String := s.name

/-- Go `Saga.FirstTransaction`. -/
def FirstTransaction (s : Saga W α) : String := s.firstTransaction

/-- Go `Saga.Next`. -/
def Next (s : Saga W α) (transactionID : String) : String :=
  match s.transactions.get? transactionID with
  | some t => t.NextTransactionName
  | none =>
    match s.compensations.get? transactionID with
    | some c =>
      match s.transactions.get? c.NextCompensationName with
      | some t => if t.IsSavePoint then t.NextTransactionName else c.NextCompensationName
      | none => c.NextCompensationName
    | none => ""

/-- Go `Saga.Compensation`. -/
def Compensation (s : Saga W α) (transactionID : String) : String :=
  match s.transactions.get? transactionID with
  | some t => t.CompensationName
  | none => ""

/-- Go `Saga.ExecuteTransaction`; `none` is the panic of calling a nil `Func`. -/
def ExecuteTransaction (s : Saga W α) (transactionID : String) (data : Option α) (w : W) :
    Option (Option GoError × W) :=
  match s.transactions.get? transactionID with
  | some t => t.Func.map (fun f => f data w)
  | none =>
    match s.compensations.get? transactionID with
    | some c => c.Func.map (fun f => f data w)
    | none =>
      some (some (GoError.errorf ("no transaction or compensation with id " ++ transactionID)), w)

end Saga

/-! ### The builder (`builder.go`) -/

/-- Go `saga.Builder`. -/
structure Builder (W α : Type) where
  sagaName : String
  transactions : List (Transaction W α)
  compensations : List (Compensation W α)

/-- Go `saga.TransactionBuilder`. -/
structure TransactionBuilder (W α : Type) where
  builder : Builder W α
  index : Nat
  t : Transaction W α

section builder

variable {W α : Type}

/-- Go `TransactionBuilder.SavePoint`. -/
def TransactionBuilder.SavePoint (tb : TransactionBuilder W α) : TransactionBuilder W α :=
  { tb with t := { tb.t with IsSavePoint := true } }

/-- The loop of `WithCompensation`: `for i := index - 1; i >= 0; i--`, called with
`index`; it yields the first non-empty `CompensationName` met, and the zero value
`""` when the loop ends without a hit.  An index past the slice cannot occur:
`index` is `0` (from `Begin`) or the slice length (from `Then`). -/
def nearestCompensationName (transactions : List (Transaction W α)) : Nat → String
  | 0 => ""
  | i + 1 =>
    match transactions[i]? with
    | some t =>
      if t.CompensationName ≠ "" then t.CompensationName
      else nearestCompensationName transactions i
    | none => ""

/-- Go `TransactionBuilder.WithCompensation`. -/
def TransactionBuilder.WithCompensation (tb : TransactionBuilder W α) (name : String)
    (f : TransactionFunc W α) : Builder W α :=
  let c : Compensation W α := { Name := name, Func := some f }
  let t := { tb.t with CompensationName := c.Name }
  let c : Compensation W α :=
    if tb.index > 0 then
      { c with NextCompensationName := nearestCompensationName tb.builder.transactions tb.index }
    else c
  { tb.builder with
    transactions := tb.builder.transactions ++ [t]
    compensations := tb.builder.compensations ++ [c] }

/-- Go `TransactionBuilder.NoCompensation`. -/
def TransactionBuilder.NoCompensation (tb : TransactionBuilder W α) : Builder W α :=
  { tb.builder with
    transactions := tb.builder.transactions ++ [tb.t]
    compensations := tb.builder.compensations ++ [{ Name := "" }] }

/-- Go `saga.New`. -/
def New (name : String) : Builder W α :=
  { sagaName := name, transactions := [], compensations := [] }

/-- Go `Builder.Begin`. -/
def Builder.Begin (b : Builder W α) (name : String) (f : TransactionFunc W α) :
    TransactionBuilder W α :=
  { builder := b, index := 0, t := { Name := name, Func := some f } }

/-- Go `Builder.Begin` called with the nil function, `b.Begin(name, nil)`: the
transaction keeps the nil `Func`. -/
def Builder.BeginNil (b : Builder W α) (name : String) : TransactionBuilder W α :=
  { builder := b, index := 0, t := { Name := name, Func := none } }

/-- The assignment `b.transactions[transactionLen-1].NextTransactionName = name`. -/
def setNextOfLast (name : String) : List (Transaction W α) → List (Transaction W α)
  | [] => []
  | [t] => [{ t with NextTransactionName := name }]
  | t :: t' :: ts => t :: setNextOfLast name (t' :: ts)

/-- Go `Builder.Then`. -/
def Builder.Then (b : Builder W α) (name : String) (f : TransactionFunc W α) :
    TransactionBuilder W α :=
  let t : Transaction W α := { Name := name, Func := some f }
  let transactionLen := b.transactions.length
  let index := transactionLen
  let b : Builder W α :=
    if transactionLen > 0 then
      { b with transactions := setNextOfLast t.Name b.transactions }
    else b
  { builder := b, index := index, t := t }

/-- Go `Builder.End`. -/
def Builder.End (b : Builder W α) : Saga W α :=
  match b.transactions with
  | [] => { name := b.sagaName }
  | t0 :: _ =>
    let transactions :=
      b.transactions.foldl (fun m t => m.insert t.Name t) (GoMap.empty : GoMap (Transaction W α))
    let compensations :=
      b.compensations.foldl (fun m c => if c.Name = "" then m else m.insert c.Name c)
        (GoMap.empty : GoMap (Compensation W α))
    { name := b.sagaName
      firstTransaction := t0.Name
      transactions := transactions
      compensations := compensations }

end builder

/-! ### The coordinator (`sec.go`) -/

/-- Go interface `saga.ErrLogger`, acting on the log state `L`. -/
structure ErrLogger (L : Type) where
  Log : GoError → L → L

/-- Go interface `saga.CommandLogger`, acting on the log state `L`. -/
structure CommandLogger (L α : Type) where
  Commit : Command α → L → Option GoError × L
  Read : L → (Command α × Option GoError) × L
  Write : Command α → L → Option GoError × L

/-- Go `saga.SEC`. -/
structure SEC (W L α : Type) where
  errLogger : ErrLogger L
  commandLogger : CommandLogger L α
  sagas : GoMap (Saga W α)

/-- Go `var ErrAbortSaga = errors.New("saga aborted")`. -/
def ErrAbortSaga : GoError := GoError.errorsNew 0 "saga aborted"

section sec

variable {W L α : Type}

/-- Go `saga.NewSEC`. -/
def NewSEC (commandLogger : CommandLogger L α) (errLogger : ErrLogger L) : SEC W L α :=
  { commandLogger := commandLogger, errLogger := errLogger, sagas := GoMap.empty }

/-- Go `SEC.RegisterSaga`. -/
def SEC.RegisterSaga (s : SEC W L α) (saga : Saga W α) : SEC W L α :=
  { s with sagas := s.sagas.insert saga.name saga }

/-- The statement `return s.commandLogger.Write(ctx, c)` of `ProcessCommand`. -/
def SEC.returnWrite (s : SEC W L α) (c : Command α) (st : W × L) :
    Option (Option GoError × (W × L)) :=
  let r := s.commandLogger.Write c st.2
  some (r.1, (st.1, r.2))

/-- Go `SEC.ProcessCommand`, on the state `(world, log)`; `none` is a panic. -/
def SEC.ProcessCommand (s : SEC W L α) (c : Command α) (st : W × L) :
    Option (Option GoError × (W × L)) :=
  match s.sagas.get? c.SagaName with
  | none => some (some (GoError.errorf ("no saga with name " ++ c.SagaName ++ " exists")), st)
  | some saga =>
    if c.Name = BeginSagaCommand then
      let nextTransaction := saga.FirstTransaction
      if nextTransaction = "" then
        s.returnWrite (EndSaga c.SagaName c.SagaID) st
      else
        s.returnWrite (BeginTransaction c.SagaName c.SagaID nextTransaction c.SagaParams) st
    else if c.Name = BeginTransactionCommand then
      match saga.ExecuteTransaction c.TransactionID c.SagaParams st.1 with
      | none => none
      | some (some execErr, w) =>
        if execErr.Is ErrAbortSaga then
          s.returnWrite (AbortSaga c.SagaName c.SagaID c.TransactionID) (w, st.2)
        else
          s.returnWrite (AbortTransaction c.SagaName c.SagaID c.TransactionID c.SagaParams)
            (w, st.2)
      | some (none, w) =>
        s.returnWrite (EndTransaction c.SagaName c.SagaID c.TransactionID c.SagaParams) (w, st.2)
    else if c.Name = AbortTransactionCommand then
      s.returnWrite (BeginTransaction c.SagaName c.SagaID c.TransactionID c.SagaParams) st
    else if c.Name = AbortSagaCommand then
      s.returnWrite
        (EndTransactionCompensate c.SagaName c.SagaID c.TransactionID
          (saga.Compensation c.TransactionID) c.SagaParams) st
    else if c.Name = EndTransactionCommand then
      let nextTransaction := saga.Next c.TransactionID
      let nextTransaction := if c.CompensationID ≠ "" then c.CompensationID else nextTransaction
      if nextTransaction = "" then
        s.returnWrite (EndSaga c.SagaName c.SagaID) st
      else
        s.returnWrite (BeginTransaction c.SagaName c.SagaID nextTransaction c.SagaParams) st
    else if c.Name = EndSagaCommand then
      some (none, st)
    else
      some (some (GoError.errorf ("unknow command " ++ toString c.Name)), st)

end sec

/-! ### Linear builder chains and runs of the coordinator -/

/-- One link of a builder chain: `Begin` or `Then` with `name` and `func`, `SavePoint`
when `savePoint` is set, then `WithCompensation` with the given name and function,
or `NoCompensation` when `compensation` is `none`. -/
structure Step (W α : Type) where
  name : String
  func : TransactionFunc W α
  savePoint : Bool := false
  compensation : Option (String × TransactionFunc W α) := none

section runs

variable {W L α : Type}

/-- The name given to `WithCompensation` by a step, `""` for `NoCompensation`. -/
def Step.compensationName (d : Step W α) : String :=
  match d.compensation with
  | some (n, _) => n
  | none => ""

/-- Finalise a pending transaction the way the step says. -/
def Step.finalise (d : Step W α) (tb : TransactionBuilder W α) : Builder W α :=
  let tb := if d.savePoint then tb.SavePoint else tb
  match d.compensation with
  | some (n, f) => tb.WithCompensation n f
  | none => tb.NoCompensation

/-- Extend a builder by one step with `Then`. -/
def Step.andThen (b : Builder W α) (d : Step W α) : Builder W α :=
  d.finalise (b.Then d.name d.func)

/-- Linear use of the builder: `New`, `Begin` for the first step, `Then` for each
later one, every step finalised, then `End`. -/
def buildLinear (sagaName : String) : List (Step W α) → Saga W α
  | [] => (New sagaName).End
  | d :: ds => (ds.foldl Step.andThen (d.finalise ((New sagaName).Begin d.name d.func))).End

/-- An in-memory command log: the state is the queue of written, unread commands. -/
def memLogger : CommandLogger (List (Command α)) α where
  Commit := fun _ l => (none, l)
  Read := fun l =>
    match l with
    | [] => ((({} : Command α), some (GoError.errorf "no command")), [])
    | c :: rest => ((c, none), rest)
  Write := fun c l => (none, l ++ [c])

/-- An error sink that drops what it is given. -/
def discardErrLogger : ErrLogger (List (Command α)) where
  Log := fun _ l => l

/-- The coordinator `s` with its command log replaced by the in-memory one. -/
def SEC.inMemory (s : SEC W L α) : SEC W (List (Command α)) α :=
  { errLogger := discardErrLogger, commandLogger := memLogger, sagas := s.sagas }

/-- Feed `c` to `ProcessCommand`, then the follow-up it wrote, and so on, for at
most `fuel` commands; the result lists the commands processed, in order.  The
run stops after a command for which nothing was written. -/
def run (s : SEC W L α) : Nat → Command α → W → List (Command α)
  | 0, _, _ => []
  | fuel + 1, c, w =>
    c :: match s.inMemory.ProcessCommand c (w, []) with
      | some (_, (w', [c'])) => run s fuel c' w'
      | _ => []

end runs

/-! ### The records a linear chain leaves in the builder -/

section shapes

variable {W α : Type}

/-- The transaction record of step `d` when the step after it is named `next`
(`""` when `d` is the last step). -/
def Step.transaction (d : Step W α) (next : String) : Transaction W α :=
  { Name := d.name, NextTransactionName := next, CompensationName := d.compensationName,
    IsSavePoint := d.savePoint, Func := some d.func }

/-- The compensation record of step `d` when the nearest earlier compensation is
`prev`; the placeholder with an empty name for `NoCompensation`. -/
def Step.compensationRecord (d : Step W α) (prev : String) : Compensation W α :=
  match d.compensation with
  | some (n, f) => { Name := n, NextCompensationName := prev, Func := some f }
  | none => { Name := "" }

/-- The name of the first step, `""` for no steps. -/
def firstName : List (Step W α) → String
  | [] => ""
  | d :: _ => d.name

/-- The last non-empty string of `names`, `prev` when there is none. -/
def lastNonEmpty (prev : String) (names : List String) : String :=
  names.foldl (fun p n => if n ≠ "" then n else p) prev

/-- The transaction records of a chain, in declaration order. -/
def transactionsOf : List (Step W α) → List (Transaction W α)
  | [] => []
  | d :: ds => d.transaction (firstName ds) :: transactionsOf ds

/-- The compensation records of a chain, in declaration order, `prev` being the
nearest compensation declared before the chain. -/
def compensationsOf (prev : String) : List (Step W α) → List (Compensation W α)
  | [] => []
  | d :: ds =>
    d.compensationRecord prev ::
      compensationsOf (if d.compensationName ≠ "" then d.compensationName else prev) ds

/-- Every name a chain declares: the transaction names, then the non-empty
compensation names. -/
def declaredNames (ds : List (Step W α)) : List String :=
  ds.map Step.name ++ (ds.map Step.compensationName).filter (fun n => decide (n ≠ ""))

end shapes

/-! ### Expected traces -/

section traces

variable {α : Type}

/-- The follow-up `ProcessCommand` writes once the next step is known: `EndSaga`
when `next` is empty, `BeginTransaction` of `next` otherwise. -/
def beginOrEnd (sagaName sagaID : String) (next : String) (params : Option α) : Command α :=
  if next = "" then EndSaga sagaName sagaID
  else BeginTransaction sagaName sagaID next params

/-- For each name in turn, `BeginTransaction` then `EndTransaction` of that name. -/
def beginEndPairs (sagaName sagaID : String) (params : Option α) : List String → List (Command α)
  | [] => []
  | t :: ts =>
    BeginTransaction sagaName sagaID t params ::
      EndTransaction sagaName sagaID t params :: beginEndPairs sagaName sagaID params ts

/-- The pair `BeginTransaction`, `AbortTransaction` of step `t`, `m` times. -/
def retryPairs (sagaName sagaID : String) (t : String) (params : Option α) :
    Nat → List (Command α)
  | 0 => []
  | m + 1 =>
    BeginTransaction sagaName sagaID t params ::
      AbortTransaction sagaName sagaID t params :: retryPairs sagaName sagaID t params m

/-- The follow-up `ProcessCommand` writes for `BeginTransaction` of step `t`, by the
error `r` the body returned. -/
def afterBody (sagaName sagaID : String) (t : String) (params : Option α)
    (r : Option GoError) : Command α :=
  match r with
  | none => EndTransaction sagaName sagaID t params
  | some e =>
    if e.Is ErrAbortSaga then AbortSaga sagaName sagaID t
    else AbortTransaction sagaName sagaID t params

end traces

/-! ### Scenarios: concrete bodies, chains and coordinators -/

section scenarios

/-- A body that returns nil. -/
def bodyOk {W : Type} : TransactionFunc W Nat := fun _ w => (none, w)

/-- The body of `PayTransferBooking` in `example/main.go`: it returns
`fmt.Errorf("ooops: %w", saga.ErrAbortSaga)`. -/
def bodyAbort {W : Type} : TransactionFunc W Nat :=
  fun _ w => (some (GoError.wrap "ooops: saga aborted" ErrAbortSaga), w)

/-- A body that returns `ErrAbortSaga` itself. -/
def bodyAbortBare {W : Type} : TransactionFunc W Nat := fun _ w => (some ErrAbortSaga, w)

/-- A body over a call counter: it returns a plain error on its first two calls
and nil afterwards. -/
def bodyFlaky : TransactionFunc Nat Nat :=
  fun _ w => if w < 2 then (some (GoError.errorf "busy"), w + 1) else (none, w + 1)

/-- `NewSEC` over the in-memory log, with one saga registered. -/
def secOf {W : Type} (sg : Saga W Nat) : SEC W (List (Command Nat)) Nat :=
  (NewSEC memLogger discardErrLogger).RegisterSaga sg

/-- `A -> B`, both succeeding; `A` has the compensation `cA`, `B` has none. -/
def chainOk : List (Step Unit Nat) :=
  [{ name := "A", func := bodyOk, compensation := some ("cA", bodyOk) },
   { name := "B", func := bodyOk }]

/-- `A -> B -> C` with the compensations `cA`, `cB`, `cC`; `C` aborts the saga. -/
def chainABC : List (Step Unit Nat) :=
  [{ name := "A", func := bodyOk, compensation := some ("cA", bodyOk) },
   { name := "B", func := bodyOk, compensation := some ("cB", bodyOk) },
   { name := "C", func := bodyAbort, compensation := some ("cC", bodyOk) }]

/-- The chain `chainABC` with `B` marked as a save-point. -/
def chainABCSave : List (Step Unit Nat) :=
  [{ name := "A", func := bodyOk, compensation := some ("cA", bodyOk) },
   { name := "B", func := bodyOk, savePoint := true, compensation := some ("cB", bodyOk) },
   { name := "C", func := bodyAbort, compensation := some ("cC", bodyOk) }]

/-- `A -> B`; `A` has the compensation `cA`, `B` has none and aborts the saga. -/
def chainAB : List (Step Unit Nat) :=
  [{ name := "A", func := bodyOk, compensation := some ("cA", bodyOk) },
   { name := "B", func := bodyAbort }]

/-- The single step `A` with the compensation `cA`; `A` aborts the saga. -/
def chainAbortFirst : List (Step Unit Nat) :=
  [{ name := "A", func := bodyAbort, compensation := some ("cA", bodyOk) }]

/-- The single step `A`, which aborts the saga, with a compensation `cA` whose
body returns `ErrAbortSaga`. -/
def chainBadCompensation : List (Step Unit Nat) :=
  [{ name := "A", func := bodyAbort, compensation := some ("cA", bodyAbortBare) }]

/-- `A -> B`, no compensations; `A` fails twice with a plain error, then succeeds. -/
def chainFlaky : List (Step Nat Nat) :=
  [{ name := "A", func := bodyFlaky }, { name := "B", func := bodyOk }]

end scenarios

/-! ### Navigation: the reference definition, walks, cleared save-points -/

section navigation

variable {W α : Type}

/-- The reference definition of `next(stepID)`, in the words of the specification:
a transaction gives its `nextTransactionName`; a compensation `c` with
`m = c.nextCompensationName` gives the `nextTransactionName` of transaction `m` if
`m` is non-empty and identifies a transaction whose save-point flag is set, and `m`
otherwise; anything else gives the empty string. -/
def Saga.nextSpec (s : Saga W α) (stepID : String) : String :=
  match s.transactions.get? stepID with
  | some t => t.NextTransactionName
  | none =>
    match s.compensations.get? stepID with
    | some c =>
      let m := c.NextCompensationName
      match (if m ≠ "" then s.transactions.get? m else none) with
      | some t => if t.IsSavePoint then t.NextTransactionName else m
      | none => m
    | none => ""

/-- The saga `s` with every `IsSavePoint` flag cleared. -/
def Saga.clearSavePoints (s : Saga W α) : Saga W α :=
  { s with transactions := s.transactions.mapValues (fun t => { t with IsSavePoint := false }) }

/-- Follow `Next` from `x` for at most `fuel` steps, listing the step IDs met
before the empty string. -/
def Saga.walkNext (s : Saga W α) : Nat → String → List String
  | 0, _ => []
  | fuel + 1, x => if x = "" then [] else x :: walkNext s fuel (s.Next x)

/-- Follow the `NextCompensationName` links from `x` for at most `fuel` steps,
listing the names met before the empty string; a name without a compensation
record ends the walk. -/
def Saga.walkCompensations (s : Saga W α) : Nat → String → List String
  | 0, _ => []
  | fuel + 1, x =>
    if x = "" then []
    else
      x :: match s.compensations.get? x with
        | some c => walkCompensations s fuel c.NextCompensationName
        | none => []

/-- A first step named by the empty string and marked as a save-point, then `B`
with the compensation `cB`. -/
def chainEmptyName : List (Step Unit Nat) :=
  [{ name := "", func := bodyOk, savePoint := true },
   { name := "B", func := bodyOk, compensation := some ("cB", bodyOk) }]

end navigation

/-! ### The `Start` loop and a tracing command log -/

section loop

variable {W L α : Type}

/-- Go `fmt.Errorf("command read failed: %w", err)`. -/
def readFailed (err : GoError) : GoError :=
  GoError.wrap ("command read failed: " ++ err.Error) err

/-- Go `fmt.Errorf("process command %s failed: %w", c.ID, err)`; a command here has
no `ID`, and `%s` is rendered as for the empty ID. -/
def processFailed (err : GoError) : GoError :=
  GoError.wrap ("process command " ++ "" ++ " failed: " ++ err.Error) err

/-- Go `fmt.Errorf("command %s commit failed: %w", c.ID, err)`; a command here has
no `ID`, and `%s` is rendered as for the empty ID. -/
def commitFailed (err : GoError) : GoError :=
  GoError.wrap ("command " ++ "" ++ " commit failed: " ++ err.Error) err

/-- The `default` branch of the `select` in `SEC.Start`: one iteration of the loop,
from `Read` to the `continue` or the end of the branch; `none` is a panic. -/
def SEC.startIteration (s : SEC W L α) (st : W × L) : Option (W × L) :=
  let rd := s.commandLogger.Read st.2
  match rd.1.2 with
  | some err => some (st.1, s.errLogger.Log (readFailed err) rd.2)
  | none =>
    match s.ProcessCommand rd.1.1 (st.1, rd.2) with
    | none => none
    | some (some err, st') =>
      some (st'.1, s.errLogger.Log (processFailed err) st'.2)
    | some (none, st') =>
      let cm := s.commandLogger.Commit rd.1.1 st'.2
      match cm.1 with
      | some err =>
        some (st'.1, s.errLogger.Log (commitFailed err) cm.2)
      | none => some (st'.1, cm.2)

/-- How a bounded observation of the `Start` loop ends. -/
inductive Loop (σ : Type) where
  /-- `ctx.Done()` was ready: `Start` returned -/
  | returned (st : σ)
  /-- the observation ended with the loop still going -/
  | running (st : σ)
  /-- an iteration panicked -/
  | panicked
  deriving DecidableEq

/-- Go `SEC.Start`, observed for at most `fuel` iterations: `done i` tells whether
`ctx.Done()` is ready when the `select` is evaluated for the `i`-th time. -/
def SEC.Start (s : SEC W L α) (done : Nat → Bool) : Nat → Nat → W × L → Loop (W × L)
  | 0, _, st => Loop.running st
  | fuel + 1, i, st =>
    if done i then Loop.returned st
    else
      match s.startIteration st with
      | none => Loop.panicked
      | some st' => SEC.Start s done fuel (i + 1) st'

/-- The state after `k` consecutive iterations of the loop of `Start`; `none` when
one of them panicked. -/
def SEC.iterations (s : SEC W L α) : Nat → W × L → Option (W × L)
  | 0, st => some st
  | k + 1, st =>
    match s.startIteration st with
    | none => none
    | some st' => SEC.iterations s k st'

/-- A call on the command log or the error sink. -/
inductive Event (α : Type) where
  | read
  | write (c : Command α)
  | commit (c : Command α)
  | log (e : GoError)
  deriving DecidableEq, Repr

/-- The command log `cl`, recording every call next to its own state. -/
def CommandLogger.traced (cl : CommandLogger L α) : CommandLogger (L × List (Event α)) α where
  Commit := fun c st => ((cl.Commit c st.1).1, ((cl.Commit c st.1).2, st.2 ++ [Event.commit c]))
  Read := fun st => ((cl.Read st.1).1, ((cl.Read st.1).2, st.2 ++ [Event.read]))
  Write := fun c st => ((cl.Write c st.1).1, ((cl.Write c st.1).2, st.2 ++ [Event.write c]))

/-- The error sink `el`, recording every call next to its own state. -/
def ErrLogger.traced (el : ErrLogger L) : ErrLogger (L × List (Event α)) where
  Log := fun e st => (el.Log e st.1, st.2 ++ [Event.log e])

/-- The coordinator `s` over the recording command log and error sink. -/
def SEC.traced (s : SEC W L α) : SEC W (L × List (Event α)) α :=
  { errLogger := s.errLogger.traced, commandLogger := s.commandLogger.traced, sagas := s.sagas }

/-- The calls recorded by a traced operation, none when it panicked. -/
def eventsOf {β : Type} : Option (β × (W × (L × List (Event α)))) → List (Event α)
  | some r => r.2.2.2
  | none => []

/-- The calls recorded by a traced iteration of the loop, none when it panicked. -/
def iterationEvents : Option (W × (L × List (Event α))) → List (Event α)
  | some r => r.2.2
  | none => []

/-- The six command kinds. -/
def commandKinds : List Name :=
  [BeginSagaCommand, EndSagaCommand, BeginTransactionCommand, EndTransactionCommand,
   AbortTransactionCommand, AbortSagaCommand]

/-- The five command kinds with a follow-up. -/
def writingKinds : List Name :=
  [BeginSagaCommand, BeginTransactionCommand, AbortTransactionCommand, AbortSagaCommand,
   EndTransactionCommand]

/-- An in-memory command log whose `Write` always fails. -/
def failingWriteLogger : CommandLogger (List (Command α)) α where
  Commit := fun _ l => (none, l)
  Read := memLogger.Read
  Write := fun _ l => (some (GoError.errorf "failed command producing"), l)

end loop

/-- The coordinator of `secOf` for the saga `A -> B`, over a command log whose
`Write` always fails. -/
def secFailingWrite : SEC Unit (List (Command Nat)) Nat :=
  { errLogger := discardErrLogger
    commandLogger := failingWriteLogger
    sagas := (secOf (buildLinear "S" chainOk)).sagas }

/-! ### The builder over shared backing arrays

`Builder.transactions` and `Builder.compensations` are Go slices: copying a
`Builder` copies the slice headers, not the backing arrays.  Here the arrays live in
a `Heap`, every builder operation that touches them takes and returns the heap, and
`append` is Go's: it writes in place while the capacity lasts and moves to a fresh
array otherwise.  The Go runtime's choice of the new capacity is the parameter
`grow`. -/

namespace shared

/-- A Go slice header over the backing array number `arr`, starting at its first
cell (the builder never reslices). -/
structure Slice where
  arr : Nat
  len : Nat
  cap : Nat
  deriving DecidableEq, Repr

/-- The backing arrays of one element type, in allocation order; `arrays[i]` has as
many cells as its capacity. -/
structure Mem (T : Type) where
  arrays : List (List T)

/-- Apply `f` to the cell `i` of a list, if there is one. -/
def updateAt {T : Type} (f : T → T) : Nat → List T → List T
  | _, [] => []
  | 0, x :: xs => f x :: xs
  | i + 1, x :: xs => x :: updateAt f i xs

/-- The elements of the slice `s`: the first `s.len` cells of its backing array. -/
def Mem.view {T : Type} (m : Mem T) (s : Slice) : List T :=
  (m.arrays.getD s.arr []).take s.len

/-- Go `s[i] = f(s[i])`, through the backing array. -/
def Mem.modifyAt {T : Type} (m : Mem T) (s : Slice) (i : Nat) (f : T → T) : Mem T :=
  ⟨updateAt (updateAt f i) s.arr m.arrays⟩

/-- Go `append(s, x)`: in place when `len < cap`, else into a fresh array of
capacity `grow s.cap` (at least `len + 1`), padded with the zero value. -/
def Mem.append {T : Type} (grow : Nat → Nat) (zero : T) (m : Mem T) (s : Slice) (x : T) :
    Slice × Mem T :=
  if s.len < s.cap then
    ({ s with len := s.len + 1 }, m.modifyAt s s.len (fun _ => x))
  else
    let cap := max (s.len + 1) (grow s.cap)
    ({ arr := m.arrays.length, len := s.len + 1, cap := cap },
      ⟨m.arrays ++ [m.view s ++ x :: List.replicate (cap - (s.len + 1)) zero]⟩)

/-- The backing arrays of the two slices of the builders. -/
structure Heap (W α : Type) where
  transactions : Mem (Transaction W α)
  compensations : Mem (Compensation W α)

/-- Go `saga.Builder`, with slice headers. -/
structure Builder where
  sagaName : String
  transactions : Slice
  compensations : Slice
  deriving DecidableEq, Repr

/-- Go `saga.TransactionBuilder`, with slice headers in its builder. -/
structure TransactionBuilder (W α : Type) where
  builder : Builder
  index : Nat
  t : Transaction W α

section sharedBuilder

variable {W α : Type}

/-- The heap before any allocation. -/
def Heap.empty : Heap W α := { transactions := ⟨[]⟩, compensations := ⟨[]⟩ }

/-- Go `saga.New`: two empty slice literals, of capacity 0. -/
def New (name : String) : Builder :=
  { sagaName := name, transactions := { arr := 0, len := 0, cap := 0 },
    compensations := { arr := 0, len := 0, cap := 0 } }

/-- Go `Builder.Begin`. -/
def Builder.Begin (b : Builder) (name : String) (f : TransactionFunc W α) :
    TransactionBuilder W α :=
  { builder := b, index := 0, t := { Name := name, Func := some f } }

/-- Go `Builder.Then`: the assignment to `b.transactions[transactionLen-1]` goes
through the backing array that `b` shares with every copy of it. -/
def Builder.Then (b : Builder) (name : String) (f : TransactionFunc W α) (h : Heap W α) :
    TransactionBuilder W α × Heap W α :=
  let t : Transaction W α := { Name := name, Func := some f }
  let transactionLen := b.transactions.len
  let index := transactionLen
  let h : Heap W α :=
    if transactionLen > 0 then
      { transactions :=
          h.transactions.modifyAt b.transactions (transactionLen - 1)
            (fun x => { x with NextTransactionName := t.Name })
        compensations := h.compensations }
    else h
  ({ builder := b, index := index, t := t }, h)

/-- Go `TransactionBuilder.SavePoint`. -/
def TransactionBuilder.SavePoint (tb : TransactionBuilder W α) : TransactionBuilder W α :=
  { tb with t := { tb.t with IsSavePoint := true } }

/-- Go `TransactionBuilder.WithCompensation`. -/
def TransactionBuilder.WithCompensation (grow : Nat → Nat) (tb : TransactionBuilder W α)
    (name : String) (f : TransactionFunc W α) (h : Heap W α) : Builder × Heap W α :=
  let c : Compensation W α := { Name := name, Func := some f }
  let t := { tb.t with CompensationName := c.Name }
  let c : Compensation W α :=
    if tb.index > 0 then
      { c with NextCompensationName :=
          nearestCompensationName (h.transactions.view tb.builder.transactions) tb.index }
    else c
  let ts := h.transactions.append grow {} tb.builder.transactions t
  let cs := h.compensations.append grow {} tb.builder.compensations c
  ({ tb.builder with transactions := ts.1, compensations := cs.1 },
    { transactions := ts.2, compensations := cs.2 })

/-- Go `TransactionBuilder.NoCompensation`. -/
def TransactionBuilder.NoCompensation (grow : Nat → Nat) (tb : TransactionBuilder W α)
    (h : Heap W α) : Builder × Heap W α :=
  let ts := h.transactions.append grow {} tb.builder.transactions tb.t
  let cs := h.compensations.append grow {} tb.builder.compensations { Name := "" }
  ({ tb.builder with transactions := ts.1, compensations := cs.1 },
    { transactions := ts.2, compensations := cs.2 })

/-- The builder value that `b` denotes in the heap `h`: its slices read out. -/
def Builder.read (b : Builder) (h : Heap W α) : saga.Builder W α :=
  { sagaName := b.sagaName
    transactions := h.transactions.view b.transactions
    compensations := h.compensations.view b.compensations }

/-- Go `Builder.End`: it only reads the two slices. -/
def Builder.End (b : Builder) (h : Heap W α) : Saga W α := (b.read h).End

/-- Extend `b` by one step with `Then`, in the heap `h`. -/
def andThen (grow : Nat → Nat) (bh : Builder × Heap W α) (d : Step W α) : Builder × Heap W α :=
  let r := bh.1.Then d.name d.func bh.2
  let tb := if d.savePoint then r.1.SavePoint else r.1
  match d.compensation with
  | some (n, f) => tb.WithCompensation grow n f r.2
  | none => tb.NoCompensation grow r.2

/-- A growth policy for `append`: doubling.  The Go runtime rounds the doubled
capacity up to an allocation size class and so may give more (a full slice of
capacity 8 can grow beyond 16); up to capacity 4, all that the scenarios here reach,
the two agree. -/
def doubling (cap : Nat) : Nat := 2 * cap

end sharedBuilder

end shared

/-! ### Scenarios: branching from a builder value, `Begin` on a builder with a step -/

section branching

/-- `b = New("s").Begin("A", f).NoCompensation()`, with the heap it leaves. -/
def branchBase (grow : Nat → Nat) : shared.Builder × shared.Heap Unit Nat :=
  ((shared.New "s").Begin "A" bodyOk).NoCompensation grow shared.Heap.empty

/-- The heap after evaluating `b.Then("B", g).NoCompensation()` for the `b` of
`branchBase`, with the builder that call returns. -/
def branchThenB (grow : Nat → Nat) : shared.Builder × shared.Heap Unit Nat :=
  shared.TransactionBuilder.NoCompensation grow
    ((branchBase grow).1.Then "B" bodyOk (branchBase grow).2).1
    ((branchBase grow).1.Then "B" bodyOk (branchBase grow).2).2

/-- The builder after the linear chain `A -> B -> C` of `chainABC`, with its heap:
three cells used of a capacity of four. -/
def branchBase3 : shared.Builder × shared.Heap Unit Nat :=
  chainABC.foldl (shared.andThen shared.doubling) (shared.New "s", shared.Heap.empty)

/-- The first branch from `branchBase3`: `b.Then("X", f).NoCompensation()`. -/
def branchX : shared.Builder × shared.Heap Unit Nat :=
  shared.andThen shared.doubling branchBase3 { name := "X", func := bodyOk }

/-- The second branch from the same builder value, evaluated after the first:
`b.Then("Y", f).NoCompensation()`. -/
def branchY : shared.Builder × shared.Heap Unit Nat :=
  shared.andThen shared.doubling (branchBase3.1, branchX.2) { name := "Y", func := bodyOk }

/-- `New("S").Begin("A", f).NoCompensation().Begin("B", f).NoCompensation().End()`:
`Begin` called on a builder that already holds the transaction `A`. -/
def sagaBeginTwice : Saga Unit Nat :=
  ((((New "S").Begin "A" bodyOk).NoCompensation).Begin "B" bodyOk).NoCompensation.End

end branching

/-- The builder after the linear chain `ds` followed by a step `e` that is started
with `Begin` instead of `Then`. -/
def beginAfter {W α : Type} (n : String) (ds : List (Step W α)) (e : Step W α) : Builder W α :=
  e.finalise ((ds.foldl Step.andThen (New n)).Begin e.name e.func)

/-- A slice is well placed in a memory when its length is within its capacity and
its capacity within its backing array. -/
def shared.Mem.Holds {T : Type} (m : shared.Mem T) (s : shared.Slice) : Prop :=
  s.len ≤ s.cap ∧ s.cap ≤ (m.arrays.getD s.arr []).length

instance shared.Mem.decidableHolds {T : Type} (m : shared.Mem T) (s : shared.Slice) :
    Decidable (m.Holds s) := by
  unfold shared.Mem.Holds
  infer_instance

/-- A first step named by the empty string that is no save-point, then `B` with the
compensation `cB`. -/
def chainEmptyNamePlain : List (Step Unit Nat) :=
  [{ name := "", func := bodyOk },
   { name := "B", func := bodyOk, compensation := some ("cB", bodyOk) }]

/-- The step `B` with the compensation `cB`, then a last step named by the empty
string and marked as a save-point, with the compensation `cE`. -/
def chainEmptyNameLast : List (Step Unit Nat) :=
  [{ name := "B", func := bodyOk, compensation := some ("cB", bodyOk) },
   { name := "", func := bodyOk, savePoint := true, compensation := some ("cE", bodyOk) }]

/-- A saga value whose compensation `cB` links to the transaction `A`, a save-point:
`transactions = {A, B}` with `A.NextTransactionName = "B"`, and
`compensations = {cB}` with `cB.NextCompensationName = "A"`.  The builder makes no
such value: it links a compensation to a compensation name or to the empty string. -/
def sagaLinkedToTransaction : Saga Unit Nat :=
  { name := "S", firstTransaction := "A",
    transactions :=
      (GoMap.empty.insert "A"
        { Name := "A", NextTransactionName := "B", IsSavePoint := true, Func := some bodyOk }).insert
        "B" { Name := "B", CompensationName := "cB", Func := some bodyOk },
    compensations :=
      GoMap.empty.insert "cB" { Name := "cB", NextCompensationName := "A", Func := some bodyOk } }

/-- `New("S").Begin("A", nil).NoCompensation().End()`: one step, whose function is
nil. -/
def sagaNilFunc : Saga Unit Nat := ((New "S").BeginNil "A").NoCompensation.End

end saga

/-! # Theorems -/

namespace GoMap

variable {V : Type}

theorem get?_empty (k : String) : (GoMap.empty : GoMap V).get? k = none := rfl

theorem find?_filter_ne (es : List (String × V)) (k k' : String) (h : k' ≠ k) :
    (es.filter (fun e => decide (e.1 ≠ k))).find? (fun e => decide (e.1 = k')) =
      es.find? (fun e => decide (e.1 = k')) := by
  induction es with
  | nil => rfl
  | cons e es ih =>
    by_cases hk : e.1 = k
    · have hk' : ¬ e.1 = k' := fun h' => h (h'.symm.trans hk)
      have h1 : decide (e.1 ≠ k) = false := by simpa using hk
      have h2 : decide (e.1 = k') = false := by simpa using hk'
      rw [List.filter_cons, h1, List.find?_cons, h2]
      exact ih
    · have h1 : decide (e.1 ≠ k) = true := by simpa using hk
      rw [List.filter_cons, h1]
      simp only [if_true, List.find?_cons]
      rw [ih]

theorem get?_insert (m : GoMap V) (k k' : String) (v : V) :
    (m.insert k v).get? k' = if k' = k then some v else m.get? k' := by
  unfold GoMap.get? GoMap.insert
  by_cases h : k' = k
  · subst h; simp [List.find?_cons]
  · have h' : ¬ k = k' := fun e => h e.symm
    simp only [List.find?_cons, h', decide_False, if_neg h]
    rw [find?_filter_ne _ _ _ h]

/-- Inserting a list of values under their keys, as the loops of `End` do. -/
theorem get?_foldl_not_mem (key : V → String) (vs : List V) (m : GoMap V) (k : String)
    (h : k ∉ vs.map key) :
    (vs.foldl (fun m v => m.insert (key v) v) m).get? k = m.get? k := by
  induction vs generalizing m with
  | nil => rfl
  | cons v vs ih =>
    simp only [List.map_cons, List.mem_cons, not_or] at h
    rw [List.foldl_cons, ih _ h.2, get?_insert, if_neg h.1]

theorem get?_foldl_mem (key : V → String) (vs : List V) (m : GoMap V) (v : V)
    (hnd : (vs.map key).Nodup) (hv : v ∈ vs) :
    (vs.foldl (fun m v => m.insert (key v) v) m).get? (key v) = some v := by
  induction vs generalizing m with
  | nil => cases hv
  | cons a vs ih =>
    rw [List.map_cons, List.nodup_cons] at hnd
    rw [List.foldl_cons]
    rcases List.mem_cons.1 hv with rfl | hv'
    · rw [get?_foldl_not_mem key vs _ _ hnd.1, get?_insert, if_pos rfl]
    · exact ih _ hnd.2 hv'

/-- The loop of `End` over the compensations skips the records with an empty name. -/
theorem foldl_skip_empty (key : V → String) (vs : List V) (m : GoMap V) :
    vs.foldl (fun m v => if key v = "" then m else m.insert (key v) v) m =
      (vs.filter (fun v => decide (key v ≠ ""))).foldl (fun m v => m.insert (key v) v) m := by
  induction vs generalizing m with
  | nil => rfl
  | cons v vs ih =>
    by_cases h : key v = ""
    · have h1 : decide (key v ≠ "") = false := by simpa using h
      rw [List.foldl_cons, if_pos h, List.filter_cons, h1]
      exact ih m
    · have h1 : decide (key v ≠ "") = true := by simpa using h
      rw [List.foldl_cons, if_neg h, List.filter_cons, h1]
      exact ih _

theorem get?_mapValues (f : V → V) (m : GoMap V) (k : String) :
    (m.mapValues f).get? k = (m.get? k).map f := by
  unfold GoMap.get? GoMap.mapValues
  rcases m with ⟨es⟩
  induction es with
  | nil => rfl
  | cons e es ih =>
    simp only [List.map_cons, List.find?_cons]
    by_cases h : e.1 = k
    · simp [h]
    · simp only [h, decide_False]
      exact ih

/-- A binding found after the insertions of `End` is one of the inserted values,
or was bound before. -/
theorem mem_of_get?_foldl (key : V → String) (vs : List V) (m : GoMap V) (k : String) (v : V)
    (h : (vs.foldl (fun m v => m.insert (key v) v) m).get? k = some v) :
    v ∈ vs ∨ m.get? k = some v := by
  induction vs generalizing m with
  | nil => exact Or.inr h
  | cons a vs ih =>
    rw [List.foldl_cons] at h
    rcases ih _ h with h1 | h1
    · exact Or.inl (List.mem_cons_of_mem _ h1)
    · rw [get?_insert] at h1
      by_cases hk : k = key a
      · rw [if_pos hk] at h1
        exact Or.inl (by rw [← Option.some.inj h1]; exact List.mem_cons_self _ _)
      · rw [if_neg hk] at h1
        exact Or.inr h1

/-- With distinct keys, exactly the inserted keys are bound. -/
theorem isSome_get?_foldl (key : V → String) (vs : List V) (k : String)
    (hnd : (vs.map key).Nodup) :
    ((vs.foldl (fun m v => m.insert (key v) v) GoMap.empty).get? k).isSome = true ↔
      k ∈ vs.map key := by
  constructor
  · intro h
    by_contra hk
    rw [get?_foldl_not_mem key vs _ k hk] at h
    exact absurd h (by simp [get?_empty])
  · intro h
    obtain ⟨v, hv, rfl⟩ := List.mem_map.1 h
    rw [get?_foldl_mem key vs _ v hnd hv]
    rfl

/-- An inserted key is bound, whatever was inserted after it. -/
theorem get?_foldl_ne_none (key : V → String) (vs : List V) (m : GoMap V) (k : String)
    (h : k ∈ vs.map key) :
    (vs.foldl (fun m v => m.insert (key v) v) m).get? k ≠ none := by
  induction vs generalizing m with
  | nil => cases h
  | cons a vs ih =>
    rw [List.foldl_cons]
    by_cases hk : k ∈ vs.map key
    · exact ih _ hk
    · rw [get?_foldl_not_mem key vs _ k hk, get?_insert]
      rw [List.map_cons, List.mem_cons] at h
      rcases h with h | h
      · rw [if_pos h]; exact Option.some_ne_none _
      · exact absurd h hk

/-- A key is unbound exactly when it is not among the keys. -/
theorem get?_eq_none_iff (m : GoMap V) (k : String) : m.get? k = none ↔ k ∉ m.keys := by
  unfold get? keys
  rw [Option.map_eq_none', List.find?_eq_none]
  constructor
  · intro h hk
    obtain ⟨e, he, rfl⟩ := List.mem_map.1 hk
    exact h e he (by simp)
  · intro h e he
    simp only [decide_eq_true_eq]
    intro hk
    exact h (List.mem_map.2 ⟨e, he, hk⟩)

end GoMap

namespace saga

open command

variable {W α : Type}

/-! ### What a linear chain leaves in the builder -/

theorem setNextOfLast_nil (x : String) :
    setNextOfLast x ([] : List (Transaction W α)) = [] := rfl

theorem length_setNextOfLast (x : String) (ts : List (Transaction W α)) :
    (setNextOfLast x ts).length = ts.length := by
  induction ts with
  | nil => rfl
  | cons t ts ih =>
    cases ts with
    | nil => rfl
    | cons t' ts => simp only [setNextOfLast, List.length_cons] at ih ⊢; omega

theorem map_compensationName_setNextOfLast (x : String) (ts : List (Transaction W α)) :
    (setNextOfLast x ts).map Transaction.CompensationName = ts.map Transaction.CompensationName := by
  induction ts with
  | nil => rfl
  | cons t ts ih =>
    cases ts with
    | nil => rfl
    | cons t' ts => simp only [setNextOfLast, List.map_cons] at ih ⊢; rw [ih]

theorem transactionsOf_cons (d : Step W α) (ds : List (Step W α)) :
    transactionsOf (d :: ds) = d.transaction (firstName ds) :: transactionsOf ds := rfl

theorem compensationsOf_cons (prev : String) (d : Step W α) (ds : List (Step W α)) :
    compensationsOf prev (d :: ds) =
      d.compensationRecord prev ::
        compensationsOf (if d.compensationName ≠ "" then d.compensationName else prev) ds := rfl

theorem setNextOfLast_cons_cons (x : String) (t t' : Transaction W α)
    (ts : List (Transaction W α)) :
    setNextOfLast x (t :: t' :: ts) = t :: setNextOfLast x (t' :: ts) := rfl

theorem transactionsOf_append_singleton (ds : List (Step W α)) (d : Step W α) :
    transactionsOf (ds ++ [d]) = setNextOfLast d.name (transactionsOf ds) ++ [d.transaction ""] := by
  induction ds with
  | nil => rfl
  | cons a ds ih =>
    cases ds with
    | nil => rfl
    | cons a' ds =>
      rw [List.cons_append, transactionsOf_cons, ih, transactionsOf_cons a, transactionsOf_cons a',
        setNextOfLast_cons_cons, List.cons_append]
      rfl

theorem length_transactionsOf (ds : List (Step W α)) : (transactionsOf ds).length = ds.length := by
  induction ds with
  | nil => rfl
  | cons d ds ih => simp [transactionsOf, ih]

theorem map_name_transactionsOf (ds : List (Step W α)) :
    (transactionsOf ds).map Transaction.Name = ds.map Step.name := by
  induction ds with
  | nil => rfl
  | cons d ds ih => simp [transactionsOf, ih, Step.transaction]

theorem map_compensationName_transactionsOf (ds : List (Step W α)) :
    (transactionsOf ds).map Transaction.CompensationName = ds.map Step.compensationName := by
  induction ds with
  | nil => rfl
  | cons d ds ih => simp [transactionsOf, ih, Step.transaction]

theorem nearestCompensationName_append (ts : List (Transaction W α)) (t : Transaction W α)
    (i : Nat) (hi : i ≤ ts.length) :
    nearestCompensationName (ts ++ [t]) i = nearestCompensationName ts i := by
  induction i with
  | zero => rfl
  | succ i ih =>
    have hlt : i < ts.length := hi
    simp only [nearestCompensationName, List.getElem?_append_left hlt]
    rw [ih (Nat.le_of_lt hlt)]

theorem lastNonEmpty_append_singleton (prev : String) (names : List String) (n : String) :
    lastNonEmpty prev (names ++ [n]) = if n ≠ "" then n else lastNonEmpty prev names := by
  simp [lastNonEmpty, List.foldl_append]

/-- The backward scan of `WithCompensation` finds the last non-empty compensation name. -/
theorem nearestCompensationName_length (ts : List (Transaction W α)) :
    nearestCompensationName ts ts.length = lastNonEmpty "" (ts.map Transaction.CompensationName) := by
  induction ts using List.reverseRecOn with
  | nil => rfl
  | append_singleton ts t ih =>
    rw [List.map_append, List.map_singleton, lastNonEmpty_append_singleton, List.length_append,
      List.length_singleton]
    simp only [nearestCompensationName, List.getElem?_concat_length]
    rw [nearestCompensationName_append ts t _ (Nat.le_refl _), ih]

theorem compensationsOf_append_singleton (prev : String) (ds : List (Step W α)) (d : Step W α) :
    compensationsOf prev (ds ++ [d]) =
      compensationsOf prev ds ++
        [d.compensationRecord (lastNonEmpty prev (ds.map Step.compensationName))] := by
  induction ds generalizing prev with
  | nil => rfl
  | cons a ds ih =>
    rw [List.cons_append, compensationsOf_cons, ih, compensationsOf_cons, List.cons_append]
    rfl

/-- On the empty builder `Begin` and `Then` start the same pending transaction. -/
theorem finalise_begin_eq_andThen (n : String) (d : Step W α) :
    d.finalise ((New n).Begin d.name d.func) = Step.andThen (New n) d := rfl

theorem andThen_sagaName (b : Builder W α) (d : Step W α) :
    (Step.andThen b d).sagaName = b.sagaName := by
  unfold Step.andThen Step.finalise Builder.Then TransactionBuilder.WithCompensation
    TransactionBuilder.NoCompensation TransactionBuilder.SavePoint
  rcases d with ⟨dn, df, dsp, dc⟩
  cases dsp <;> rcases dc with _ | ⟨c, f⟩ <;> simp <;> split <;> rfl

theorem andThen_transactions (b : Builder W α) (d : Step W α) :
    (Step.andThen b d).transactions =
      setNextOfLast d.name b.transactions ++ [d.transaction ""] := by
  rcases b with ⟨bn, ts, cs⟩
  rcases d with ⟨dn, df, dsp, dc⟩
  cases ts with
  | nil => cases dsp <;> rcases dc with _ | ⟨c, f⟩ <;> rfl
  | cons t ts =>
    cases dsp <;> rcases dc with _ | ⟨c, f⟩ <;>
      simp [Step.andThen, Step.finalise, Builder.Then, TransactionBuilder.WithCompensation,
        TransactionBuilder.NoCompensation, TransactionBuilder.SavePoint, Step.transaction,
        Step.compensationName]

theorem andThen_compensations (b : Builder W α) (d : Step W α) :
    (Step.andThen b d).compensations =
      b.compensations ++
        [d.compensationRecord
          (nearestCompensationName (setNextOfLast d.name b.transactions) b.transactions.length)] := by
  rcases b with ⟨bn, ts, cs⟩
  rcases d with ⟨dn, df, dsp, dc⟩
  cases ts with
  | nil => cases dsp <;> rcases dc with _ | ⟨c, f⟩ <;> rfl
  | cons t ts =>
    cases dsp <;> rcases dc with _ | ⟨c, f⟩ <;>
      simp [Step.andThen, Step.finalise, Builder.Then, TransactionBuilder.WithCompensation,
        TransactionBuilder.NoCompensation, TransactionBuilder.SavePoint, Step.compensationRecord]

/-- The builder after a chain of steps holds the records of `transactionsOf` and
`compensationsOf`. -/
theorem foldl_andThen_New (n : String) (ds : List (Step W α)) :
    (ds.foldl Step.andThen (New n)).sagaName = n ∧
      (ds.foldl Step.andThen (New n)).transactions = transactionsOf ds ∧
      (ds.foldl Step.andThen (New n)).compensations = compensationsOf "" ds := by
  induction ds using List.reverseRecOn with
  | nil => exact ⟨rfl, rfl, rfl⟩
  | append_singleton ds d ih =>
    obtain ⟨h1, h2, h3⟩ := ih
    rw [List.foldl_append, List.foldl_cons, List.foldl_nil]
    refine ⟨?_, ?_, ?_⟩
    · rw [andThen_sagaName, h1]
    · rw [andThen_transactions, h2, transactionsOf_append_singleton]
    · rw [andThen_compensations, h2, h3, compensationsOf_append_singleton,
        ← length_setNextOfLast d.name (transactionsOf ds), nearestCompensationName_length,
        map_compensationName_setNextOfLast, map_compensationName_transactionsOf]

theorem buildLinear_eq (n : String) (ds : List (Step W α)) :
    buildLinear n ds = (ds.foldl Step.andThen (New n)).End := by
  cases ds with
  | nil => rfl
  | cons d ds => rw [buildLinear, finalise_begin_eq_andThen, List.foldl_cons]

theorem buildLinear_name (n : String) (ds : List (Step W α)) : (buildLinear n ds).name = n := by
  rw [buildLinear_eq]
  obtain ⟨h1, h2, -⟩ := foldl_andThen_New n ds
  unfold Builder.End
  rw [h2]
  cases ds with
  | nil => exact h1
  | cons d ds => exact h1

theorem buildLinear_firstTransaction (n : String) (ds : List (Step W α)) :
    (buildLinear n ds).firstTransaction = firstName ds := by
  rw [buildLinear_eq]
  obtain ⟨-, h2, -⟩ := foldl_andThen_New n ds
  unfold Builder.End
  rw [h2]
  cases ds with
  | nil => rfl
  | cons d ds => rfl

theorem buildLinear_transactions (n : String) (ds : List (Step W α)) :
    (buildLinear n ds).transactions =
      (transactionsOf ds).foldl (fun m t => m.insert t.Name t) GoMap.empty := by
  rw [buildLinear_eq]
  obtain ⟨-, h2, -⟩ := foldl_andThen_New n ds
  unfold Builder.End
  rw [h2]
  cases ds with
  | nil => rfl
  | cons d ds => rfl

theorem buildLinear_compensations (n : String) (ds : List (Step W α)) :
    (buildLinear n ds).compensations =
      ((compensationsOf "" ds).filter (fun c => decide (c.Name ≠ ""))).foldl
        (fun m c => m.insert c.Name c) GoMap.empty := by
  rw [buildLinear_eq, ← GoMap.foldl_skip_empty]
  obtain ⟨-, h2, h3⟩ := foldl_andThen_New n ds
  unfold Builder.End
  rw [h2, h3]
  cases ds with
  | nil => rfl
  | cons d ds => rfl

/-! ### Lookups in a saga built from a chain -/

theorem mem_transactionsOf (pre post : List (Step W α)) (d : Step W α) :
    d.transaction (firstName post) ∈ transactionsOf (pre ++ d :: post) := by
  induction pre with
  | nil => exact List.mem_cons_self _ _
  | cons a pre ih => exact List.mem_cons_of_mem _ ih

theorem mem_compensationsOf (prev : String) (pre post : List (Step W α)) (d : Step W α) :
    d.compensationRecord (lastNonEmpty prev (pre.map Step.compensationName)) ∈
      compensationsOf prev (pre ++ d :: post) := by
  induction pre generalizing prev with
  | nil => exact List.mem_cons_self _ _
  | cons a pre ih => exact List.mem_cons_of_mem _ (ih _)

theorem map_name_compensationsOf (prev : String) (ds : List (Step W α)) :
    (compensationsOf prev ds).map Compensation.Name = ds.map Step.compensationName := by
  induction ds generalizing prev with
  | nil => rfl
  | cons d ds ih =>
    rw [compensationsOf_cons, List.map_cons, List.map_cons, ih]
    rcases d with ⟨dn, df, dsp, dc⟩
    rcases dc with _ | ⟨c, f⟩ <;> rfl

theorem map_name_filter_compensationsOf (prev : String) (ds : List (Step W α)) :
    ((compensationsOf prev ds).filter (fun c => decide (c.Name ≠ ""))).map Compensation.Name =
      (ds.map Step.compensationName).filter (fun n => decide (n ≠ "")) := by
  rw [← map_name_compensationsOf prev ds, List.filter_map]
  rfl

/-- A transaction name of the chain is bound to the record of its step. -/
theorem buildLinear_transactions_get? (n : String) (pre post : List (Step W α)) (d : Step W α)
    (hnd : ((pre ++ d :: post).map Step.name).Nodup) :
    (buildLinear n (pre ++ d :: post)).transactions.get? d.name =
      some (d.transaction (firstName post)) := by
  rw [buildLinear_transactions]
  have h := GoMap.get?_foldl_mem Transaction.Name (transactionsOf (pre ++ d :: post)) GoMap.empty
    (d.transaction (firstName post)) (by rw [map_name_transactionsOf]; exact hnd)
    (mem_transactionsOf pre post d)
  exact h

/-- A string that names no transaction of the chain is unbound. -/
theorem buildLinear_transactions_get?_none (n : String) (ds : List (Step W α)) (x : String)
    (hx : x ∉ ds.map Step.name) : (buildLinear n ds).transactions.get? x = none := by
  rw [buildLinear_transactions,
    GoMap.get?_foldl_not_mem Transaction.Name _ _ _ (by rw [map_name_transactionsOf]; exact hx)]
  rfl

/-- A non-empty compensation name of the chain is bound to the record of its step,
linked to the nearest compensation declared before it. -/
theorem buildLinear_compensations_get? (n : String) (pre post : List (Step W α)) (d : Step W α)
    (c : String) (f : TransactionFunc W α)
    (hnd : (((pre ++ d :: post).map Step.compensationName).filter
      (fun n => decide (n ≠ ""))).Nodup)
    (hd : d.compensation = some (c, f)) (hc : c ≠ "") :
    (buildLinear n (pre ++ d :: post)).compensations.get? c =
      some { Name := c, NextCompensationName := lastNonEmpty "" (pre.map Step.compensationName),
             Func := some f } := by
  rw [buildLinear_compensations]
  have hrec : d.compensationRecord (lastNonEmpty "" (pre.map Step.compensationName)) =
      { Name := c, NextCompensationName := lastNonEmpty "" (pre.map Step.compensationName),
        Func := some f } := by
    unfold Step.compensationRecord
    rw [hd]
  have hmem : d.compensationRecord (lastNonEmpty "" (pre.map Step.compensationName)) ∈
      (compensationsOf "" (pre ++ d :: post)).filter (fun c => decide (c.Name ≠ "")) := by
    rw [List.mem_filter]
    refine ⟨mem_compensationsOf "" pre post d, ?_⟩
    rw [hrec]
    simpa using hc
  have h := GoMap.get?_foldl_mem Compensation.Name _ GoMap.empty _
    (by rw [map_name_filter_compensationsOf]; exact hnd) hmem
  rw [hrec] at h
  exact h

/-- A string that names no compensation of the chain is unbound. -/
theorem buildLinear_compensations_get?_none (n : String) (ds : List (Step W α)) (x : String)
    (hx : x ∉ (ds.map Step.compensationName).filter (fun n => decide (n ≠ ""))) :
    (buildLinear n ds).compensations.get? x = none := by
  rw [buildLinear_compensations,
    GoMap.get?_foldl_not_mem Compensation.Name _ _ _
      (by rw [map_name_filter_compensationsOf]; exact hx)]
  rfl

/-! ### One call of `ProcessCommand`, by command kind -/

section dispatch

variable {L : Type}

theorem ProcessCommand_unregistered (s : SEC W L α) (c : Command α)
    (hreg : s.sagas.get? c.SagaName = none) (st : W × L) :
    s.ProcessCommand c st =
      some (some (GoError.errorf ("no saga with name " ++ c.SagaName ++ " exists")), st) := by
  unfold SEC.ProcessCommand
  rw [hreg]

theorem ProcessCommand_beginSaga (s : SEC W L α) (c : Command α) (sg : Saga W α)
    (hreg : s.sagas.get? c.SagaName = some sg) (hk : c.Name = BeginSagaCommand) (st : W × L) :
    s.ProcessCommand c st =
      s.returnWrite (beginOrEnd c.SagaName c.SagaID sg.FirstTransaction c.SagaParams) st := by
  unfold SEC.ProcessCommand beginOrEnd
  rw [hreg]
  simp only [hk, if_true]
  split <;> rfl

theorem ProcessCommand_beginTransaction (s : SEC W L α) (c : Command α) (sg : Saga W α)
    (hreg : s.sagas.get? c.SagaName = some sg) (hk : c.Name = BeginTransactionCommand)
    (st : W × L) (r : Option GoError) (w : W)
    (hex : sg.ExecuteTransaction c.TransactionID c.SagaParams st.1 = some (r, w)) :
    s.ProcessCommand c st =
      s.returnWrite (afterBody c.SagaName c.SagaID c.TransactionID c.SagaParams r) (w, st.2) := by
  unfold SEC.ProcessCommand afterBody
  rw [hreg]
  simp only [hk, hex, BeginTransactionCommand, BeginSagaCommand]
  cases r with
  | none => simp
  | some e => by_cases he : e.Is ErrAbortSaga = true <;> simp [he]

theorem ProcessCommand_beginTransaction_nilFunc (s : SEC W L α) (c : Command α) (sg : Saga W α)
    (hreg : s.sagas.get? c.SagaName = some sg) (hk : c.Name = BeginTransactionCommand)
    (st : W × L)
    (hex : sg.ExecuteTransaction c.TransactionID c.SagaParams st.1 = none) :
    s.ProcessCommand c st = none := by
  unfold SEC.ProcessCommand
  rw [hreg]
  simp [hk, hex, BeginTransactionCommand, BeginSagaCommand]

theorem ProcessCommand_abortTransaction (s : SEC W L α) (c : Command α) (sg : Saga W α)
    (hreg : s.sagas.get? c.SagaName = some sg) (hk : c.Name = AbortTransactionCommand)
    (st : W × L) :
    s.ProcessCommand c st =
      s.returnWrite (BeginTransaction c.SagaName c.SagaID c.TransactionID c.SagaParams) st := by
  unfold SEC.ProcessCommand
  rw [hreg]
  simp [hk, AbortTransactionCommand, BeginTransactionCommand, BeginSagaCommand]

theorem ProcessCommand_abortSaga (s : SEC W L α) (c : Command α) (sg : Saga W α)
    (hreg : s.sagas.get? c.SagaName = some sg) (hk : c.Name = AbortSagaCommand) (st : W × L) :
    s.ProcessCommand c st =
      s.returnWrite
        (EndTransactionCompensate c.SagaName c.SagaID c.TransactionID
          (sg.Compensation c.TransactionID) c.SagaParams) st := by
  unfold SEC.ProcessCommand
  rw [hreg]
  simp [hk, AbortSagaCommand, AbortTransactionCommand, BeginTransactionCommand, BeginSagaCommand]

theorem ProcessCommand_endTransaction (s : SEC W L α) (c : Command α) (sg : Saga W α)
    (hreg : s.sagas.get? c.SagaName = some sg) (hk : c.Name = EndTransactionCommand)
    (st : W × L) :
    s.ProcessCommand c st =
      s.returnWrite
        (beginOrEnd c.SagaName c.SagaID
          (if c.CompensationID ≠ "" then c.CompensationID else sg.Next c.TransactionID)
          c.SagaParams) st := by
  unfold SEC.ProcessCommand beginOrEnd
  rw [hreg]
  simp only [hk, EndTransactionCommand, AbortSagaCommand, AbortTransactionCommand,
    BeginTransactionCommand, BeginSagaCommand]
  simp only [show ¬ ((4 : Int) = 1) by decide, show ¬ ((4 : Int) = 3) by decide,
    show ¬ ((4 : Int) = 5) by decide, show ¬ ((4 : Int) = 6) by decide, if_false, if_true]
  generalize (if c.CompensationID ≠ "" then c.CompensationID else sg.Next c.TransactionID) = x
  split <;> rfl

theorem ProcessCommand_endSaga (s : SEC W L α) (c : Command α) (sg : Saga W α)
    (hreg : s.sagas.get? c.SagaName = some sg) (hk : c.Name = EndSagaCommand) (st : W × L) :
    s.ProcessCommand c st = some (none, st) := by
  unfold SEC.ProcessCommand
  rw [hreg]
  simp [hk, EndSagaCommand, EndTransactionCommand, AbortSagaCommand, AbortTransactionCommand,
    BeginTransactionCommand, BeginSagaCommand]

/-- With the in-memory log a write appends the command and returns nil. -/
theorem inMemory_returnWrite (s : SEC W L α) (c : Command α) (w : W) (l : List (Command α)) :
    s.inMemory.returnWrite c (w, l) = some (none, (w, l ++ [c])) := rfl

theorem inMemory_sagas (s : SEC W L α) : s.inMemory.sagas = s.sagas := rfl

end dispatch

/-! ### Runs -/

section runLemmas

variable {L : Type}

theorem run_succ_write (s : SEC W L α) (fuel : Nat) (c c' : Command α) (w w' : W)
    (e : Option GoError)
    (h : s.inMemory.ProcessCommand c (w, []) = some (e, (w', [c']))) :
    run s (fuel + 1) c w = c :: run s fuel c' w' := by
  rw [run, h]

theorem run_succ_stop (s : SEC W L α) (fuel : Nat) (c : Command α) (w w' : W)
    (e : Option GoError)
    (h : s.inMemory.ProcessCommand c (w, []) = some (e, (w', []))) :
    run s (fuel + 1) c w = [c] := by
  rw [run, h]

/-- A command with a follow-up heads the trace of its follow-up. -/
theorem run_take_write (s : SEC W L α) (c c' : Command α) (w w' : W) (e : Option GoError)
    (T : List (Command α))
    (h : s.inMemory.ProcessCommand c (w, []) = some (e, (w', [c'])))
    (hT : ∀ fuel, run s fuel c' w' = T.take fuel) (fuel : Nat) :
    run s fuel c w = (c :: T).take fuel := by
  cases fuel with
  | zero => rfl
  | succ fuel => rw [run_succ_write s fuel c c' w w' e h, hT, List.take_succ_cons]

/-- A command without a follow-up ends the trace. -/
theorem run_take_stop (s : SEC W L α) (c : Command α) (w w' : W) (e : Option GoError)
    (h : s.inMemory.ProcessCommand c (w, []) = some (e, (w', []))) (fuel : Nat) :
    run s fuel c w = [c].take fuel := by
  cases fuel with
  | zero => rfl
  | succ fuel => rw [run_succ_stop s fuel c w w' e h, List.take_succ_cons, List.take_nil]

theorem run_of_take (s : SEC W L α) (c : Command α) (w : W) (T : List (Command α))
    (hT : ∀ fuel, run s fuel c w = T.take fuel) (fuel : Nat) (hf : T.length ≤ fuel) :
    run s fuel c w = T := by
  rw [hT, List.take_of_length_le hf]

theorem step_beginSaga (s : SEC W L α) (n sid : String) (p : Option α) (sg : Saga W α)
    (hreg : s.sagas.get? n = some sg) (w : W) (l : List (Command α)) :
    s.inMemory.ProcessCommand (BeginSaga n sid p) (w, l) =
      some (none, (w, l ++ [beginOrEnd n sid sg.firstTransaction p])) :=
  ProcessCommand_beginSaga s.inMemory (BeginSaga n sid p) sg hreg rfl (w, l)

theorem step_beginTransaction (s : SEC W L α) (n sid t : String) (p : Option α) (sg : Saga W α)
    (hreg : s.sagas.get? n = some sg) (w w' : W) (l : List (Command α)) (r : Option GoError)
    (hex : sg.ExecuteTransaction t p w = some (r, w')) :
    s.inMemory.ProcessCommand (BeginTransaction n sid t p) (w, l) =
      some (none, (w', l ++ [afterBody n sid t p r])) :=
  ProcessCommand_beginTransaction s.inMemory (BeginTransaction n sid t p) sg hreg rfl (w, l) r w'
    hex

theorem step_abortTransaction (s : SEC W L α) (n sid t : String) (p : Option α) (sg : Saga W α)
    (hreg : s.sagas.get? n = some sg) (w : W) (l : List (Command α)) :
    s.inMemory.ProcessCommand (AbortTransaction n sid t p) (w, l) =
      some (none, (w, l ++ [BeginTransaction n sid t p])) :=
  ProcessCommand_abortTransaction s.inMemory (AbortTransaction n sid t p) sg hreg rfl (w, l)

theorem step_abortSaga (s : SEC W L α) (n sid t : String) (sg : Saga W α)
    (hreg : s.sagas.get? n = some sg) (w : W) (l : List (Command α)) :
    s.inMemory.ProcessCommand (AbortSaga n sid t) (w, l) =
      some (none, (w, l ++ [EndTransactionCompensate n sid t (sg.Compensation t) none])) :=
  ProcessCommand_abortSaga s.inMemory (AbortSaga n sid t) sg hreg rfl (w, l)

theorem step_endTransaction (s : SEC W L α) (n sid t : String) (p : Option α) (sg : Saga W α)
    (hreg : s.sagas.get? n = some sg) (w : W) (l : List (Command α)) :
    s.inMemory.ProcessCommand (EndTransaction n sid t p) (w, l) =
      some (none, (w, l ++ [beginOrEnd n sid (sg.Next t) p])) :=
  ProcessCommand_endTransaction s.inMemory (EndTransaction n sid t p) sg hreg rfl (w, l)

theorem step_endTransactionCompensate (s : SEC W L α) (n sid t c : String) (p : Option α)
    (sg : Saga W α) (hreg : s.sagas.get? n = some sg) (hc : c ≠ "") (w : W)
    (l : List (Command α)) :
    s.inMemory.ProcessCommand (EndTransactionCompensate n sid t c p) (w, l) =
      some (none, (w, l ++ [BeginTransaction n sid c p])) := by
  rw [ProcessCommand_endTransaction s.inMemory (EndTransactionCompensate n sid t c p) sg hreg rfl
    (w, l)]
  simp [EndTransactionCompensate, beginOrEnd, hc, inMemory_returnWrite]

theorem step_endSaga (s : SEC W L α) (n sid : String) (sg : Saga W α)
    (hreg : s.sagas.get? n = some sg) (w : W) (l : List (Command α)) :
    s.inMemory.ProcessCommand (EndSaga n sid) (w, l) = some (none, (w, l)) :=
  ProcessCommand_endSaga s.inMemory (EndSaga n sid) sg hreg rfl (w, l)

theorem run_endSaga (s : SEC W L α) (n sid : String) (sg : Saga W α)
    (hreg : s.sagas.get? n = some sg) (fuel : Nat) (w : W) :
    run s fuel (EndSaga n sid) w = [EndSaga n sid].take fuel :=
  run_take_stop s _ w w none (step_endSaga s n sid sg hreg w []) fuel

end runLemmas

/-! ### Navigation in a saga built from a chain -/

theorem lastNonEmpty_eq_or_mem (prev : String) (names : List String) :
    lastNonEmpty prev names = prev ∨
      lastNonEmpty prev names ∈ names.filter (fun n => decide (n ≠ "")) := by
  induction names using List.reverseRecOn with
  | nil => exact Or.inl rfl
  | append_singleton names x ih =>
    rw [lastNonEmpty_append_singleton, List.filter_append]
    by_cases hx : x = ""
    · have h1 : ¬ (x ≠ "") := fun h => h hx
      rw [if_neg h1]
      rcases ih with h | h
      · exact Or.inl h
      · exact Or.inr (List.mem_append_left _ h)
    · rw [if_pos hx]
      refine Or.inr (List.mem_append_right _ ?_)
      simp [List.filter_cons, hx]

theorem declaredNames_nodup_left (ds : List (Step W α)) (h : (declaredNames ds).Nodup) :
    (ds.map Step.name).Nodup :=
  (List.nodup_append.1 h).1

theorem declaredNames_nodup_right (ds : List (Step W α)) (h : (declaredNames ds).Nodup) :
    ((ds.map Step.compensationName).filter (fun n => decide (n ≠ ""))).Nodup :=
  (List.nodup_append.1 h).2.1

theorem declaredNames_disjoint (ds : List (Step W α)) (h : (declaredNames ds).Nodup) (x : String)
    (hx : x ∈ (ds.map Step.compensationName).filter (fun n => decide (n ≠ ""))) :
    x ∉ ds.map Step.name :=
  fun hx' => (List.nodup_append.1 h).2.2 hx' hx

theorem compensationName_of_some (d : Step W α) (c : String) (f : TransactionFunc W α)
    (hd : d.compensation = some (c, f)) : d.compensationName = c := by
  unfold Step.compensationName
  rw [hd]

theorem mem_compensationNames (pre post : List (Step W α)) (d : Step W α) (c : String)
    (f : TransactionFunc W α) (hd : d.compensation = some (c, f)) (hc : c ≠ "") :
    c ∈ ((pre ++ d :: post).map Step.compensationName).filter (fun n => decide (n ≠ "")) := by
  rw [List.mem_filter]
  refine ⟨?_, by simpa using hc⟩
  rw [List.mem_map]
  exact ⟨d, by simp, compensationName_of_some d c f hd⟩

theorem execute_transaction (n : String) (pre post : List (Step W α)) (d : Step W α)
    (hnd : ((pre ++ d :: post).map Step.name).Nodup) (p : Option α) (w : W) :
    (buildLinear n (pre ++ d :: post)).ExecuteTransaction d.name p w = some (d.func p w) := by
  unfold Saga.ExecuteTransaction
  rw [buildLinear_transactions_get? n pre post d hnd]
  rfl

theorem next_transaction (n : String) (pre post : List (Step W α)) (d : Step W α)
    (hnd : ((pre ++ d :: post).map Step.name).Nodup) :
    (buildLinear n (pre ++ d :: post)).Next d.name = firstName post := by
  unfold Saga.Next
  rw [buildLinear_transactions_get? n pre post d hnd]
  rfl

theorem compensation_transaction (n : String) (pre post : List (Step W α)) (d : Step W α)
    (hnd : ((pre ++ d :: post).map Step.name).Nodup) :
    (buildLinear n (pre ++ d :: post)).Compensation d.name = d.compensationName := by
  unfold Saga.Compensation
  rw [buildLinear_transactions_get? n pre post d hnd]
  rfl

theorem execute_compensation (n : String) (pre post : List (Step W α)) (d : Step W α)
    (c : String) (f : TransactionFunc W α)
    (hN : (declaredNames (pre ++ d :: post)).Nodup)
    (hd : d.compensation = some (c, f)) (hc : c ≠ "") (p : Option α) (w : W) :
    (buildLinear n (pre ++ d :: post)).ExecuteTransaction c p w = some (f p w) := by
  unfold Saga.ExecuteTransaction
  rw [buildLinear_transactions_get?_none n _ c
      (declaredNames_disjoint _ hN c (mem_compensationNames pre post d c f hd hc)),
    buildLinear_compensations_get? n pre post d c f (declaredNames_nodup_right _ hN) hd hc]
  rfl

/-- With pairwise distinct names, the step after a compensation is the nearest
compensation declared before it, whatever the save-point flags. -/
theorem next_compensation (n : String) (pre post : List (Step W α)) (d : Step W α)
    (c : String) (f : TransactionFunc W α)
    (hN : (declaredNames (pre ++ d :: post)).Nodup)
    (hE : "" ∉ (pre ++ d :: post).map Step.name)
    (hd : d.compensation = some (c, f)) (hc : c ≠ "") :
    (buildLinear n (pre ++ d :: post)).Next c =
      lastNonEmpty "" (pre.map Step.compensationName) := by
  have hm : lastNonEmpty "" (pre.map Step.compensationName) ∉ (pre ++ d :: post).map Step.name := by
    rcases lastNonEmpty_eq_or_mem "" (pre.map Step.compensationName) with h | h
    · rw [h]; exact hE
    · apply declaredNames_disjoint _ hN
      rw [List.map_append, List.filter_append]
      exact List.mem_append_left _ h
  unfold Saga.Next
  rw [buildLinear_transactions_get?_none n _ c
      (declaredNames_disjoint _ hN c (mem_compensationNames pre post d c f hd hc)),
    buildLinear_compensations_get? n pre post d c f (declaredNames_nodup_right _ hN) hd hc]
  simp only
  rw [buildLinear_transactions_get?_none n _ _ hm]

/-! ### Runs over a saga built from a chain -/

section chainRuns

variable {L : Type}

theorem beginOrEnd_of_ne (n sid x : String) (p : Option α) (hx : x ≠ "") :
    beginOrEnd n sid x p = BeginTransaction n sid x p := by
  unfold beginOrEnd
  rw [if_neg hx]

theorem beginOrEnd_empty (n sid : String) (p : Option α) :
    beginOrEnd n sid "" p = EndSaga n sid := rfl

/-- A step whose body succeeds: `BeginTransaction`, `EndTransaction`, then whatever
follows the next step. -/
theorem run_step_ok (s : SEC W L α) (n sid : String) (p : Option α)
    (pre post : List (Step W α)) (d : Step W α)
    (hreg : s.sagas.get? n = some (buildLinear n (pre ++ d :: post)))
    (hnd : ((pre ++ d :: post).map Step.name).Nodup)
    (hok : ∀ p w, (d.func p w).1 = none) (T : List (Command α))
    (hT : ∀ fuel w, run s fuel (beginOrEnd n sid (firstName post) p) w = T.take fuel)
    (fuel : Nat) (w : W) :
    run s fuel (BeginTransaction n sid d.name p) w =
      (BeginTransaction n sid d.name p :: EndTransaction n sid d.name p :: T).take fuel := by
  have hex : (buildLinear n (pre ++ d :: post)).ExecuteTransaction d.name p w =
      some (none, (d.func p w).2) := by
    rw [execute_transaction n pre post d hnd, ← hok p w]
  refine run_take_write s _ _ w _ none _
    (step_beginTransaction s n sid d.name p _ hreg w _ [] none hex) ?_ fuel
  intro fuel
  refine run_take_write s _ _ _ _ none _
    (step_endTransaction s n sid d.name p _ hreg _ []) ?_ fuel
  intro fuel
  rw [next_transaction n pre post d hnd]
  exact hT fuel _

/-- The forward phase over the steps `mid`, all of whose bodies succeed. -/
theorem run_forward (s : SEC W L α) (n sid : String) (p : Option α) (T : List (Command α))
    (mid : List (Step W α)) :
    ∀ (pre rest : List (Step W α)),
      s.sagas.get? n = some (buildLinear n (pre ++ (mid ++ rest))) →
      ((pre ++ (mid ++ rest)).map Step.name).Nodup →
      "" ∉ (pre ++ (mid ++ rest)).map Step.name →
      (∀ d ∈ mid, ∀ p w, (d.func p w).1 = none) →
      (∀ fuel w, run s fuel (beginOrEnd n sid (firstName rest) p) w = T.take fuel) →
      ∀ fuel w, run s fuel (beginOrEnd n sid (firstName (mid ++ rest)) p) w =
        (beginEndPairs n sid p (mid.map Step.name) ++ T).take fuel := by
  induction mid with
  | nil => intro pre rest _ _ _ _ hT fuel w; exact hT fuel w
  | cons d mid ih =>
    intro pre rest hreg hnd hE hok hT fuel w
    have hdn : d.name ≠ "" := by
      intro h
      apply hE
      rw [← h]
      simp
    have hshape : pre ++ (d :: mid ++ rest) = (pre ++ [d]) ++ (mid ++ rest) := by simp
    have hrec := ih (pre ++ [d]) rest (hshape ▸ hreg) (hshape ▸ hnd) (hshape ▸ hE)
      (fun d' hd' => hok d' (List.mem_cons_of_mem _ hd')) hT
    have := run_step_ok s n sid p pre (mid ++ rest) d hreg hnd (hok d (List.mem_cons_self _ _))
      _ hrec fuel w
    rw [List.cons_append, firstName, beginOrEnd_of_ne n sid d.name p hdn, this]
    rfl

theorem exists_compensation_of_name_ne (d : Step W α) (h : d.compensationName ≠ "") :
    ∃ f, d.compensation = some (d.compensationName, f) := by
  rcases d with ⟨dn, df, dsp, dc⟩
  rcases dc with _ | ⟨c, f⟩
  · exact absurd rfl h
  · exact ⟨f, rfl⟩

/-- The compensating phase: from the last compensation declared in `pre`, every
declared compensation of `pre` runs once, last declared first, then `EndSaga`. -/
theorem run_compensations (s : SEC W L α) (n sid : String) (pre : List (Step W α)) :
    ∀ (rest : List (Step W α)),
      s.sagas.get? n = some (buildLinear n (pre ++ rest)) →
      (declaredNames (pre ++ rest)).Nodup →
      "" ∉ (pre ++ rest).map Step.name →
      (∀ d ∈ pre, ∀ c f, d.compensation = some (c, f) → ∀ p w, (f p w).1 = none) →
      ∀ fuel w,
        run s fuel
          (beginOrEnd n sid (lastNonEmpty "" (pre.map Step.compensationName)) none) w =
        (beginEndPairs n sid none
            ((pre.map Step.compensationName).filter (fun x => decide (x ≠ ""))).reverse ++
          [EndSaga n sid]).take fuel := by
  induction pre using List.reverseRecOn with
  | nil =>
    intro rest hreg _ _ _ fuel w
    exact run_endSaga s n sid _ hreg fuel w
  | append_singleton pre a ih =>
    intro rest hreg hN hE hok fuel w
    have hshape : pre ++ [a] ++ rest = pre ++ a :: rest := by simp
    rw [hshape] at hreg hN hE
    have hrec := ih (a :: rest) hreg hN hE
      (fun d hd => hok d (List.mem_append_left _ hd))
    rw [List.map_append, List.map_singleton, lastNonEmpty_append_singleton, List.filter_append,
      List.reverse_append]
    by_cases ha : a.compensationName = ""
    · have h1 : ¬ (a.compensationName ≠ "") := fun h => h ha
      have h2 : List.filter (fun x => decide (x ≠ "")) [a.compensationName] = [] := by
        simp [List.filter_cons, ha]
      rw [if_neg h1, h2]
      exact hrec fuel w
    · obtain ⟨f, hf⟩ := exists_compensation_of_name_ne a ha
      have h2 : List.filter (fun x => decide (x ≠ "")) [a.compensationName] =
          [a.compensationName] := by
        simp [List.filter_cons, ha]
      rw [if_pos ha, h2, beginOrEnd_of_ne n sid _ none ha]
      have hex : (buildLinear n (pre ++ a :: rest)).ExecuteTransaction a.compensationName none w =
          some (none, (f none w).2) := by
        rw [execute_compensation n pre rest a _ f hN hf ha,
          ← hok a (List.mem_append_right _ (List.mem_singleton_self a)) _ f hf none w]
      refine run_take_write s _ _ w _ none _
        (step_beginTransaction s n sid a.compensationName none _ hreg w _ [] none hex) ?_ fuel
      intro fuel
      refine run_take_write s _ _ _ _ none _
        (step_endTransaction s n sid a.compensationName none _ hreg _ []) ?_ fuel
      intro fuel
      rw [next_compensation n pre rest a _ f hN hE hf ha]
      exact hrec fuel _

end chainRuns

/-! ### Whole runs -/

section wholeRuns

variable {L : Type}

theorem length_beginEndPairs (n sid : String) (p : Option α) (names : List String) :
    (beginEndPairs n sid p names).length = 2 * names.length := by
  induction names with
  | nil => rfl
  | cons t ts ih => simp only [beginEndPairs, List.length_cons, ih]; omega

theorem filter_ne_empty_eq_self (names : List String) (h : "" ∉ names) :
    names.filter (fun x => decide (x ≠ "")) = names := by
  rw [List.filter_eq_self]
  intro x hx
  have : x ≠ "" := fun e => h (e ▸ hx)
  simpa using this

/-- Every finite prefix of the failure-free run. -/
theorem run_failure_free_take (s : SEC W L α) (n sid : String) (p : Option α)
    (ds : List (Step W α))
    (hreg : s.sagas.get? n = some (buildLinear n ds))
    (hnd : (ds.map Step.name).Nodup) (hE : "" ∉ ds.map Step.name)
    (hok : ∀ d ∈ ds, ∀ p w, (d.func p w).1 = none) (w : W) (fuel : Nat) :
    run s fuel (BeginSaga n sid p) w =
      (BeginSaga n sid p ::
        (beginEndPairs n sid p (ds.map Step.name) ++ [EndSaga n sid])).take fuel := by
  refine run_take_write s _ _ w w none _ (step_beginSaga s n sid p _ hreg w []) ?_ fuel
  intro fuel
  rw [buildLinear_firstTransaction]
  have hshape : ds = [] ++ (ds ++ []) := by simp
  have h := run_forward s n sid p [EndSaga n sid] ds [] [] (hshape ▸ hreg) (hshape ▸ hnd)
    (hshape ▸ hE) hok (fun fuel w => run_endSaga s n sid _ hreg fuel w) fuel w
  rw [List.append_nil] at h
  exact h

/-- Every finite prefix of the run in which step `d` aborts the saga and has the
compensation `c`: forward up to `d`, the abort, then the declared compensations of
`d` and of the steps before it, last declared first. -/
theorem run_abort_take (s : SEC W L α) (n sid : String) (p : Option α)
    (pre post : List (Step W α)) (d : Step W α) (c : String) (f : TransactionFunc W α)
    (hreg : s.sagas.get? n = some (buildLinear n (pre ++ d :: post)))
    (hN : (declaredNames (pre ++ d :: post)).Nodup)
    (hE : "" ∉ (pre ++ d :: post).map Step.name)
    (hok : ∀ d' ∈ pre, ∀ p w, (d'.func p w).1 = none)
    (habort : ∀ p w, ∃ e, (d.func p w).1 = some e ∧ e.Is ErrAbortSaga = true)
    (hd : d.compensation = some (c, f)) (hc : c ≠ "")
    (hcomp : ∀ d' ∈ pre ++ [d], ∀ c f, d'.compensation = some (c, f) →
      ∀ p w, (f p w).1 = none)
    (w : W) (fuel : Nat) :
    run s fuel (BeginSaga n sid p) w =
      (BeginSaga n sid p ::
        (beginEndPairs n sid p (pre.map Step.name) ++
          (BeginTransaction n sid d.name p :: AbortSaga n sid d.name ::
            EndTransactionCompensate n sid d.name c none ::
            (beginEndPairs n sid none
                (((pre ++ [d]).map Step.compensationName).filter
                  (fun x => decide (x ≠ ""))).reverse ++
              [EndSaga n sid])))).take fuel := by
  have hnd := declaredNames_nodup_left _ hN
  have hdn : d.name ≠ "" := by
    intro h
    apply hE
    rw [← h]
    simp
  have hcn : d.compensationName = c := compensationName_of_some d c f hd
  have hshape : pre ++ d :: post = (pre ++ [d]) ++ post := by simp
  have hlast : lastNonEmpty "" ((pre ++ [d]).map Step.compensationName) = c := by
    rw [List.map_append, List.map_singleton, lastNonEmpty_append_singleton, hcn, if_pos hc]
  have htail := run_compensations s n sid (pre ++ [d]) post (hshape ▸ hreg) (hshape ▸ hN)
    (hshape ▸ hE) hcomp
  rw [hlast, beginOrEnd_of_ne n sid c none hc] at htail
  refine run_take_write s _ _ w w none _ (step_beginSaga s n sid p _ hreg w []) ?_ fuel
  intro fuel
  rw [buildLinear_firstTransaction]
  have hshape2 : pre ++ d :: post = [] ++ (pre ++ d :: post) := by simp
  refine run_forward s n sid p _ pre [] (d :: post) (hshape2 ▸ hreg) (hshape2 ▸ hnd)
    (hshape2 ▸ hE) hok ?_ fuel w
  intro fuel w
  rw [firstName, beginOrEnd_of_ne n sid d.name p hdn]
  obtain ⟨e, he, hIs⟩ := habort p w
  have hex : (buildLinear n (pre ++ d :: post)).ExecuteTransaction d.name p w =
      some (some e, (d.func p w).2) := by
    rw [execute_transaction n pre post d hnd, ← he]
  have hstep := step_beginTransaction s n sid d.name p _ hreg w _ [] (some e) hex
  have hafter : afterBody n sid d.name p (some e) = AbortSaga n sid d.name := by
    unfold afterBody
    simp [hIs]
  rw [hafter] at hstep
  refine run_take_write s _ _ w _ none _ hstep ?_ fuel
  intro fuel
  have hstep2 := step_abortSaga s n sid d.name _ hreg (d.func p w).2 []
  rw [compensation_transaction n pre post d hnd, hcn] at hstep2
  refine run_take_write s _ _ _ _ none _ hstep2 ?_ fuel
  intro fuel
  refine run_take_write s _ _ _ _ none _
    (step_endTransactionCompensate s n sid d.name c none _ hreg hc _ []) ?_ fuel
  intro fuel
  exact htail fuel _

end wholeRuns

/-! ## Properties of whole runs: failure-free, abort, save-point -/

section runProperties

variable {L : Type}

/-- C1: for a saga built by a linear builder chain with pairwise distinct non-empty
transaction names `t1..tN` whose bodies all return nil, the run from `BeginSaga`
processes exactly `BeginSaga`, then `BeginTransaction[ti]`, `EndTransaction[ti]` for
`i = 1..N` (both with the same transaction ID), then `EndSaga`, and nothing more
however long the run is continued; for `N = 0` this is `BeginSaga`, `EndSaga`. -/
theorem failure_free_run (s : SEC W L α) (n sid : String) (p : Option α)
    (ds : List (Step W α))
    (hreg : s.sagas.get? n = some (buildLinear n ds))
    (hnd : (ds.map Step.name).Nodup) (hE : "" ∉ ds.map Step.name)
    (hok : ∀ d ∈ ds, ∀ p w, (d.func p w).1 = none)
    (w : W) (fuel : Nat) (hfuel : 2 * ds.length + 2 ≤ fuel) :
    run s fuel (BeginSaga n sid p) w =
      BeginSaga n sid p :: (beginEndPairs n sid p (ds.map Step.name) ++ [EndSaga n sid]) := by
  refine run_of_take s _ w _ (run_failure_free_take s n sid p ds hreg hnd hE hok w) fuel ?_
  simp only [List.length_cons, List.length_append, length_beginEndPairs, List.length_map,
    List.length_singleton, List.length_nil]
  omega

/-- C1 at `A -> B` and at the empty chain: the six-command trace, and
`BeginSaga`, `EndSaga` for the saga without steps. -/
theorem failure_free_run_witness :
    (secOf (buildLinear "S" chainOk)).sagas.get? "S" = some (buildLinear "S" chainOk) ∧
    (chainOk.map Step.name).Nodup ∧ "" ∉ chainOk.map Step.name ∧
    run (secOf (buildLinear "S" chainOk)) 6 (BeginSaga "S" "id" (some 7)) () =
      [BeginSaga "S" "id" (some 7),
       BeginTransaction "S" "id" "A" (some 7), EndTransaction "S" "id" "A" (some 7),
       BeginTransaction "S" "id" "B" (some 7), EndTransaction "S" "id" "B" (some 7),
       EndSaga "S" "id"] ∧
    run (secOf (buildLinear "S" ([] : List (Step Unit Nat)))) 2 (BeginSaga "S" "id" (some 7)) () =
      [BeginSaga "S" "id" (some 7), EndSaga "S" "id"] :=
  ⟨rfl, by decide, by decide,
    failure_free_run (secOf (buildLinear "S" chainOk)) "S" "id" (some 7) chainOk rfl
      (by decide) (by decide)
      (by
        intro d hd p w
        simp only [chainOk, List.mem_cons, List.mem_singleton, List.not_mem_nil, or_false] at hd
        rcases hd with rfl | rfl <;> rfl)
      () 6 (by decide),
    failure_free_run (secOf (buildLinear "S" ([] : List (Step Unit Nat)))) "S" "id" (some 7) []
      rfl (by decide) (by decide) (by intro d hd; cases hd) () 2 (by decide)⟩

/-- C2, evaluated on the code at `A -> B` where `A` declared the compensation `cA`,
`B` declared none and `B` returns the abort-saga sentinel: the run is `BeginSaga`,
`BeginTransaction[A]`, `EndTransaction[A]`, `BeginTransaction[B]`, `AbortSaga[B]`,
`EndTransaction[B, comp=""]`, `EndSaga`; the compensation `cA` of the earlier
transaction `A` is never begun. -/
theorem abort_of_uncompensated_step_skips_earlier_compensations :
    run (secOf (buildLinear "S" chainAB)) 20 (BeginSaga "S" "id" (some 7)) () =
      [BeginSaga "S" "id" (some 7),
       BeginTransaction "S" "id" "A" (some 7), EndTransaction "S" "id" "A" (some 7),
       BeginTransaction "S" "id" "B" (some 7), AbortSaga "S" "id" "B",
       EndTransactionCompensate "S" "id" "B" "" none, EndSaga "S" "id"] ∧
    (buildLinear "S" chainAB).Compensation "A" = "cA" ∧
    ∀ c ∈ run (secOf (buildLinear "S" chainAB)) 20 (BeginSaga "S" "id" (some 7)) (),
      c.TransactionID ≠ "cA" := by
  decide

/-- C3: for a saga built by a linear chain in which every transaction declares a
compensation, all `2N` names pairwise distinct and non-empty: if the bodies of
`t1..t(k-1)` return nil, the body of `tk` returns an error containing the abort-saga
sentinel and the compensation bodies of `t1..tk` return nil, the run from `BeginSaga`
is the forward pairs of `t1..t(k-1)`, then `BeginTransaction[tk]`, `AbortSaga[tk]`,
`EndTransaction[tk, compensationID = ck]`, then `BeginTransaction[ci]`,
`EndTransaction[ci]` for `i = k, k-1, ..., 1`, then `EndSaga`, and nothing more.
Here `pre` is `t1..t(k-1)` and `d` is `tk`.  A step finalised by `NoCompensation`
has the compensation name `""`, so `hne` also says that every step declares a
compensation.  Save-point flags play no part. -/
theorem abort_run_all_compensated (s : SEC W L α) (n sid : String) (p : Option α)
    (pre post : List (Step W α)) (d : Step W α)
    (hreg : s.sagas.get? n = some (buildLinear n (pre ++ d :: post)))
    (hnd : ((pre ++ d :: post).map Step.name ++
      (pre ++ d :: post).map Step.compensationName).Nodup)
    (hne : "" ∉ (pre ++ d :: post).map Step.name ++
      (pre ++ d :: post).map Step.compensationName)
    (hok : ∀ d' ∈ pre, ∀ p w, (d'.func p w).1 = none)
    (habort : ∀ p w, ∃ e, (d.func p w).1 = some e ∧ e.Is ErrAbortSaga = true)
    (hcomp : ∀ d' ∈ pre ++ [d], ∀ c f, d'.compensation = some (c, f) →
      ∀ p w, (f p w).1 = none)
    (w : W) (fuel : Nat) (hfuel : 4 * pre.length + 7 ≤ fuel) :
    run s fuel (BeginSaga n sid p) w =
      BeginSaga n sid p ::
        (beginEndPairs n sid p (pre.map Step.name) ++
          (BeginTransaction n sid d.name p :: AbortSaga n sid d.name ::
            EndTransactionCompensate n sid d.name d.compensationName none ::
            (beginEndPairs n sid none ((pre ++ [d]).map Step.compensationName).reverse ++
              [EndSaga n sid]))) := by
  have hE : "" ∉ (pre ++ d :: post).map Step.name := fun h => hne (List.mem_append_left _ h)
  have hEc : "" ∉ (pre ++ d :: post).map Step.compensationName :=
    fun h => hne (List.mem_append_right _ h)
  have hN : (declaredNames (pre ++ d :: post)).Nodup := by
    unfold declaredNames
    rw [filter_ne_empty_eq_self _ hEc]
    exact hnd
  have hdc : d.compensationName ≠ "" := by
    intro h
    apply hEc
    rw [← h]
    exact List.mem_map_of_mem _ (by simp)
  obtain ⟨f, hf⟩ := exists_compensation_of_name_ne d hdc
  have hEc' : "" ∉ (pre ++ [d]).map Step.compensationName := by
    intro h
    apply hEc
    rw [List.mem_map] at h ⊢
    obtain ⟨a, ha, hb⟩ := h
    refine ⟨a, ?_, hb⟩
    rcases List.mem_append.1 ha with h1 | h1
    · exact List.mem_append_left _ h1
    · exact List.mem_append_right _ (List.mem_cons.2 (Or.inl (List.mem_singleton.1 h1)))
  have htake := run_abort_take s n sid p pre post d d.compensationName f hreg hN hE hok habort
    hf hdc hcomp w
  rw [filter_ne_empty_eq_self _ hEc'] at htake
  refine run_of_take s _ w _ htake fuel ?_
  simp only [List.length_cons, List.length_append, length_beginEndPairs, List.length_map,
    List.length_singleton, List.length_nil, List.length_reverse]
  omega

/-- C3 at scenario 1: `S = A -> B -> C` with `cA`, `cB`, `cC` and `C` aborting gives
the 15-command trace. -/
theorem abort_run_all_compensated_witness :
    (secOf (buildLinear "S" chainABC)).sagas.get? "S" = some (buildLinear "S" chainABC) ∧
    (chainABC.map Step.name ++ chainABC.map Step.compensationName).Nodup ∧
    "" ∉ chainABC.map Step.name ++ chainABC.map Step.compensationName ∧
    run (secOf (buildLinear "S" chainABC)) 15 (BeginSaga "S" "id" (some 7)) () =
      [BeginSaga "S" "id" (some 7),
       BeginTransaction "S" "id" "A" (some 7), EndTransaction "S" "id" "A" (some 7),
       BeginTransaction "S" "id" "B" (some 7), EndTransaction "S" "id" "B" (some 7),
       BeginTransaction "S" "id" "C" (some 7), AbortSaga "S" "id" "C",
       EndTransactionCompensate "S" "id" "C" "cC" none,
       BeginTransaction "S" "id" "cC" none, EndTransaction "S" "id" "cC" none,
       BeginTransaction "S" "id" "cB" none, EndTransaction "S" "id" "cB" none,
       BeginTransaction "S" "id" "cA" none, EndTransaction "S" "id" "cA" none,
       EndSaga "S" "id"] :=
  ⟨rfl, by decide, by decide,
    abort_run_all_compensated (secOf (buildLinear "S" chainABC)) "S" "id" (some 7)
      [{ name := "A", func := bodyOk, compensation := some ("cA", bodyOk) },
       { name := "B", func := bodyOk, compensation := some ("cB", bodyOk) }]
      []
      { name := "C", func := bodyAbort, compensation := some ("cC", bodyOk) }
      rfl (by decide) (by decide)
      (by
        intro d hd p w
        simp only [List.mem_cons, List.mem_singleton, List.not_mem_nil, or_false] at hd
        rcases hd with rfl | rfl <;> rfl)
      (fun _ _ => ⟨_, rfl, by decide⟩)
      (by
        intro d hd c f hc p w
        simp only [List.cons_append, List.nil_append, List.mem_cons, List.mem_singleton,
          List.not_mem_nil, or_false] at hd
        rcases hd with rfl | rfl | rfl <;>
          · simp only [Option.some.injEq, Prod.mk.injEq] at hc
            obtain ⟨-, rfl⟩ := hc
            rfl)
      () 15 (by decide)⟩

/-- C4, evaluated on the code at `S = A -> B -> C` with `cA`, `cB`, `cC` and `B` a
save-point: `Next(cB)` is `cA`, not `C`; processing `EndTransaction[cB]` writes
`BeginTransaction[cA]`, and the whole run is the one of the chain without the
save-point. -/
theorem save_point_is_not_honoured :
    (buildLinear "S" chainABCSave).Next "cB" = "cA" ∧
    (secOf (buildLinear "S" chainABCSave)).ProcessCommand
        (EndTransaction "S" "id" "cB" none) ((), []) =
      some (none, ((), [BeginTransaction "S" "id" "cA" none])) ∧
    run (secOf (buildLinear "S" chainABCSave)) 40 (BeginSaga "S" "id" (some 7)) () =
      run (secOf (buildLinear "S" chainABC)) 40 (BeginSaga "S" "id" (some 7)) () ∧
    BeginTransaction "S" "id" "C" (none : Option Nat) ∉
      run (secOf (buildLinear "S" chainABCSave)) 40 (BeginSaga "S" "id" (some 7)) () := by
  decide

end runProperties

/-! ## Properties of single steps: abort without compensation, params, body outcomes -/

section stepProperties

variable {L : Type}

theorem beginOrEnd_ne_beginTransaction (n sid next x : String) (p p' : Option α)
    (hx : x ≠ next) : beginOrEnd n sid next p ≠ BeginTransaction n sid x p' := by
  unfold beginOrEnd
  by_cases h : next = ""
  · rw [if_pos h]
    intro e
    have hk : EndSagaCommand = BeginTransactionCommand := congrArg Command.Name e
    exact absurd hk (by decide)
  · rw [if_neg h]
    intro e
    have := congrArg Command.TransactionID e
    exact hx this.symm

/-- C5: for every registered saga and every transaction `t` of it that declared no
compensation, processing `AbortSaga[t]` writes `EndTransaction` with transaction ID
`t` and an empty compensation ID, and processing that `EndTransaction` (whatever
params it carries) writes the command fixed by `Next(t)`, the `NextTransactionName`
of `t`: `EndSaga` when it is empty, `BeginTransaction` of it otherwise; so no
`BeginTransaction` of any other step, such as the compensation of an earlier
transaction, is written at that point. -/
theorem abort_of_uncompensated_transaction (s : SEC W L α) (sg : Saga W α)
    (n sid t : String) (tx : Transaction W α)
    (hreg : s.sagas.get? n = some sg) (ht : sg.transactions.get? t = some tx)
    (hc : tx.CompensationName = "") (p : Option α) (w : W) (l : List (Command α)) :
    s.inMemory.ProcessCommand (AbortSaga n sid t) (w, l) =
        some (none, (w, l ++ [EndTransactionCompensate n sid t "" none])) ∧
      sg.Next t = tx.NextTransactionName ∧
      s.inMemory.ProcessCommand (EndTransactionCompensate n sid t "" p) (w, l) =
        some (none, (w, l ++ [if tx.NextTransactionName = "" then EndSaga n sid
          else BeginTransaction n sid tx.NextTransactionName p])) ∧
      ∀ x p', x ≠ tx.NextTransactionName →
        s.inMemory.ProcessCommand (EndTransactionCompensate n sid t "" p) (w, l) ≠
          some (none, (w, l ++ [BeginTransaction n sid x p'])) := by
  have hcomp : sg.Compensation t = "" := by
    unfold Saga.Compensation
    rw [ht]
    exact hc
  have hnext : sg.Next t = tx.NextTransactionName := by
    unfold Saga.Next
    rw [ht]
  have h1 := step_abortSaga s n sid t sg hreg w l
  rw [hcomp] at h1
  have h2 : s.inMemory.ProcessCommand (EndTransactionCompensate n sid t "" p) (w, l) =
      some (none, (w, l ++ [beginOrEnd n sid tx.NextTransactionName p])) := by
    have := step_endTransaction s n sid t p sg hreg w l
    rw [hnext] at this
    exact this
  refine ⟨h1, hnext, h2, ?_⟩
  intro x p' hx
  rw [h2]
  intro e
  have e1 := (Prod.mk.inj (Prod.mk.inj (Option.some.inj e)).2).2
  have e2 := List.append_cancel_left e1
  exact beginOrEnd_ne_beginTransaction n sid _ x p p' hx (List.cons.inj e2).1

/-- C5 at scenario 3: `A -> B` with `cA` on `A` and no compensation on `B`:
`AbortSaga[B]` is followed by `EndTransaction[B, comp=""]` and then `EndSaga`. -/
theorem abort_of_uncompensated_transaction_witness :
    (secOf (buildLinear "S" chainAB)).sagas.get? "S" = some (buildLinear "S" chainAB) ∧
    (secOf (buildLinear "S" chainAB)).ProcessCommand (AbortSaga "S" "id" "B") ((), []) =
      some (none, ((), [EndTransactionCompensate "S" "id" "B" "" none])) ∧
    (buildLinear "S" chainAB).Next "B" = "" ∧
    (secOf (buildLinear "S" chainAB)).ProcessCommand
        (EndTransactionCompensate "S" "id" "B" "" none) ((), []) =
      some (none, ((), [EndSaga "S" "id"])) ∧
    (secOf (buildLinear "S" chainAB)).ProcessCommand
        (EndTransactionCompensate "S" "id" "B" "" none) ((), []) ≠
      some (none, ((), [BeginTransaction "S" "id" "cA" none])) :=
  have h := abort_of_uncompensated_transaction (secOf (buildLinear "S" chainAB))
    (buildLinear "S" chainAB) "S" "id" "B"
    { Name := "B", Func := some bodyAbort } rfl rfl rfl none () []
  ⟨rfl, h.1, h.2.1, h.2.2.1, h.2.2.2 "cA" none (by decide)⟩

/-- C6, evaluated on the code at the single step `A` with compensation `cA`, `A`
returning the abort-saga sentinel, started with params `7`: `AbortSaga[A]` carries
nil params, and so do `EndTransaction[A, comp=cA]` and `BeginTransaction[cA]`; the
compensation body is invoked with nil, not with the params of `BeginSaga`. -/
theorem params_are_dropped_by_abort :
    run (secOf (buildLinear "S" chainAbortFirst)) 20 (BeginSaga "S" "id" (some 7)) () =
      [BeginSaga "S" "id" (some 7), BeginTransaction "S" "id" "A" (some 7),
       AbortSaga "S" "id" "A", EndTransactionCompensate "S" "id" "A" "cA" none,
       BeginTransaction "S" "id" "cA" none, EndTransaction "S" "id" "cA" none,
       EndSaga "S" "id"] ∧
    (AbortSaga "S" "id" "A" : Command Nat).SagaParams = none ∧
    (BeginTransaction "S" "id" "cA" (none : Option Nat)).SagaParams ≠ some 7 := by
  decide

/-- Wrapping the sentinel in any number of `fmt.Errorf("...%w", err)` layers keeps it
detectable. -/
theorem is_abort_of_wrapped (msgs : List String) :
    (msgs.foldr GoError.wrap ErrAbortSaga).Is ErrAbortSaga = true := by
  induction msgs with
  | nil => decide
  | cons m ms ih =>
    rw [List.foldr_cons, GoError.Is, ih, Bool.or_true]

/-- C7: for every registered saga and every `BeginTransaction` command keyed on a
forward transaction `t` with body `f`, `ProcessCommand` writes `AbortSaga[t]` if and
only if the error `f` returns is non-nil and its unwrap chain contains
`ErrAbortSaga`; it writes `AbortTransaction[t]` with the input params when the error
is non-nil without the sentinel, and `EndTransaction[t]` with the input params when
`f` returns nil.  The sentinel wrapped at any depth is detected. -/
theorem beginTransaction_outcome (s : SEC W L α) (sg : Saga W α) (n sid t : String)
    (tx : Transaction W α) (f : TransactionFunc W α)
    (hreg : s.sagas.get? n = some sg) (ht : sg.transactions.get? t = some tx)
    (hf : tx.Func = some f) (p : Option α) (w : W) (l : List (Command α)) :
    (s.inMemory.ProcessCommand (BeginTransaction n sid t p) (w, l) =
        some (none, ((f p w).2, l ++ [AbortSaga n sid t])) ↔
      ∃ e, (f p w).1 = some e ∧ e.Is ErrAbortSaga = true) ∧
    (∀ e, (f p w).1 = some e → e.Is ErrAbortSaga = false →
      s.inMemory.ProcessCommand (BeginTransaction n sid t p) (w, l) =
        some (none, ((f p w).2, l ++ [AbortTransaction n sid t p]))) ∧
    ((f p w).1 = none →
      s.inMemory.ProcessCommand (BeginTransaction n sid t p) (w, l) =
        some (none, ((f p w).2, l ++ [EndTransaction n sid t p]))) ∧
    ∀ msgs : List String, (msgs.foldr GoError.wrap ErrAbortSaga).Is ErrAbortSaga = true := by
  have hex : sg.ExecuteTransaction t p w = some ((f p w).1, (f p w).2) := by
    unfold Saga.ExecuteTransaction
    rw [ht]
    show Option.map (fun f => f p w) tx.Func = _
    rw [hf]
    rfl
  have hstep := step_beginTransaction s n sid t p sg hreg w _ l _ hex
  refine ⟨⟨?_, ?_⟩, ?_, ?_, is_abort_of_wrapped⟩
  · intro h
    rw [hstep] at h
    have e1 := (Prod.mk.inj (Prod.mk.inj (Option.some.inj h)).2).2
    have e2 := (List.cons.inj (List.append_cancel_left e1)).1
    cases hr : (f p w).1 with
    | none =>
      rw [hr] at e2
      have hk : EndTransactionCommand = AbortSagaCommand := congrArg Command.Name e2
      exact absurd hk (by decide)
    | some e =>
      refine ⟨e, rfl, ?_⟩
      rw [hr] at e2
      by_cases he : e.Is ErrAbortSaga = true
      · exact he
      · unfold afterBody at e2
        simp only [he] at e2
        have hk : AbortTransactionCommand = AbortSagaCommand := congrArg Command.Name e2
        exact absurd hk (by decide)
  · rintro ⟨e, he, hIs⟩
    rw [hstep, he]
    unfold afterBody
    simp [hIs]
  · intro e he hIs
    rw [hstep, he]
    unfold afterBody
    simp [hIs]
  · intro he
    rw [hstep, he]
    rfl

/-- C7 at `PayTransferBooking`-like step `C` of `chainABC`, whose body returns
`fmt.Errorf("ooops: %w", ErrAbortSaga)`: `AbortSaga[C]` is written. -/
theorem beginTransaction_outcome_witness :
    (secOf (buildLinear "S" chainABC)).sagas.get? "S" = some (buildLinear "S" chainABC) ∧
    (secOf (buildLinear "S" chainABC)).ProcessCommand
        (BeginTransaction "S" "id" "C" (some 7)) ((), []) =
      some (none, ((), [AbortSaga "S" "id" "C"])) :=
  ⟨rfl,
    (beginTransaction_outcome (secOf (buildLinear "S" chainABC)) (buildLinear "S" chainABC)
      "S" "id" "C"
      { Name := "C", CompensationName := "cC", Func := some bodyAbort } bodyAbort
      rfl rfl rfl (some 7) () []).1.2 ⟨_, rfl, by decide⟩⟩

end stepProperties

/-! ## Retries, compensation bodies that abort, unknown steps -/

section retryProperties

variable {L : Type}

/-- The retries of step `k`: while the body fails with a plain error, each attempt
adds `BeginTransaction[k]`, `AbortTransaction[k]` to the trace. -/
theorem run_retries (s : SEC W L α) (sg : Saga W α) (n sid k : String) (p : Option α)
    (hreg : s.sagas.get? n = some sg) (m : Nat) (ws : Nat → W) (errs : Nat → GoError)
    (hfail : ∀ i, i < m →
      sg.ExecuteTransaction k p (ws i) = some (some (errs i), ws (i + 1)) ∧
        (errs i).Is ErrAbortSaga = false) :
    ∀ j, j ≤ m → ∀ fuel,
      run s (2 * j + fuel) (BeginTransaction n sid k p) (ws (m - j)) =
        retryPairs n sid k p j ++ run s fuel (BeginTransaction n sid k p) (ws m) := by
  intro j
  induction j with
  | zero =>
    intro _ fuel
    rw [Nat.mul_zero, Nat.zero_add, Nat.sub_zero]
    rfl
  | succ j ih =>
    intro hj fuel
    obtain ⟨hex, hIs⟩ := hfail (m - (j + 1)) (by omega)
    have hw : m - (j + 1) + 1 = m - j := by omega
    rw [hw] at hex
    have hstep := step_beginTransaction s n sid k p sg hreg _ _ [] _ hex
    have hafter : afterBody n sid k p (some (errs (m - (j + 1)))) =
        AbortTransaction n sid k p := by
      unfold afterBody
      simp [hIs]
    rw [hafter] at hstep
    have hfuel : 2 * (j + 1) + fuel = (2 * j + fuel + 1) + 1 := by omega
    rw [hfuel, run_succ_write s _ _ _ _ _ none hstep,
      run_succ_write s _ _ _ _ _ none (step_abortTransaction s n sid k p sg hreg _ []),
      ih (by omega) fuel]
    rfl

/-- C8: for every registered saga, step `k` and params `p`: whenever the body of `k`
returns an error without the sentinel, processing `BeginTransaction[k, p]` writes
`AbortTransaction[k, p]`; processing `AbortTransaction[k, p]` writes
`BeginTransaction[k, p]` with the same saga ID, transaction ID and params and leaves
the world untouched (no body is invoked).  These two hold whether or not the body
ever succeeds.  When the body fails this way `m` times (in the worlds
`ws 0 .. ws (m-1)`), the trace from `BeginTransaction[k, p]` is `m` times
`BeginTransaction[k]`, `AbortTransaction[k]`, followed by the run that starts at
`BeginTransaction[k, p]` in the world `ws m`; and where the body returns nil, that
run is `BeginTransaction[k]`, `EndTransaction[k]` and the run of the follow-up of
`Next(k)`, as in a run without failures. -/
theorem transient_retry (s : SEC W L α) (sg : Saga W α) (n sid k : String) (p : Option α)
    (hreg : s.sagas.get? n = some sg) :
    (∀ w e w' l, sg.ExecuteTransaction k p w = some (some e, w') →
      e.Is ErrAbortSaga = false →
      s.inMemory.ProcessCommand (BeginTransaction n sid k p) (w, l) =
        some (none, (w', l ++ [AbortTransaction n sid k p]))) ∧
    (∀ w l, s.inMemory.ProcessCommand (AbortTransaction n sid k p) (w, l) =
      some (none, (w, l ++ [BeginTransaction n sid k p]))) ∧
    (∀ (m : Nat) (ws : Nat → W) (errs : Nat → GoError),
      (∀ i, i < m →
        sg.ExecuteTransaction k p (ws i) = some (some (errs i), ws (i + 1)) ∧
          (errs i).Is ErrAbortSaga = false) →
      ∀ fuel, run s (2 * m + fuel) (BeginTransaction n sid k p) (ws 0) =
        retryPairs n sid k p m ++ run s fuel (BeginTransaction n sid k p) (ws m)) ∧
    (∀ (w wEnd : W), sg.ExecuteTransaction k p w = some (none, wEnd) →
      ∀ fuel, run s (fuel + 2) (BeginTransaction n sid k p) w =
        BeginTransaction n sid k p :: EndTransaction n sid k p ::
          run s fuel (beginOrEnd n sid (sg.Next k) p) wEnd) := by
  refine ⟨?_, ?_, ?_, ?_⟩
  · intro w e w' l hex hIs
    have hstep := step_beginTransaction s n sid k p sg hreg w w' l _ hex
    have hafter : afterBody n sid k p (some e) = AbortTransaction n sid k p := by
      unfold afterBody
      simp [hIs]
    rw [hafter] at hstep
    exact hstep
  · intro w l
    exact step_abortTransaction s n sid k p sg hreg w l
  · intro m ws errs hfail fuel
    have h := run_retries s sg n sid k p hreg m ws errs hfail m (Nat.le_refl m) fuel
    rw [Nat.sub_self] at h
    exact h
  · intro w wEnd hok fuel
    have hstep := step_beginTransaction s n sid k p sg hreg _ _ [] _ hok
    have hafter : afterBody n sid k p none = EndTransaction n sid k p := rfl
    rw [hafter] at hstep
    rw [run_succ_write s _ _ _ _ _ none hstep,
      run_succ_write s _ _ _ _ _ none (step_endTransaction s n sid k p sg hreg _ [])]

/-- C8 at scenario 6, where `A` fails twice with a plain error and then succeeds,
and at the unknown step `Z` of the same saga, whose execution never succeeds: the
two single-step facts hold there all the same. -/
theorem transient_retry_witness :
    (secOf (buildLinear "S" chainFlaky)).sagas.get? "S" = some (buildLinear "S" chainFlaky) ∧
    run (secOf (buildLinear "S" chainFlaky)) (2 * 2 + 5)
        (BeginTransaction "S" "id" "A" (some 7)) 0 =
      [BeginTransaction "S" "id" "A" (some 7), AbortTransaction "S" "id" "A" (some 7),
       BeginTransaction "S" "id" "A" (some 7), AbortTransaction "S" "id" "A" (some 7),
       BeginTransaction "S" "id" "A" (some 7), EndTransaction "S" "id" "A" (some 7),
       BeginTransaction "S" "id" "B" (some 7), EndTransaction "S" "id" "B" (some 7),
       EndSaga "S" "id"] ∧
    run (secOf (buildLinear "S" chainFlaky)) (3 + 2)
        (BeginTransaction "S" "id" "A" (some 7)) 2 =
      [BeginTransaction "S" "id" "A" (some 7), EndTransaction "S" "id" "A" (some 7),
       BeginTransaction "S" "id" "B" (some 7), EndTransaction "S" "id" "B" (some 7),
       EndSaga "S" "id"] ∧
    (secOf (buildLinear "S" chainFlaky)).inMemory.ProcessCommand
        (BeginTransaction "S" "id" "A" (some 7)) (0, []) =
      some (none, (1, [AbortTransaction "S" "id" "A" (some 7)])) ∧
    (secOf (buildLinear "S" chainFlaky)).inMemory.ProcessCommand
        (AbortTransaction "S" "id" "Z" (some 7)) (5, []) =
      some (none, (5, [BeginTransaction "S" "id" "Z" (some 7)])) :=
  ⟨rfl,
    ((transient_retry (secOf (buildLinear "S" chainFlaky)) (buildLinear "S" chainFlaky)
      "S" "id" "A" (some 7) rfl).2.2.1 2 (fun i => i) (fun _ => GoError.errorf "busy")
      (by
        intro i hi
        interval_cases i
        · exact ⟨rfl, rfl⟩
        · exact ⟨rfl, rfl⟩) 5).trans (by decide),
    ((transient_retry (secOf (buildLinear "S" chainFlaky)) (buildLinear "S" chainFlaky)
      "S" "id" "A" (some 7) rfl).2.2.2 2 3 rfl 3).trans (by decide),
    (transient_retry (secOf (buildLinear "S" chainFlaky)) (buildLinear "S" chainFlaky)
      "S" "id" "A" (some 7) rfl).1 0 (GoError.errorf "busy") 1 [] rfl rfl,
    (transient_retry (secOf (buildLinear "S" chainFlaky)) (buildLinear "S" chainFlaky)
      "S" "id" "Z" (some 7) rfl).2.1 5 []⟩

/-- C9 as stated fails: in the saga of the single step `A` with compensation `cA`,
`cA` names no transaction and its body returns `ErrAbortSaga`, yet processing
`BeginTransaction[cA]` writes `AbortSaga[cA]`, not `AbortTransaction[cA]`; in the
run where `A` aborts, `cA` is begun once and never retried. -/
theorem compensation_sentinel_is_not_retried :
    ((buildLinear "S" chainBadCompensation).transactions.get? "cA").isNone = true ∧
    ((buildLinear "S" chainBadCompensation).compensations.get? "cA").isSome = true ∧
    (buildLinear "S" chainBadCompensation).ExecuteTransaction "cA" none () =
      some (some ErrAbortSaga, ()) ∧
    (secOf (buildLinear "S" chainBadCompensation)).ProcessCommand
        (BeginTransaction "S" "id" "cA" none) ((), []) =
      some (none, ((), [AbortSaga "S" "id" "cA"])) ∧
    (secOf (buildLinear "S" chainBadCompensation)).ProcessCommand
        (BeginTransaction "S" "id" "cA" none) ((), []) ≠
      some (none, ((), [AbortTransaction "S" "id" "cA" none])) ∧
    run (secOf (buildLinear "S" chainBadCompensation)) 20 (BeginSaga "S" "id" (some 7)) () =
      [BeginSaga "S" "id" (some 7), BeginTransaction "S" "id" "A" (some 7),
       AbortSaga "S" "id" "A", EndTransactionCompensate "S" "id" "A" "cA" none,
       BeginTransaction "S" "id" "cA" none, AbortSaga "S" "id" "cA",
       EndTransaction "S" "id" "cA" none, EndSaga "S" "id"] := by
  decide

/-- C9 amended: the coordinator handles a compensation step like a forward one.  For
every saga and every compensation name `c` of it that is not also a transaction
name, processing `BeginTransaction[c]` whose body returns an error containing
`ErrAbortSaga` writes `AbortSaga[c]`, and processing `AbortSaga[c]` writes
`EndTransaction[c]` with an empty compensation ID (`c` names no transaction), so
`c` is not begun again. -/
theorem compensation_sentinel_aborts (s : SEC W L α) (sg : Saga W α) (n sid c : String)
    (cr : Compensation W α) (f : TransactionFunc W α)
    (hreg : s.sagas.get? n = some sg) (hnt : sg.transactions.get? c = none)
    (hc : sg.compensations.get? c = some cr) (hf : cr.Func = some f)
    (p : Option α) (w : W) (l : List (Command α)) (e : GoError)
    (he : (f p w).1 = some e) (hIs : e.Is ErrAbortSaga = true) :
    s.inMemory.ProcessCommand (BeginTransaction n sid c p) (w, l) =
        some (none, ((f p w).2, l ++ [AbortSaga n sid c])) ∧
      ∀ w' l', s.inMemory.ProcessCommand (AbortSaga n sid c) (w', l') =
        some (none, (w', l' ++ [EndTransaction n sid c none])) := by
  have hex : sg.ExecuteTransaction c p w = some (some e, (f p w).2) := by
    unfold Saga.ExecuteTransaction
    simp only [hnt, hc, hf, Option.map_some']
    rw [← he]
  have hstep := step_beginTransaction s n sid c p sg hreg w _ l _ hex
  have hafter : afterBody n sid c p (some e) = AbortSaga n sid c := by
    unfold afterBody
    simp [hIs]
  rw [hafter] at hstep
  refine ⟨hstep, ?_⟩
  intro w' l'
  have h := step_abortSaga s n sid c sg hreg w' l'
  have hcomp : sg.Compensation c = "" := by
    unfold Saga.Compensation
    rw [hnt]
  rw [hcomp] at h
  exact h

/-- C9 amended, at the compensation `cA` of `chainBadCompensation`. -/
theorem compensation_sentinel_aborts_witness :
    (secOf (buildLinear "S" chainBadCompensation)).sagas.get? "S" =
      some (buildLinear "S" chainBadCompensation) ∧
    ((buildLinear "S" chainBadCompensation).transactions.get? "cA").isNone = true ∧
    (secOf (buildLinear "S" chainBadCompensation)).ProcessCommand
        (BeginTransaction "S" "id" "cA" none) ((), []) =
      some (none, ((), [AbortSaga "S" "id" "cA"])) :=
  ⟨rfl, by decide,
    (compensation_sentinel_aborts (secOf (buildLinear "S" chainBadCompensation))
      (buildLinear "S" chainBadCompensation) "S" "id" "cA"
      { Name := "cA", Func := some bodyAbortBare } bodyAbortBare rfl rfl rfl rfl none () []
      ErrAbortSaga rfl (by decide)).1⟩

/-- C10, evaluated on the code at the saga `A -> B` and a `BeginTransaction` command
for the step ID `Z`, which names neither a transaction nor a compensation:
`ExecuteTransaction` returns its unknown-step error, and `ProcessCommand` writes
`AbortTransaction[Z]` and returns nil; fed back, that command writes
`BeginTransaction[Z]` again, without end. -/
theorem unknown_step_is_retried :
    ((buildLinear "S" chainOk).transactions.get? "Z").isNone = true ∧
    ((buildLinear "S" chainOk).compensations.get? "Z").isNone = true ∧
    (buildLinear "S" chainOk).ExecuteTransaction "Z" (some 7) () =
      some (some (GoError.errorf "no transaction or compensation with id Z"), ()) ∧
    (secOf (buildLinear "S" chainOk)).ProcessCommand
        (BeginTransaction "S" "id" "Z" (some 7)) ((), []) =
      some (none, ((), [AbortTransaction "S" "id" "Z" (some 7)])) ∧
    run (secOf (buildLinear "S" chainOk)) 5 (BeginTransaction "S" "id" "Z" (some 7)) () =
      [BeginTransaction "S" "id" "Z" (some 7), AbortTransaction "S" "id" "Z" (some 7),
       BeginTransaction "S" "id" "Z" (some 7), AbortTransaction "S" "id" "Z" (some 7),
       BeginTransaction "S" "id" "Z" (some 7)] := by
  decide

end retryProperties

/-! ### The reference definition of `Next` -/

/-- C12 as stated fails: in the saga built from a first step named by the empty
string and marked as a save-point, followed by `B` with the compensation `cB`, the
compensation `cB` has the empty `NextCompensationName`; the code looks the empty
name up among the transactions and returns `B`, the reference definition returns
the empty string. -/
theorem next_differs_from_reference_on_empty_name :
    (buildLinear "S" chainEmptyName).Next "cB" = "B" ∧
    (buildLinear "S" chainEmptyName).nextSpec "cB" = "" ∧
    (buildLinear "S" chainEmptyName).Next "cB" ≠
      (buildLinear "S" chainEmptyName).nextSpec "cB" := by
  decide

/-- C12 amended: for every saga definition `s` (any contents of its two maps) and
every step ID `x`, `Saga.Next(x)` equals the reference definition `nextSpec`, with one
exception: `x` names no transaction and names a compensation whose
`NextCompensationName` is empty, while a transaction named by the empty string
exists, is a save-point and has a non-empty `NextTransactionName`.  In that case
`Next(x)` is that `NextTransactionName` and the reference gives the empty string.
So the two agree on every saga whose transaction named by the empty string, if
there is one, is no save-point or has an empty `NextTransactionName`. -/
theorem next_eq_nextSpec (s : Saga W α) (x : String) :
    (s.Next x = s.nextSpec x ↔
      ¬ (s.transactions.get? x = none ∧
        ∃ c t, s.compensations.get? x = some c ∧ c.NextCompensationName = "" ∧
          s.transactions.get? "" = some t ∧ t.IsSavePoint = true ∧
          t.NextTransactionName ≠ "")) ∧
    (∀ c t, s.transactions.get? x = none → s.compensations.get? x = some c →
      c.NextCompensationName = "" → s.transactions.get? "" = some t →
      t.IsSavePoint = true → t.NextTransactionName ≠ "" →
      s.Next x = t.NextTransactionName ∧ s.nextSpec x = "") ∧
    ((∀ t, s.transactions.get? "" = some t → t.IsSavePoint = true →
        t.NextTransactionName = "") →
      s.Next x = s.nextSpec x) := by
  have hiff : s.Next x = s.nextSpec x ↔
      ¬ (s.transactions.get? x = none ∧
        ∃ c t, s.compensations.get? x = some c ∧ c.NextCompensationName = "" ∧
          s.transactions.get? "" = some t ∧ t.IsSavePoint = true ∧
          t.NextTransactionName ≠ "") := by
    unfold Saga.Next Saga.nextSpec
    cases hx : s.transactions.get? x with
    | some t => simp
    | none =>
      cases hc : s.compensations.get? x with
      | none => simp
      | some c =>
        by_cases hm : c.NextCompensationName = ""
        · cases he : s.transactions.get? "" with
          | none => simp [hm, he]
          | some t =>
            cases hsp : t.IsSavePoint with
            | false => simp [hm, he, hsp]
            | true =>
              simp only [hm, he, hsp, ne_eq, not_true_eq_false, if_false, if_true, true_and,
                Option.some.injEq, exists_eq_left', not_not]
              simp [hm, hsp]
        · simp [hm]
  refine ⟨hiff, ?_, ?_⟩
  · intro c t hx hc hm he hsp hne
    unfold Saga.Next Saga.nextSpec
    simp [hx, hc, hm, he, hsp]
  · intro h
    rw [hiff]
    rintro ⟨-, c, t, -, -, he, hsp, hne⟩
    exact hne (h t he hsp)

/-- C12 amended, at sagas with a transaction named by the empty string: where it is
no save-point, and where it is a save-point without a successor, `Next` equals the
reference; at `chainEmptyName` the exception applies to `cB`, and only to it. -/
theorem next_eq_nextSpec_witness :
    (buildLinear "S" chainEmptyNamePlain).Next "cB" =
      (buildLinear "S" chainEmptyNamePlain).nextSpec "cB" ∧
    (buildLinear "S" chainEmptyNameLast).Next "cB" =
      (buildLinear "S" chainEmptyNameLast).nextSpec "cB" ∧
    (buildLinear "S" chainEmptyName).Next "B" = (buildLinear "S" chainEmptyName).nextSpec "B" ∧
    ((buildLinear "S" chainEmptyName).Next "cB" = "B" ∧
      (buildLinear "S" chainEmptyName).nextSpec "cB" = "") ∧
    (buildLinear "S" chainABCSave).Next "cB" = (buildLinear "S" chainABCSave).nextSpec "cB" :=
  ⟨(next_eq_nextSpec (buildLinear "S" chainEmptyNamePlain) "cB").2.2
      (by
        intro t ht hsp
        have h : (buildLinear "S" chainEmptyNamePlain).transactions.get? "" =
            some { Name := "", NextTransactionName := "B", Func := some bodyOk } := rfl
        rw [h] at ht
        rw [← Option.some.inj ht] at hsp
        cases hsp),
    (next_eq_nextSpec (buildLinear "S" chainEmptyNameLast) "cB").2.2
      (by
        intro t ht _
        have h : (buildLinear "S" chainEmptyNameLast).transactions.get? "" =
            some { Name := "", CompensationName := "cE", IsSavePoint := true,
                   Func := some bodyOk } := rfl
        rw [h] at ht
        rw [← Option.some.inj ht]),
    (next_eq_nextSpec (buildLinear "S" chainEmptyName) "B").1.2
      (by
        rintro ⟨h, -⟩
        have h' : (buildLinear "S" chainEmptyName).transactions.get? "B" =
            some { Name := "B", CompensationName := "cB", Func := some bodyOk } := rfl
        rw [h'] at h
        cases h),
    (next_eq_nextSpec (buildLinear "S" chainEmptyName) "cB").2.1
      { Name := "cB", Func := some bodyOk }
      { Name := "", NextTransactionName := "B", IsSavePoint := true, Func := some bodyOk }
      rfl rfl rfl rfl rfl (by decide),
    (next_eq_nextSpec (buildLinear "S" chainABCSave) "cB").2.2
      (by
        intro t ht
        have h : (buildLinear "S" chainABCSave).transactions.get? "" = none := rfl
        rw [h] at ht
        cases ht)⟩

/-! ### The chains of a built saga -/

theorem walkNext_empty (s : Saga W α) (fuel : Nat) : s.walkNext fuel "" = [] := by
  cases fuel <;> rfl

theorem walkCompensations_empty (s : Saga W α) (fuel : Nat) :
    s.walkCompensations fuel "" = [] := by
  cases fuel <;> rfl

/-- Walking `Next` from a step of the chain lists the names from there on. -/
theorem walkNext_buildLinear (n : String) (post : List (Step W α)) :
    ∀ (pre : List (Step W α)), ((pre ++ post).map Step.name).Nodup →
      "" ∉ (pre ++ post).map Step.name →
      ∀ fuel, post.length ≤ fuel →
        (buildLinear n (pre ++ post)).walkNext fuel (firstName post) = post.map Step.name := by
  induction post with
  | nil => intro pre _ _ fuel _; exact walkNext_empty _ fuel
  | cons d post ih =>
    intro pre hnd hE fuel hfuel
    obtain ⟨fuel, rfl⟩ : ∃ f, fuel = f + 1 := ⟨fuel - 1, by simp at hfuel; omega⟩
    have hdn : d.name ≠ "" := by
      intro h
      apply hE
      rw [← h]
      simp
    have hshape : pre ++ d :: post = (pre ++ [d]) ++ post := by simp
    have hrec := ih (pre ++ [d]) (hshape ▸ hnd) (hshape ▸ hE) fuel
      (by simp at hfuel; omega)
    rw [← hshape] at hrec
    rw [firstName, Saga.walkNext, if_neg hdn, next_transaction n pre post d hnd, hrec]
    rfl

/-- C13 (P1, chain well-formed): for a saga built by a linear chain with `N >= 1`
pairwise distinct non-empty transaction names `t1..tN`, the first step started with
`Begin` or with `Then`, `FirstTransaction()` is `t1`, and iterating `Next` from `t1`
yields `t1, t2, ..., tN` and then the empty string: each transaction once, in
declaration order, and the walk is over after `N` steps however much longer it is
allowed to go on. -/
theorem chain_well_formed (n : String) (d : Step W α) (ds : List (Step W α)) (sg : Saga W α)
    (hsg : sg = buildLinear n (d :: ds) ∨ sg = ((d :: ds).foldl Step.andThen (New n)).End)
    (hnd : ((d :: ds).map Step.name).Nodup) (hE : "" ∉ (d :: ds).map Step.name)
    (fuel : Nat) (hfuel : (d :: ds).length ≤ fuel) :
    sg.FirstTransaction = d.name ∧
      sg.walkNext fuel sg.FirstTransaction = (d :: ds).map Step.name ∧
      sg.Next (((d :: ds).map Step.name).getLast (by simp)) = "" := by
  have hsg' : sg = buildLinear n (d :: ds) := by
    rcases hsg with h | h
    · exact h
    · rw [h, buildLinear_eq]
  subst hsg'
  have hfirst : (buildLinear n (d :: ds)).FirstTransaction = d.name :=
    buildLinear_firstTransaction n (d :: ds)
  refine ⟨hfirst, ?_, ?_⟩
  · rw [hfirst]
    exact walkNext_buildLinear n (d :: ds) [] hnd hE fuel hfuel
  · obtain ⟨pre, e, hpe⟩ : ∃ pre e, d :: ds = pre ++ [e] :=
      ⟨(d :: ds).dropLast, (d :: ds).getLast (by simp),
        (List.dropLast_append_getLast (by simp)).symm⟩
    have hlast : ((d :: ds).map Step.name).getLast (by simp) = e.name := by
      simp only [hpe, List.map_append, List.map_singleton, List.getLast_append_singleton]
    rw [hlast]
    have h := next_transaction n pre [] e (hpe ▸ hnd)
    rw [← hpe] at h
    exact h

/-- C13 at `A -> B -> C`, built with `Begin` first and built with `Then` throughout. -/
theorem chain_well_formed_witness :
    (chainABC.map Step.name).Nodup ∧ "" ∉ chainABC.map Step.name ∧
    (buildLinear "S" chainABC).FirstTransaction = "A" ∧
    (buildLinear "S" chainABC).walkNext 7 "A" = ["A", "B", "C"] ∧
    (buildLinear "S" chainABC).Next "C" = "" ∧
    ((chainABC.foldl Step.andThen (New "S")).End).walkNext 3 "A" = ["A", "B", "C"] :=
  have h1 := chain_well_formed "S"
    { name := "A", func := bodyOk, compensation := some ("cA", bodyOk) }
    [{ name := "B", func := bodyOk, compensation := some ("cB", bodyOk) },
     { name := "C", func := bodyAbort, compensation := some ("cC", bodyOk) }]
    (buildLinear "S" chainABC) (Or.inl rfl) (by decide) (by decide) 7 (by decide)
  have h2 := chain_well_formed "S"
    { name := "A", func := bodyOk, compensation := some ("cA", bodyOk) }
    [{ name := "B", func := bodyOk, compensation := some ("cB", bodyOk) },
     { name := "C", func := bodyAbort, compensation := some ("cC", bodyOk) }]
    ((chainABC.foldl Step.andThen (New "S")).End) (Or.inr rfl) (by decide) (by decide) 3
    (by decide)
  ⟨by decide, by decide, h1.1, h1.2.1, h1.2.2, h2.2.1⟩

/-- Walking the compensation links from the last compensation declared in `pre`
lists the declared compensations of `pre`, last declared first. -/
theorem walkCompensations_buildLinear (n : String) (pre : List (Step W α)) :
    ∀ (rest : List (Step W α)),
      (((pre ++ rest).map Step.compensationName).filter (fun x => decide (x ≠ ""))).Nodup →
      ∀ fuel, pre.length ≤ fuel →
        (buildLinear n (pre ++ rest)).walkCompensations fuel
            (lastNonEmpty "" (pre.map Step.compensationName)) =
          ((pre.map Step.compensationName).filter (fun x => decide (x ≠ ""))).reverse := by
  induction pre using List.reverseRecOn with
  | nil => intro rest _ fuel _; exact walkCompensations_empty _ fuel
  | append_singleton pre a ih =>
    intro rest hnd fuel hfuel
    have hshape : pre ++ [a] ++ rest = pre ++ a :: rest := by simp
    rw [hshape] at hnd ⊢
    rw [List.length_append, List.length_singleton] at hfuel
    rw [List.map_append, List.map_singleton, lastNonEmpty_append_singleton, List.filter_append,
      List.reverse_append]
    by_cases ha : a.compensationName = ""
    · have h1 : ¬ (a.compensationName ≠ "") := fun h => h ha
      have h2 : List.filter (fun x => decide (x ≠ "")) [a.compensationName] = [] := by
        simp [List.filter_cons, ha]
      rw [if_neg h1, h2]
      exact ih (a :: rest) hnd fuel (by omega)
    · obtain ⟨f, hf⟩ := exists_compensation_of_name_ne a ha
      obtain ⟨fuel, rfl⟩ : ∃ f, fuel = f + 1 := ⟨fuel - 1, by omega⟩
      have h2 : List.filter (fun x => decide (x ≠ "")) [a.compensationName] =
          [a.compensationName] := by
        simp [List.filter_cons, ha]
      rw [if_pos ha, h2, Saga.walkCompensations, if_neg ha,
        buildLinear_compensations_get? n pre rest a _ f hnd hf ha]
      simp only
      rw [ih (a :: rest) hnd fuel (by omega)]
      rfl

/-- C14 (P2, compensation chain): for a saga built by a linear chain whose declared
compensation names are pairwise distinct and non-empty: the compensation `c` of a
step is bound to a record whose `NextCompensationName` is the compensation name of
the nearest earlier step that declared one (empty if none), steps finalised with
`NoCompensation` being skipped; following `NextCompensationName` from the last
declared compensation visits the declared compensations, each once, in reverse
declaration order, and ends at the empty string; the compensation map binds exactly
the declared compensation names. -/
theorem compensation_chain (n : String) (ds : List (Step W α))
    (hnd : ((ds.filterMap Step.compensation).map Prod.fst).Nodup)
    (hne : "" ∉ (ds.filterMap Step.compensation).map Prod.fst) :
    (∀ pre d post c f, ds = pre ++ d :: post → d.compensation = some (c, f) →
      (buildLinear n ds).compensations.get? c =
        some { Name := c
               NextCompensationName := lastNonEmpty "" (pre.map Step.compensationName)
               Func := some f }) ∧
    (∀ fuel, ds.length ≤ fuel →
      (buildLinear n ds).walkCompensations fuel
          (lastNonEmpty "" (ds.map Step.compensationName)) =
        ((ds.filterMap Step.compensation).map Prod.fst).reverse) ∧
    (∀ x, ((buildLinear n ds).compensations.get? x).isSome = true ↔
      x ∈ (ds.filterMap Step.compensation).map Prod.fst) := by
  have hnames : ∀ l : List (Step W α), "" ∉ (l.filterMap Step.compensation).map Prod.fst →
      (l.map Step.compensationName).filter (fun x => decide (x ≠ "")) =
        (l.filterMap Step.compensation).map Prod.fst := by
    intro l
    induction l with
    | nil => intro _; rfl
    | cons a l ih =>
      intro h
      rcases a with ⟨an, af, asp, ac⟩
      rcases ac with _ | ⟨c, f⟩
      · simp only [List.filterMap_cons] at h ⊢
        rw [List.map_cons, List.filter_cons, ih h]
        simp [Step.compensationName]
      · simp only [List.filterMap_cons, List.map_cons, List.mem_cons, not_or] at h ⊢
        have hc : c ≠ "" := fun e => h.1 e.symm
        rw [List.filter_cons, ih h.2]
        simp [Step.compensationName, hc]
  have hnd' := hnd
  rw [← hnames ds hne] at hnd'
  refine ⟨?_, ?_, ?_⟩
  · intro pre d post c f hds hd
    subst hds
    have hc : c ≠ "" := by
      intro e
      apply hne
      rw [List.mem_map]
      exact ⟨(c, f), by rw [List.mem_filterMap]; exact ⟨d, by simp, hd⟩, e⟩
    exact buildLinear_compensations_get? n pre post d c f hnd' hd hc
  · intro fuel hfuel
    have h := walkCompensations_buildLinear n ds [] (by rw [List.append_nil]; exact hnd') fuel
      hfuel
    rw [List.append_nil, hnames ds hne] at h
    exact h
  · intro x
    rw [buildLinear_compensations, ← hnames ds hne, ← map_name_filter_compensationsOf ""]
    exact GoMap.isSome_get?_foldl Compensation.Name _ x
      (by rw [map_name_filter_compensationsOf]; exact hnd')

/-- C14 at `A -> B` where only `A` declares a compensation, and at `A -> B -> C`
with `cA`, `cB`, `cC`. -/
theorem compensation_chain_witness :
    ((chainABC.filterMap Step.compensation).map Prod.fst).Nodup ∧
    "" ∉ (chainABC.filterMap Step.compensation).map Prod.fst ∧
    (buildLinear "S" chainABC).walkCompensations 3 "cC" = ["cC", "cB", "cA"] ∧
    ((buildLinear "S" chainABC).compensations.get? "cB").isSome = true ∧
    ((buildLinear "S" chainOk).compensations.get? "B").isSome = false ∧
    (buildLinear "S" chainOk).walkCompensations 2 "cA" = ["cA"] :=
  have h := compensation_chain "S" chainABC (by decide) (by decide)
  have h' := compensation_chain "S" chainOk (by decide) (by decide)
  ⟨by decide, by decide, h.2.1 3 (by decide), (h.2.2 "cB").2 (by decide),
    by
      cases hb : ((buildLinear "S" chainOk).compensations.get? "B").isSome with
      | false => rfl
      | true => exact absurd ((h'.2.2 "B").1 hb) (by decide),
    h'.2.1 2 (by decide)⟩

/-! ### Save-point flags and navigation -/

section savePoints

variable {L : Type}

theorem clearSavePoints_transactions_get? (s : Saga W α) (k : String) :
    s.clearSavePoints.transactions.get? k =
      (s.transactions.get? k).map (fun t => { t with IsSavePoint := false }) :=
  GoMap.get?_mapValues _ _ k

theorem clearSavePoints_firstTransaction (s : Saga W α) :
    s.clearSavePoints.FirstTransaction = s.FirstTransaction := rfl

theorem clearSavePoints_compensation (s : Saga W α) (x : String) :
    s.clearSavePoints.Compensation x = s.Compensation x := by
  unfold Saga.Compensation
  rw [clearSavePoints_transactions_get?]
  cases s.transactions.get? x <;> rfl

theorem clearSavePoints_executeTransaction (s : Saga W α) (x : String) (p : Option α) (w : W) :
    s.clearSavePoints.ExecuteTransaction x p w = s.ExecuteTransaction x p w := by
  unfold Saga.ExecuteTransaction
  rw [clearSavePoints_transactions_get?]
  cases s.transactions.get? x <;> rfl

theorem clearSavePoints_next (s : Saga W α)
    (H : ∀ x c, s.compensations.get? x = some c →
      s.transactions.get? c.NextCompensationName = none) (x : String) :
    s.Next x = s.clearSavePoints.Next x := by
  unfold Saga.Next
  rw [clearSavePoints_transactions_get?]
  cases hx : s.transactions.get? x with
  | some t => rfl
  | none =>
    show _ = (match s.clearSavePoints.compensations.get? x with
      | some c =>
        match s.clearSavePoints.transactions.get? c.NextCompensationName with
        | some t => if t.IsSavePoint then t.NextTransactionName else c.NextCompensationName
        | none => c.NextCompensationName
      | none => "")
    have hcomp : s.clearSavePoints.compensations = s.compensations := rfl
    rw [hcomp]
    cases hc : s.compensations.get? x with
    | none => rfl
    | some c =>
      simp only
      rw [clearSavePoints_transactions_get?, H x c hc]
      rfl

/-- Every compensation record of a chain links to the empty name, to `prev`, or to a
non-empty compensation name of the chain. -/
theorem next_of_mem_compensationsOf (prev : String) (ds : List (Step W α))
    (c : Compensation W α) (hc : c ∈ compensationsOf prev ds) :
    c.NextCompensationName = "" ∨ c.NextCompensationName = prev ∨
      c.NextCompensationName ∈
        (ds.map Step.compensationName).filter (fun x => decide (x ≠ "")) := by
  induction ds generalizing prev with
  | nil => cases hc
  | cons d ds ih =>
    rw [compensationsOf_cons] at hc
    rcases List.mem_cons.1 hc with h | h
    · rcases d with ⟨dn, df, dsp, dc⟩
      rcases dc with _ | ⟨cn, cf⟩
      · exact Or.inl (by rw [h]; rfl)
      · exact Or.inr (Or.inl (by rw [h]; rfl))
    · rw [List.map_cons, List.filter_cons]
      rcases ih _ h with h1 | h1 | h1
      · exact Or.inl h1
      · by_cases hd : d.compensationName = ""
        · have hd' : ¬ (d.compensationName ≠ "") := fun e => e hd
          rw [if_neg hd'] at h1
          exact Or.inr (Or.inl h1)
        · rw [if_pos hd] at h1
          refine Or.inr (Or.inr ?_)
          have : decide (d.compensationName ≠ "") = true := by simpa using hd
          rw [this, h1]
          exact List.mem_cons_self _ _
      · refine Or.inr (Or.inr ?_)
        by_cases hd : decide (d.compensationName ≠ "") = true
        · rw [hd]; exact List.mem_cons_of_mem _ h1
        · rw [Bool.not_eq_true] at hd
          rw [hd]; exact h1

/-- The builder links every compensation to the empty string or to the name of a
compensation of the saga. -/
theorem buildLinear_compensation_links (n : String) (ds : List (Step W α)) (x : String)
    (c : Compensation W α) (hget : (buildLinear n ds).compensations.get? x = some c) :
    c.NextCompensationName = "" ∨
      c.NextCompensationName ∈ (buildLinear n ds).compensations.keys := by
  rw [← not_not (a := c.NextCompensationName ∈ _), ← GoMap.get?_eq_none_iff]
  rw [buildLinear_compensations] at hget ⊢
  have hmem : c ∈ compensationsOf "" ds := by
    rcases GoMap.mem_of_get?_foldl Compensation.Name _ _ _ _ hget with h | h
    · exact (List.mem_filter.1 h).1
    · exact absurd h (by simp [GoMap.get?_empty])
  rcases next_of_mem_compensationsOf "" ds c hmem with h | h | h
  · exact Or.inl h
  · exact Or.inl h
  · refine Or.inr (GoMap.get?_foldl_ne_none Compensation.Name _ _ _ ?_)
    rw [map_name_filter_compensationsOf]
    exact h

/-- C19, counterexample.  Disjoint name sets do not make the flags inert.  (1) The
saga of `Begin("", f).SavePoint().NoCompensation().Then("B", f).WithCompensation("cB", f)`
has the transaction names `""`, `B` and the compensation name `cB`, disjoint sets;
`cB.NextCompensationName` is the empty string, which names the first transaction, a
save-point, so `Next("cB")` is `"B"` with the flag and `""` without it, and
`EndTransaction[cB]` is followed by `BeginTransaction[B]` with the flag and by
`EndSaga` without it.  (2) For a saga value with arbitrary maps, non-empty names do
not help either: with `transactions = {A (save-point, next B), B}` and
`compensations = {cB -> A}`, `Next("cB")` is `"B"` with the flag and `"A"` without. -/
theorem disjoint_names_do_not_protect_save_points :
    ((buildLinear "S" chainEmptyName).transactions.keys = ["B", ""] ∧
      (buildLinear "S" chainEmptyName).compensations.keys = ["cB"] ∧
      (∀ k ∈ (buildLinear "S" chainEmptyName).transactions.keys,
        k ∉ (buildLinear "S" chainEmptyName).compensations.keys) ∧
      (buildLinear "S" chainEmptyName).Next "cB" = "B" ∧
      (buildLinear "S" chainEmptyName).clearSavePoints.Next "cB" = "" ∧
      (secOf (buildLinear "S" chainEmptyName)).ProcessCommand
          (EndTransaction "S" "id" "cB" none) ((), []) =
        some (none, (), [BeginTransaction "S" "id" "B" none]) ∧
      (secOf (buildLinear "S" chainEmptyName).clearSavePoints).ProcessCommand
          (EndTransaction "S" "id" "cB" none) ((), []) =
        some (none, (), [EndSaga "S" "id"])) ∧
    (sagaLinkedToTransaction.transactions.keys = ["B", "A"] ∧
      sagaLinkedToTransaction.compensations.keys = ["cB"] ∧
      sagaLinkedToTransaction.Next "cB" = "B" ∧
      sagaLinkedToTransaction.clearSavePoints.Next "cB" = "A") := by
  decide

/-- C19, amended: save-point flags have no effect on navigation unless a
compensation's `NextCompensationName` is the name of a transaction.  (1) For every
saga `s` in which no compensation's `NextCompensationName` is the name of a
transaction, and for every step ID `x`, `Next(x)` on `s` equals `Next(x)` on `s` with
every `IsSavePoint` flag cleared, and two coordinators over the same command log that
hold `s` and the cleared saga under the same name return the same result and write
the same follow-up for every command of that saga.  (2) The premise holds for every
saga built by a linear chain whose transaction names are non-empty and disjoint from
its compensation names.  (3) It holds for every saga value in which every
`NextCompensationName` is empty or the name of a compensation, no transaction is named
by the empty string, and the transaction names are disjoint from the compensation
names.  (4) Every saga built by a linear chain links its compensations as (3)
requires. -/
theorem save_points_without_effect :
    (∀ (s : Saga W α),
      (∀ x c, s.compensations.get? x = some c →
        s.transactions.get? c.NextCompensationName = none) →
      (∀ x, s.Next x = s.clearSavePoints.Next x) ∧
      (∀ (sec sec' : SEC W L α) (n : String), sec.commandLogger = sec'.commandLogger →
        sec.sagas.get? n = some s → sec'.sagas.get? n = some s.clearSavePoints →
        ∀ (c : Command α) (st : W × L), c.SagaName = n →
          sec.ProcessCommand c st = sec'.ProcessCommand c st)) ∧
    (∀ (n : String) (ds : List (Step W α)),
      "" ∉ ds.map Step.name →
      (∀ x ∈ ds.map Step.name, x ∉ ds.map Step.compensationName) →
      ∀ x c, (buildLinear n ds).compensations.get? x = some c →
        (buildLinear n ds).transactions.get? c.NextCompensationName = none) ∧
    (∀ (s : Saga W α),
      (∀ x c, s.compensations.get? x = some c →
        c.NextCompensationName = "" ∨ c.NextCompensationName ∈ s.compensations.keys) →
      "" ∉ s.transactions.keys →
      (∀ k ∈ s.transactions.keys, k ∉ s.compensations.keys) →
      ∀ x c, s.compensations.get? x = some c →
        s.transactions.get? c.NextCompensationName = none) ∧
    (∀ (n : String) (ds : List (Step W α)) x c,
      (buildLinear n ds).compensations.get? x = some c →
      c.NextCompensationName = "" ∨
        c.NextCompensationName ∈ (buildLinear n ds).compensations.keys) := by
  refine ⟨?_, ?_, ?_, ?_⟩
  · intro s H
    refine ⟨clearSavePoints_next s H, ?_⟩
    intro sec sec' n hlog hreg hreg' c st hn
    subst hn
    unfold SEC.ProcessCommand SEC.returnWrite
    rw [hreg, hreg']
    simp only [hlog, clearSavePoints_firstTransaction, clearSavePoints_compensation,
      clearSavePoints_executeTransaction, ← clearSavePoints_next s H]
  · intro n ds hE hdisj x c hget
    rw [buildLinear_compensations] at hget
    have hmem : c ∈ compensationsOf "" ds := by
      rcases GoMap.mem_of_get?_foldl Compensation.Name _ _ _ _ hget with h | h
      · exact (List.mem_filter.1 h).1
      · exact absurd h (by simp [GoMap.get?_empty])
    apply buildLinear_transactions_get?_none
    rcases next_of_mem_compensationsOf "" ds c hmem with h | h | h
    · rw [h]; exact hE
    · rw [h]; exact hE
    · intro hx
      exact hdisj _ hx (List.mem_filter.1 h).1
  · intro s hlink hE hdisj x c hget
    rw [GoMap.get?_eq_none_iff]
    rcases hlink x c hget with h | h
    · rw [h]; exact hE
    · exact fun hk => hdisj _ hk h
  · intro n ds x c hget
    exact buildLinear_compensation_links n ds x c hget

/-- C19 at `A -> B -> C` with `cA`, `cB`, `cC` and `B` a save-point: the premise
holds, by the chain and by the maps of the built saga, and `Next(cB)` is `cA` with and
without the flag. -/
theorem save_points_without_effect_witness :
    "" ∉ chainABCSave.map Step.name ∧
    (∀ x ∈ chainABCSave.map Step.name, x ∉ chainABCSave.map Step.compensationName) ∧
    (buildLinear "S" chainABCSave).Next "cB" =
      (buildLinear "S" chainABCSave).clearSavePoints.Next "cB" ∧
    (secOf (buildLinear "S" chainABCSave)).ProcessCommand
        (EndTransaction "S" "id" "cB" none) ((), []) =
      (secOf (buildLinear "S" chainABCSave).clearSavePoints).ProcessCommand
        (EndTransaction "S" "id" "cB" none) ((), []) ∧
    ("" ∉ (buildLinear "S" chainABCSave).transactions.keys ∧
      (∀ k ∈ (buildLinear "S" chainABCSave).transactions.keys,
        k ∉ (buildLinear "S" chainABCSave).compensations.keys) ∧
      ∀ x c, (buildLinear "S" chainABCSave).compensations.get? x = some c →
        (buildLinear "S" chainABCSave).transactions.get? c.NextCompensationName = none) ∧
    (buildLinear "S" chainABCSave).Next "cB" = "cA" :=
  have h := (@save_points_without_effect Unit Nat (List (Command Nat))).1
    (buildLinear "S" chainABCSave)
    ((@save_points_without_effect Unit Nat (List (Command Nat))).2.1 "S"
      chainABCSave (by decide) (by decide))
  ⟨by decide, by decide, h.1 "cB",
    h.2 (secOf (buildLinear "S" chainABCSave))
      (secOf (buildLinear "S" chainABCSave).clearSavePoints) "S" rfl rfl rfl
      (EndTransaction "S" "id" "cB" none) ((), []) rfl,
    ⟨by decide, by decide,
      (@save_points_without_effect Unit Nat (List (Command Nat))).2.2.1 (buildLinear "S" chainABCSave)
        ((@save_points_without_effect Unit Nat (List (Command Nat))).2.2.2 "S" chainABCSave)
        (by decide) (by decide)⟩,
    by decide⟩

end savePoints

/-! ### One call of `ProcessCommand`: what it writes -/

section writes

variable {L : Type}

theorem ProcessCommand_unknownKind (s : SEC W L α) (c : Command α) (sg : Saga W α)
    (hreg : s.sagas.get? c.SagaName = some sg) (hk : c.Name ∉ commandKinds) (st : W × L) :
    s.ProcessCommand c st =
      some (some (GoError.errorf ("unknow command " ++ toString c.Name)), st) := by
  simp only [commandKinds, List.mem_cons, List.mem_singleton, List.not_mem_nil, or_false,
    not_or] at hk
  obtain ⟨h1, h2, h3, h4, h5, h6⟩ := hk
  unfold SEC.ProcessCommand
  rw [hreg]
  simp only [h1, h2, h3, h4, h5, h6, if_false]

/-- The follow-up constructors keep the saga ID and the saga name they are given. -/
theorem beginOrEnd_ids (n sid x : String) (p : Option α) :
    (beginOrEnd n sid x p).SagaID = sid ∧ (beginOrEnd n sid x p).SagaName = n := by
  unfold beginOrEnd
  split <;> exact ⟨rfl, rfl⟩

theorem afterBody_ids (n sid t : String) (p : Option α) (r : Option GoError) :
    (afterBody n sid t p r).SagaID = sid ∧ (afterBody n sid t p r).SagaName = n := by
  unfold afterBody
  cases r with
  | none => exact ⟨rfl, rfl⟩
  | some e => simp only; split <;> exact ⟨rfl, rfl⟩

/-- The outcomes of one call: a panic; an error without a write; nil without a
write; or one write whose result is returned, of a command with the saga ID and
saga name of the input. -/
theorem ProcessCommand_cases (s : SEC W L α) (c : Command α) (st : W × L) :
    s.ProcessCommand c st = none ∨
    (∃ e, s.ProcessCommand c st = some (some e, st)) ∨
    s.ProcessCommand c st = some (none, st) ∨
    (∃ X w', s.ProcessCommand c st = s.returnWrite X (w', st.2) ∧
      X.SagaID = c.SagaID ∧ X.SagaName = c.SagaName) := by
  cases hreg : s.sagas.get? c.SagaName with
  | none => exact Or.inr (Or.inl ⟨_, ProcessCommand_unregistered s c hreg st⟩)
  | some sg =>
    by_cases h1 : c.Name = BeginSagaCommand
    · exact Or.inr (Or.inr (Or.inr ⟨_, st.1, ProcessCommand_beginSaga s c sg hreg h1 st,
        beginOrEnd_ids _ _ _ _⟩))
    by_cases h3 : c.Name = BeginTransactionCommand
    · cases hex : sg.ExecuteTransaction c.TransactionID c.SagaParams st.1 with
      | none => exact Or.inl (ProcessCommand_beginTransaction_nilFunc s c sg hreg h3 st hex)
      | some r =>
        exact Or.inr (Or.inr (Or.inr ⟨_, r.2,
          ProcessCommand_beginTransaction s c sg hreg h3 st r.1 r.2 hex, afterBody_ids _ _ _ _ _⟩))
    by_cases h5 : c.Name = AbortTransactionCommand
    · exact Or.inr (Or.inr (Or.inr ⟨_, st.1, ProcessCommand_abortTransaction s c sg hreg h5 st,
        rfl, rfl⟩))
    by_cases h6 : c.Name = AbortSagaCommand
    · exact Or.inr (Or.inr (Or.inr ⟨_, st.1, ProcessCommand_abortSaga s c sg hreg h6 st,
        rfl, rfl⟩))
    by_cases h4 : c.Name = EndTransactionCommand
    · exact Or.inr (Or.inr (Or.inr ⟨_, st.1, ProcessCommand_endTransaction s c sg hreg h4 st,
        beginOrEnd_ids _ _ _ _⟩))
    by_cases h2 : c.Name = EndSagaCommand
    · exact Or.inr (Or.inr (Or.inl (ProcessCommand_endSaga s c sg hreg h2 st)))
    · refine Or.inr (Or.inl ⟨_, ProcessCommand_unknownKind s c sg hreg ?_ st⟩)
      simp only [commandKinds, List.mem_cons, List.mem_singleton, List.not_mem_nil, or_false,
        not_or]
      exact ⟨h1, h2, h3, h4, h5, h6⟩

theorem traced_sagas (s : SEC W L α) : (s.traced).sagas = s.sagas := rfl

/-- On the recording log a write passes the call on and records it. -/
theorem traced_returnWrite (s : SEC W L α) (X : Command α) (w : W) (l : L)
    (evs : List (Event α)) :
    s.traced.returnWrite X (w, (l, evs)) =
      some ((s.commandLogger.Write X l).1,
        (w, ((s.commandLogger.Write X l).2, evs ++ [Event.write X]))) := rfl

/-- The outcomes of one call on the recording log. -/
theorem traced_ProcessCommand_cases (s : SEC W L α) (c : Command α) (w : W) (l : L)
    (evs : List (Event α)) :
    s.traced.ProcessCommand c (w, (l, evs)) = none ∨
    (∃ e, s.traced.ProcessCommand c (w, (l, evs)) = some (some e, (w, (l, evs)))) ∨
    s.traced.ProcessCommand c (w, (l, evs)) = some (none, (w, (l, evs))) ∨
    (∃ X w', s.traced.ProcessCommand c (w, (l, evs)) =
        some ((s.commandLogger.Write X l).1,
          (w', ((s.commandLogger.Write X l).2, evs ++ [Event.write X]))) ∧
      X.SagaID = c.SagaID ∧ X.SagaName = c.SagaName) := by
  rcases ProcessCommand_cases s.traced c (w, (l, evs)) with h | h | h | ⟨X, w', h, h1, h2⟩
  · exact Or.inl h
  · exact Or.inr (Or.inl h)
  · exact Or.inr (Or.inr (Or.inl h))
  · exact Or.inr (Or.inr (Or.inr ⟨X, w', h, h1, h2⟩))

end writes

section writeCount

variable {L : Type}

theorem executeTransaction_ne_none (sg : Saga W α) (x : String) (p : Option α) (w : W)
    (ht : ∀ t, sg.transactions.get? x = some t → t.Func ≠ none)
    (hc : ∀ c, sg.compensations.get? x = some c → c.Func ≠ none) :
    sg.ExecuteTransaction x p w ≠ none := by
  unfold Saga.ExecuteTransaction
  cases h1 : sg.transactions.get? x with
  | some t =>
    cases hf : t.Func with
    | none => exact absurd hf (ht t h1)
    | some f => simp [hf]
  | none =>
    cases h2 : sg.compensations.get? x with
    | some c =>
      cases hf : c.Func with
      | none => exact absurd hf (hc c h2)
      | some f => simp [hf]
    | none => simp

/-- A step whose function is nil cannot be executed: the call panics. -/
theorem executeTransaction_eq_none (sg : Saga W α) (x : String) (p : Option α) (w : W)
    (h : (∃ t, sg.transactions.get? x = some t ∧ t.Func = none) ∨
      (sg.transactions.get? x = none ∧
        ∃ c, sg.compensations.get? x = some c ∧ c.Func = none)) :
    sg.ExecuteTransaction x p w = none := by
  unfold Saga.ExecuteTransaction
  rcases h with ⟨t, ht, hf⟩ | ⟨ht, c, hc, hf⟩
  · rw [ht]; simp [hf]
  · rw [ht]; simp [hc, hf]

/-- C15, counterexample.  For the saga `New("S").Begin("A", nil).NoCompensation().End()`,
registered under `S`, the command `BeginTransaction[A]` is of one of the five kinds
with a follow-up, yet `ProcessCommand` performs no `Write` and returns nothing:
`ExecuteTransaction` calls the nil `Func` of `A`, which panics before the `Write` of
the follow-up is reached. -/
theorem nil_step_function_panics_before_any_write :
    (secOf sagaNilFunc).sagas.keys = ["S"] ∧
    BeginTransactionCommand ∈ writingKinds ∧
    (BeginTransaction "S" "id" "A" (some 7)).Name = BeginTransactionCommand ∧
    (secOf sagaNilFunc).ProcessCommand (BeginTransaction "S" "id" "A" (some 7)) ((), []) = none ∧
    (secOf sagaNilFunc).traced.ProcessCommand (BeginTransaction "S" "id" "A" (some 7))
      ((), ([], [])) = none ∧
    eventsOf ((secOf sagaNilFunc).traced.ProcessCommand (BeginTransaction "S" "id" "A" (some 7))
      ((), ([], []))) = [] :=
  ⟨by decide, by decide, rfl, rfl, rfl, rfl⟩

/-- C15, amended: for every coordinator, command `c` and state, one call of
`ProcessCommand` performs at most one `Write` and no other call on the log; exactly
one, whose result it returns, when `c.SagaName` is registered and `c.Name` is
`BeginSaga`, `AbortTransaction`, `AbortSaga` or `EndTransaction`, or is
`BeginTransaction` and the function of the step `c.TransactionID` is not nil; none,
returning nil, when `c.Name` is `EndSaga`; none, returning a non-nil error, when
`c.SagaName` is not registered or `c.Name` is not one of the six kinds; and none,
returning nothing (a panic), when `c.Name` is `BeginTransaction` and the function of
the step `c.TransactionID` is nil. -/
theorem one_write_per_call (s : SEC W L α) (c : Command α) (w : W) (l : L) :
    (eventsOf (s.traced.ProcessCommand c (w, (l, []))) = [] ∨
      ∃ X, eventsOf (s.traced.ProcessCommand c (w, (l, []))) = [Event.write X]) ∧
    (∀ sg, s.sagas.get? c.SagaName = some sg → c.Name ∈ writingKinds →
      (c.Name = BeginTransactionCommand →
        (∀ t, sg.transactions.get? c.TransactionID = some t → t.Func ≠ none) ∧
        (∀ cp, sg.compensations.get? c.TransactionID = some cp → cp.Func ≠ none)) →
      ∃ X w', s.traced.ProcessCommand c (w, (l, [])) =
        some ((s.commandLogger.Write X l).1,
          (w', ((s.commandLogger.Write X l).2, [Event.write X])))) ∧
    (∀ sg, s.sagas.get? c.SagaName = some sg → c.Name = EndSagaCommand →
      s.traced.ProcessCommand c (w, (l, [])) = some (none, (w, (l, [])))) ∧
    ((s.sagas.get? c.SagaName = none ∨ c.Name ∉ commandKinds) →
      ∃ e, s.traced.ProcessCommand c (w, (l, [])) = some (some e, (w, (l, [])))) ∧
    (∀ sg, s.sagas.get? c.SagaName = some sg → c.Name = BeginTransactionCommand →
      ((∃ t, sg.transactions.get? c.TransactionID = some t ∧ t.Func = none) ∨
        (sg.transactions.get? c.TransactionID = none ∧
          ∃ cp, sg.compensations.get? c.TransactionID = some cp ∧ cp.Func = none)) →
      s.traced.ProcessCommand c (w, (l, [])) = none ∧
        s.ProcessCommand c (w, l) = none) := by
  refine ⟨?_, ?_, ?_, ?_, ?_⟩
  · rcases traced_ProcessCommand_cases s c w l [] with h | ⟨e, h⟩ | h | ⟨X, w', h, -, -⟩
    · rw [h]; exact Or.inl rfl
    · rw [h]; exact Or.inl rfl
    · rw [h]; exact Or.inl rfl
    · rw [h]; exact Or.inr ⟨X, rfl⟩
  · intro sg hreg hk hnil
    simp only [writingKinds, List.mem_cons, List.mem_singleton, List.not_mem_nil,
      or_false] at hk
    rcases hk with h | h | h | h | h
    · exact ⟨_, w, ProcessCommand_beginSaga s.traced c sg hreg h (w, (l, []))⟩
    · obtain ⟨ht, hc⟩ := hnil h
      cases hex : sg.ExecuteTransaction c.TransactionID c.SagaParams w with
      | none => exact absurd hex (executeTransaction_ne_none sg _ _ w ht hc)
      | some r =>
        exact ⟨_, r.2, ProcessCommand_beginTransaction s.traced c sg hreg h (w, (l, [])) r.1 r.2
          hex⟩
    · exact ⟨_, w, ProcessCommand_abortTransaction s.traced c sg hreg h (w, (l, []))⟩
    · exact ⟨_, w, ProcessCommand_abortSaga s.traced c sg hreg h (w, (l, []))⟩
    · exact ⟨_, w, ProcessCommand_endTransaction s.traced c sg hreg h (w, (l, []))⟩
  · intro sg hreg hk
    exact ProcessCommand_endSaga s.traced c sg hreg hk (w, (l, []))
  · intro h
    cases hreg : s.sagas.get? c.SagaName with
    | none => exact ⟨_, ProcessCommand_unregistered s.traced c hreg (w, (l, []))⟩
    | some sg =>
      rcases h with h | h
      · rw [hreg] at h; cases h
      · exact ⟨_, ProcessCommand_unknownKind s.traced c sg hreg h (w, (l, []))⟩
  · intro sg hreg hk hnil
    exact ⟨ProcessCommand_beginTransaction_nilFunc s.traced c sg hreg hk (w, (l, []))
        (executeTransaction_eq_none sg _ _ w hnil),
      ProcessCommand_beginTransaction_nilFunc s c sg hreg hk (w, l)
        (executeTransaction_eq_none sg _ _ w hnil)⟩

/-- C15 at the saga `A -> B`: `BeginSaga` gives one write, `EndSaga` none and nil, a
command of kind `7` and a command for an unregistered saga none and an error;
`BeginTransaction[A]` gives one write, `EndTransaction[A]` when the body returns nil
and `AbortSaga[A]` when it returns the sentinel; with a nil function it gives no
result. -/
theorem one_write_per_call_witness :
    (secOf (buildLinear "S" chainOk)).traced.ProcessCommand (BeginSaga "S" "id" (some 7))
        ((), ([], [])) =
      some (none, ((), ([BeginTransaction "S" "id" "A" (some 7)],
        [Event.write (BeginTransaction "S" "id" "A" (some 7))]))) ∧
    (∃ X w', (secOf (buildLinear "S" chainOk)).traced.ProcessCommand
        (BeginSaga "S" "id" (some 7)) ((), ([], [])) =
      some (((secOf (buildLinear "S" chainOk)).commandLogger.Write X []).1,
        (w', (((secOf (buildLinear "S" chainOk)).commandLogger.Write X []).2,
          [Event.write X])))) ∧
    (secOf (buildLinear "S" chainOk)).traced.ProcessCommand (EndSaga "S" "id")
        ((), ([], [])) = some (none, ((), ([], []))) ∧
    (∃ e, (secOf (buildLinear "S" chainOk)).traced.ProcessCommand
        { Name := 7, SagaName := "S" } ((), ([], [])) = some (some e, ((), ([], [])))) ∧
    (∃ e, (secOf (buildLinear "S" chainOk)).traced.ProcessCommand
        (BeginSaga "T" "id" (some 7)) ((), ([], [])) = some (some e, ((), ([], [])))) ∧
    (secOf (buildLinear "S" chainOk)).traced.ProcessCommand
        (BeginTransaction "S" "id" "A" (some 7)) ((), ([], [])) =
      some (none, ((), ([EndTransaction "S" "id" "A" (some 7)],
        [Event.write (EndTransaction "S" "id" "A" (some 7))]))) ∧
    (∃ X w', (secOf (buildLinear "S" chainOk)).traced.ProcessCommand
        (BeginTransaction "S" "id" "A" (some 7)) ((), ([], [])) =
      some (((secOf (buildLinear "S" chainOk)).commandLogger.Write X []).1,
        (w', (((secOf (buildLinear "S" chainOk)).commandLogger.Write X []).2,
          [Event.write X])))) ∧
    (secOf (buildLinear "S" chainAbortFirst)).traced.ProcessCommand
        (BeginTransaction "S" "id" "A" (some 7)) ((), ([], [])) =
      some (none, ((), ([AbortSaga "S" "id" "A"],
        [Event.write (AbortSaga "S" "id" "A")]))) ∧
    ((secOf sagaNilFunc).traced.ProcessCommand (BeginTransaction "S" "id" "A" (some 7))
        ((), ([], [])) = none ∧
      (secOf sagaNilFunc).ProcessCommand (BeginTransaction "S" "id" "A" (some 7)) ((), []) =
        none) :=
  ⟨by decide,
    (one_write_per_call (secOf (buildLinear "S" chainOk))
      (BeginSaga "S" "id" (some 7)) () []).2.1 (buildLinear "S" chainOk) rfl (by decide)
      (fun h => absurd h (by decide)),
    (one_write_per_call (secOf (buildLinear "S" chainOk)) (EndSaga "S" "id") () []).2.2.1
      (buildLinear "S" chainOk) rfl rfl,
    (one_write_per_call (secOf (buildLinear "S" chainOk)) { Name := 7, SagaName := "S" }
      () []).2.2.2.1 (Or.inr (by decide)),
    (one_write_per_call (secOf (buildLinear "S" chainOk)) (BeginSaga "T" "id" (some 7))
      () []).2.2.2.1 (Or.inl rfl),
    by decide,
    (one_write_per_call (secOf (buildLinear "S" chainOk))
      (BeginTransaction "S" "id" "A" (some 7)) () []).2.1 (buildLinear "S" chainOk) rfl
      (by decide)
      (fun _ => ⟨fun t ht => by cases ht; exact Option.some_ne_none _,
        fun cp hc => by cases hc⟩),
    by decide,
    (one_write_per_call (secOf sagaNilFunc) (BeginTransaction "S" "id" "A" (some 7))
      () []).2.2.2.2 sagaNilFunc rfl rfl (Or.inl ⟨_, rfl, rfl⟩)⟩

theorem run_succ_panic (s : SEC W L α) (fuel : Nat) (c : Command α) (w : W)
    (h : s.inMemory.ProcessCommand c (w, []) = none) :
    run s (fuel + 1) c w = [c] := by
  rw [run, h]

/-- Every command of a run has the saga ID and the saga name of the first one. -/
theorem run_keeps_saga (s : SEC W L α) (fuel : Nat) :
    ∀ (c : Command α) (w : W), ∀ c' ∈ run s fuel c w,
      c'.SagaID = c.SagaID ∧ c'.SagaName = c.SagaName := by
  induction fuel with
  | zero => intro c w c' h; cases h
  | succ fuel ih =>
    intro c w c' h
    rcases ProcessCommand_cases s.inMemory c (w, []) with h1 | ⟨e, h1⟩ | h1 | ⟨X, w', h1, h2, h3⟩
    · rw [run_succ_panic s fuel c w h1] at h
      rw [List.mem_singleton.1 h]
      exact ⟨rfl, rfl⟩
    · rw [run_succ_stop s fuel c w w (some e) h1] at h
      rw [List.mem_singleton.1 h]
      exact ⟨rfl, rfl⟩
    · rw [run_succ_stop s fuel c w w none h1] at h
      rw [List.mem_singleton.1 h]
      exact ⟨rfl, rfl⟩
    · rw [inMemory_returnWrite] at h1
      rw [run_succ_write s fuel c X w w' none h1] at h
      rcases List.mem_cons.1 h with h | h
      · rw [h]; exact ⟨rfl, rfl⟩
      · obtain ⟨h4, h5⟩ := ih X w' c' h
        exact ⟨h4.trans h2, h5.trans h3⟩

/-- C16: every follow-up command that `ProcessCommand` writes for an input command
`c`, for every command kind and every outcome of the body, carries the saga ID and
the saga name of `c`, hence the same Kafka message key; and every command of a run,
the chain of follow-ups derived from one command, shares its saga ID and saga
name. -/
theorem follow_up_keeps_saga (s : SEC W L α) (c : Command α) (w : W) (l : L) :
    (∀ X, Event.write X ∈ eventsOf (s.traced.ProcessCommand c (w, (l, []))) →
      X.SagaID = c.SagaID ∧ X.SagaName = c.SagaName ∧
        cmdlog.KafkaCommandLog.messageKey X = cmdlog.KafkaCommandLog.messageKey c) ∧
    (∀ fuel, ∀ c' ∈ run s fuel c w,
      c'.SagaID = c.SagaID ∧ c'.SagaName = c.SagaName ∧
        cmdlog.KafkaCommandLog.messageKey c' = cmdlog.KafkaCommandLog.messageKey c) := by
  refine ⟨?_, ?_⟩
  · intro X hX
    rcases traced_ProcessCommand_cases s c w l [] with h | ⟨e, h⟩ | h | ⟨Y, w', h, h1, h2⟩
    · rw [h] at hX; cases hX
    · rw [h] at hX; cases hX
    · rw [h] at hX; cases hX
    · rw [h] at hX
      have hXY : X = Y := by
        have := List.mem_singleton.1 hX
        exact Event.write.inj this
      rw [hXY]
      exact ⟨h1, h2, h1⟩
  · intro fuel c' hc'
    obtain ⟨h1, h2⟩ := run_keeps_saga s fuel c w c' hc'
    exact ⟨h1, h2, h1⟩

/-- C16 at scenario 1: the follow-up of `BeginTransaction[C]`, whose body aborts,
and every command of the whole run carry the saga ID `id`. -/
theorem follow_up_keeps_saga_witness :
    Event.write (AbortSaga "S" "id" "C") ∈
      eventsOf ((secOf (buildLinear "S" chainABC)).traced.ProcessCommand
        (BeginTransaction "S" "id" "C" (some 7)) ((), ([], []))) ∧
    (AbortSaga "S" "id" "C" : Command Nat).SagaID = "id" ∧
    (∀ c' ∈ run (secOf (buildLinear "S" chainABC)) 15 (BeginSaga "S" "id" (some 7)) (),
      c'.SagaID = "id") ∧
    (run (secOf (buildLinear "S" chainABC)) 15 (BeginSaga "S" "id" (some 7)) ()).length = 15 :=
  ⟨by decide,
    ((follow_up_keeps_saga (secOf (buildLinear "S" chainABC))
      (BeginTransaction "S" "id" "C" (some 7)) () []).1 (AbortSaga "S" "id" "C")
      (by decide)).1,
    fun c' hc' => ((follow_up_keeps_saga (secOf (buildLinear "S" chainABC))
      (BeginSaga "S" "id" (some 7)) () []).2 15 c' hc').1,
    by decide⟩

end writeCount

/-! ### One iteration of the `Start` loop -/

section startLoop

variable {L : Type}

/-- The calls of one iteration on the recording log, case by case: a failed read; a
panic; a failed `ProcessCommand`; a successful one followed by the commit.  `ws`
holds the writes of `ProcessCommand`: none, or one whose result it returned. -/
theorem traced_startIteration_shape (s : SEC W L α) (w : W) (l : L) :
    (∃ e, (s.commandLogger.Read l).1.2 = some e ∧
      iterationEvents (s.traced.startIteration (w, (l, []))) =
        [Event.read, Event.log (readFailed e)]) ∨
    ((s.commandLogger.Read l).1.2 = none ∧
      s.traced.ProcessCommand (s.commandLogger.Read l).1.1
        (w, ((s.commandLogger.Read l).2, [Event.read])) = none ∧
      s.traced.startIteration (w, (l, [])) = none) ∨
    ((s.commandLogger.Read l).1.2 = none ∧ ∃ e st' ws,
      s.traced.ProcessCommand (s.commandLogger.Read l).1.1
        (w, ((s.commandLogger.Read l).2, [Event.read])) = some (some e, st') ∧
      (ws = [] ∨ ∃ X, ws = [Event.write X] ∧
        (s.commandLogger.Write X (s.commandLogger.Read l).2).1 = some e) ∧
      iterationEvents (s.traced.startIteration (w, (l, []))) =
        Event.read :: (ws ++ [Event.log (processFailed e)])) ∨
    ((s.commandLogger.Read l).1.2 = none ∧ ∃ st' ws tl,
      s.traced.ProcessCommand (s.commandLogger.Read l).1.1
        (w, ((s.commandLogger.Read l).2, [Event.read])) = some (none, st') ∧
      (ws = [] ∨ ∃ X, ws = [Event.write X] ∧
        (s.commandLogger.Write X (s.commandLogger.Read l).2).1 = none) ∧
      (((s.commandLogger.Commit (s.commandLogger.Read l).1.1 st'.2.1).1 = none ∧ tl = []) ∨
        ∃ e, (s.commandLogger.Commit (s.commandLogger.Read l).1.1 st'.2.1).1 = some e ∧
          tl = [Event.log (commitFailed e)]) ∧
      iterationEvents (s.traced.startIteration (w, (l, []))) =
        Event.read :: (ws ++ Event.commit (s.commandLogger.Read l).1.1 :: tl)) := by
  have hrd : s.traced.commandLogger.Read (l, []) =
      ((s.commandLogger.Read l).1, ((s.commandLogger.Read l).2, [Event.read])) := rfl
  unfold SEC.startIteration
  simp only [hrd]
  rcases hR : s.commandLogger.Read l with ⟨⟨rc, re⟩, l1⟩
  cases re with
  | some e => exact Or.inl ⟨e, rfl, rfl⟩
  | none =>
    refine Or.inr ?_
    simp only
    rcases traced_ProcessCommand_cases s rc w l1 [Event.read] with
      h | ⟨e, h⟩ | h | ⟨X, w', h, -, -⟩
    · exact Or.inl ⟨trivial, h, by rw [h]⟩
    · exact Or.inr (Or.inl ⟨trivial, e, _, [], h, Or.inl rfl, by rw [h]; rfl⟩)
    · refine Or.inr (Or.inr ⟨trivial, _, [], ?_, h, Or.inl rfl, ?_⟩)
      · exact match (s.commandLogger.Commit rc l1).1 with
          | none => []
          | some e => [Event.log (commitFailed e)]
      · rw [h]
        cases hc : (s.commandLogger.Commit rc l1).1 with
        | none =>
          refine ⟨Or.inl ⟨rfl, rfl⟩, ?_⟩
          simp only [CommandLogger.traced, SEC.traced, hc]
          rfl
        | some e =>
          refine ⟨Or.inr ⟨e, rfl, rfl⟩, ?_⟩
          simp only [CommandLogger.traced, SEC.traced, hc]
          rfl
    · cases hw : (s.commandLogger.Write X l1).1 with
      | some e =>
        rw [hw] at h
        exact Or.inr (Or.inl ⟨trivial, e, _, [Event.write X], h, Or.inr ⟨X, rfl, hw⟩,
          by rw [h]; rfl⟩)
      | none =>
        rw [hw] at h
        refine Or.inr (Or.inr ⟨trivial, _, [Event.write X], ?_, h, Or.inr ⟨X, rfl, hw⟩, ?_⟩)
        · exact match (s.commandLogger.Commit rc (s.commandLogger.Write X l1).2).1 with
            | none => []
            | some e => [Event.log (commitFailed e)]
        · rw [h]
          cases hc : (s.commandLogger.Commit rc (s.commandLogger.Write X l1).2).1 with
          | none =>
            refine ⟨Or.inl ⟨rfl, rfl⟩, ?_⟩
            simp only [CommandLogger.traced, SEC.traced, hc]
            rfl
          | some e =>
            refine ⟨Or.inr ⟨e, rfl, rfl⟩, ?_⟩
            simp only [CommandLogger.traced, SEC.traced, hc]
            rfl

/-- `Start` over the first `k` selects, none of which finds `ctx.Done()` ready: it
panics when one of the `k` iterations panics, and otherwise goes on from the state
after them. -/
theorem Start_iterations (s : SEC W L α) (done : Nat → Bool) (k fuel i : Nat) (st : W × L)
    (hd : ∀ j, j < k → done (i + j) = false) :
    (s.iterations k st = none → s.Start done (k + fuel) i st = Loop.panicked) ∧
    (∀ st', s.iterations k st = some st' →
      s.Start done (k + fuel) i st = s.Start done fuel (i + k) st') := by
  induction k generalizing i st with
  | zero =>
    refine ⟨fun h => ?_, fun st' h => ?_⟩
    · cases h
    · rw [SEC.iterations] at h
      cases h
      rw [Nat.zero_add, Nat.add_zero]
  | succ k ih =>
    have h0 : done i = false := hd 0 (Nat.succ_pos k)
    have hd' : ∀ j, j < k → done (i + 1 + j) = false := by
      intro j hj
      rw [Nat.add_assoc, Nat.add_comm 1 j]
      exact hd (j + 1) (Nat.succ_lt_succ hj)
    rw [show k + 1 + fuel = (k + fuel) + 1 by omega, SEC.Start, SEC.iterations, h0]
    cases hit : s.startIteration st with
    | none =>
      refine ⟨fun _ => by simp, fun st' h => by cases h⟩
    | some st1 =>
      simp only [Bool.false_eq_true, if_false]
      obtain ⟨ih1, ih2⟩ := ih (i + 1) st1 hd'
      refine ⟨ih1, fun st' h => ?_⟩
      rw [ih2 st' h, show i + 1 + k = i + (k + 1) by omega]

/-- C11: in every iteration of the `Start` loop, with `c` the command just read:
`Commit` is called on `c` if and only if `Read` returned no error and
`ProcessCommand` returned no error, and on no other command; `ProcessCommand`
returns the result of its `Write` unchanged, so no `Commit` follows a failed
`Write`; a `Write` of the iteration comes before its `Commit`; an error of `Read`,
of `ProcessCommand` or of `Commit` is passed to the error logger; the iteration
ends without a result only when `ProcessCommand` panics.  The loop of `Start`:
observed for no iteration it is still running; when `ctx.Done()` is ready it returns
without reading; otherwise it runs the iteration, panics when the iteration panics,
and goes on to the next `select` from the state the iteration left, whatever failed
in it; over `k` selects that do not find `ctx.Done()` ready it runs `k` iterations;
on the recording log, an iteration in which `ProcessCommand` did not panic is
followed by the next `select`. -/
theorem start_iteration_commit (s : SEC W L α) (w : W) (l : L) :
    (Event.commit (s.commandLogger.Read l).1.1 ∈
        iterationEvents (s.traced.startIteration (w, (l, []))) ↔
      (s.commandLogger.Read l).1.2 = none ∧
        ∃ st', s.traced.ProcessCommand (s.commandLogger.Read l).1.1
          (w, ((s.commandLogger.Read l).2, [Event.read])) = some (none, st')) ∧
    (∀ c, Event.commit c ∈ iterationEvents (s.traced.startIteration (w, (l, []))) →
      c = (s.commandLogger.Read l).1.1) ∧
    (∀ X r, s.traced.ProcessCommand (s.commandLogger.Read l).1.1
        (w, ((s.commandLogger.Read l).2, [Event.read])) = some r →
      Event.write X ∈ r.2.2.2 →
      r.1 = (s.commandLogger.Write X (s.commandLogger.Read l).2).1) ∧
    (∀ X e, Event.write X ∈ iterationEvents (s.traced.startIteration (w, (l, []))) →
      (s.commandLogger.Write X (s.commandLogger.Read l).2).1 = some e →
      ∀ c, Event.commit c ∉ iterationEvents (s.traced.startIteration (w, (l, [])))) ∧
    (∀ X c, Event.write X ∈ iterationEvents (s.traced.startIteration (w, (l, []))) →
      Event.commit c ∈ iterationEvents (s.traced.startIteration (w, (l, []))) →
      List.Sublist [Event.write X, Event.commit c]
        (iterationEvents (s.traced.startIteration (w, (l, []))))) ∧
    (∀ e, (s.commandLogger.Read l).1.2 = some e →
      Event.log (readFailed e) ∈
        iterationEvents (s.traced.startIteration (w, (l, [])))) ∧
    (∀ e st', s.traced.ProcessCommand (s.commandLogger.Read l).1.1
        (w, ((s.commandLogger.Read l).2, [Event.read])) = some (some e, st') →
      (s.commandLogger.Read l).1.2 = none →
      Event.log (processFailed e) ∈
        iterationEvents (s.traced.startIteration (w, (l, [])))) ∧
    (∀ e st', s.traced.ProcessCommand (s.commandLogger.Read l).1.1
        (w, ((s.commandLogger.Read l).2, [Event.read])) = some (none, st') →
      (s.commandLogger.Read l).1.2 = none →
      (s.commandLogger.Commit (s.commandLogger.Read l).1.1 st'.2.1).1 = some e →
      Event.log (commitFailed e) ∈
        iterationEvents (s.traced.startIteration (w, (l, [])))) ∧
    (s.traced.startIteration (w, (l, [])) = none ↔
      (s.commandLogger.Read l).1.2 = none ∧
        s.traced.ProcessCommand (s.commandLogger.Read l).1.1
          (w, ((s.commandLogger.Read l).2, [Event.read])) = none) ∧
    (∀ (done : Nat → Bool) (i : Nat) (st : W × L), s.Start done 0 i st = Loop.running st) ∧
    (∀ (done : Nat → Bool) (fuel i : Nat) (st : W × L), done i = true →
      s.Start done (fuel + 1) i st = Loop.returned st) ∧
    (∀ (done : Nat → Bool) (fuel i : Nat) (st : W × L), done i = false →
      s.startIteration st = none → s.Start done (fuel + 1) i st = Loop.panicked) ∧
    (∀ (done : Nat → Bool) (fuel i : Nat) (st st' : W × L), done i = false →
      s.startIteration st = some st' →
      s.Start done (fuel + 1) i st = s.Start done fuel (i + 1) st') ∧
    (∀ (done : Nat → Bool) (k fuel i : Nat) (st : W × L),
      (∀ j, j < k → done (i + j) = false) →
      (s.iterations k st = none → s.Start done (k + fuel) i st = Loop.panicked) ∧
      (∀ st', s.iterations k st = some st' →
        s.Start done (k + fuel) i st = s.Start done fuel (i + k) st')) ∧
    (∀ (done : Nat → Bool) (fuel i : Nat), done i = false →
      ((s.commandLogger.Read l).1.2 = none ∧
        s.traced.ProcessCommand (s.commandLogger.Read l).1.1
          (w, ((s.commandLogger.Read l).2, [Event.read])) = none ∧
        s.traced.Start done (fuel + 1) i (w, (l, [])) = Loop.panicked) ∨
      (∃ st', s.traced.startIteration (w, (l, [])) = some st' ∧
        s.traced.Start done (fuel + 1) i (w, (l, [])) =
          s.traced.Start done fuel (i + 1) st')) := by
  have hsome : ∀ evs : List (Event α), evs ≠ [] →
      iterationEvents (s.traced.startIteration (w, (l, []))) = evs →
      s.traced.startIteration (w, (l, [])) ≠ none := by
    intro evs hne h h0
    rw [h0] at h
    exact hne h.symm
  have hpanic : s.traced.startIteration (w, (l, [])) = none ↔
      (s.commandLogger.Read l).1.2 = none ∧
        s.traced.ProcessCommand (s.commandLogger.Read l).1.1
          (w, ((s.commandLogger.Read l).2, [Event.read])) = none := by
    rcases traced_startIteration_shape s w l with ⟨e', h1, h2⟩ | ⟨h1, h2, h3⟩ |
      ⟨h1, e', st', ws, h2, h3, h4⟩ | ⟨h1, st', ws, tl, h2, h3, h4, h5⟩
    · constructor
      · intro h0; exact absurd h0 (hsome _ (by simp) h2)
      · rintro ⟨h, -⟩; rw [h1] at h; cases h
    · exact ⟨fun _ => ⟨h1, h2⟩, fun _ => h3⟩
    · constructor
      · intro h0; exact absurd h0 (hsome _ (by simp) h4)
      · rintro ⟨-, h⟩; rw [h2] at h; cases h
    · constructor
      · intro h0; exact absurd h0 (hsome _ (by simp) h5)
      · rintro ⟨-, h⟩; rw [h2] at h; cases h
  refine ⟨?_, ?_, ?_, ?_, ?_, ?_, ?_, ?_, hpanic, ?_, ?_, ?_, ?_, ?_, ?_⟩
  · rcases traced_startIteration_shape s w l with ⟨e, h1, h2⟩ | ⟨h1, h2, h3⟩ |
      ⟨h1, e, st', ws, h2, h3, h4⟩ | ⟨h1, st', ws, tl, h2, h3, h4, h5⟩
    · rw [h2, h1]; simp
    · rw [h3, h2]; simp [iterationEvents]
    · rw [h4, h2]
      rcases h3 with rfl | ⟨X, rfl, -⟩ <;> simp
    · rw [h5, h2]
      simp [h1]
  · intro c hc
    rcases traced_startIteration_shape s w l with ⟨e, h1, h2⟩ | ⟨h1, h2, h3⟩ |
      ⟨h1, e, st', ws, h2, h3, h4⟩ | ⟨h1, st', ws, tl, h2, h3, h4, h5⟩
    · rw [h2] at hc; simp at hc
    · rw [h3] at hc; simp [iterationEvents] at hc
    · rw [h4] at hc
      rcases h3 with rfl | ⟨X, rfl, -⟩ <;> simp at hc
    · rw [h5] at hc
      rcases h3 with rfl | ⟨X, rfl, -⟩ <;> rcases h4 with ⟨-, rfl⟩ | ⟨e, -, rfl⟩ <;>
        simp at hc <;> exact hc
  · intro X r hr hX
    rcases traced_ProcessCommand_cases s (s.commandLogger.Read l).1.1 w
      (s.commandLogger.Read l).2 [Event.read] with h | ⟨e, h⟩ | h | ⟨Y, w', h, -, -⟩
    · rw [h] at hr; cases hr
    · rw [h] at hr; cases hr; simp at hX
    · rw [h] at hr; cases hr; simp at hX
    · rw [h] at hr; cases hr
      simp at hX
      rw [hX]
  · intro X e hX hw c hc
    rcases traced_startIteration_shape s w l with ⟨e', h1, h2⟩ | ⟨h1, h2, h3⟩ |
      ⟨h1, e', st', ws, h2, h3, h4⟩ | ⟨h1, st', ws, tl, h2, h3, h4, h5⟩
    · rw [h2] at hc; simp at hc
    · rw [h3] at hc; simp [iterationEvents] at hc
    · rw [h4] at hc
      rcases h3 with rfl | ⟨Y, rfl, -⟩ <;> simp at hc
    · rw [h5] at hX
      rcases h3 with rfl | ⟨Y, rfl, hY⟩
      · rcases h4 with ⟨-, rfl⟩ | ⟨e', -, rfl⟩ <;> simp at hX
      · have hXY : X = Y := by
          rcases h4 with ⟨-, rfl⟩ | ⟨e', -, rfl⟩ <;> simp at hX <;> exact hX
        rw [hXY, hY] at hw
        cases hw
  · intro X c hX hc
    rcases traced_startIteration_shape s w l with ⟨e', h1, h2⟩ | ⟨h1, h2, h3⟩ |
      ⟨h1, e', st', ws, h2, h3, h4⟩ | ⟨h1, st', ws, tl, h2, h3, h4, h5⟩
    · rw [h2] at hc; simp at hc
    · rw [h3] at hc; simp [iterationEvents] at hc
    · rw [h4] at hc
      rcases h3 with rfl | ⟨Y, rfl, -⟩ <;> simp at hc
    · rw [h5] at hX hc ⊢
      rcases h3 with rfl | ⟨Y, rfl, hY⟩
      · rcases h4 with ⟨-, rfl⟩ | ⟨e', -, rfl⟩ <;> simp at hX
      · have hXY : X = Y := by
          rcases h4 with ⟨-, rfl⟩ | ⟨e', -, rfl⟩ <;> simp at hX <;> exact hX
        have hcc : c = (s.commandLogger.Read l).1.1 := by
          rcases h4 with ⟨-, rfl⟩ | ⟨e', -, rfl⟩ <;> simp at hc <;> exact hc
        rw [hXY, hcc]
        refine List.Sublist.cons _ ?_
        rw [List.singleton_append]
        refine List.Sublist.cons₂ _ (List.Sublist.cons₂ _ (List.nil_sublist _))
  · intro e he
    rcases traced_startIteration_shape s w l with ⟨e', h1, h2⟩ | ⟨h1, h2, h3⟩ |
      ⟨h1, e', st', ws, h2, h3, h4⟩ | ⟨h1, st', ws, tl, h2, h3, h4, h5⟩
    · rw [h1] at he
      cases he
      rw [h2]; simp
    · rw [h1] at he; cases he
    · rw [h1] at he; cases he
    · rw [h1] at he; cases he
  · intro e st' hpc hre
    rcases traced_startIteration_shape s w l with ⟨e', h1, h2⟩ | ⟨h1, h2, h3⟩ |
      ⟨h1, e', st'', ws, h2, h3, h4⟩ | ⟨h1, st'', ws, tl, h2, h3, h4, h5⟩
    · rw [h1] at hre; cases hre
    · rw [h2] at hpc; cases hpc
    · rw [h2] at hpc
      cases hpc
      rw [h4]; simp
    · rw [h2] at hpc; cases hpc
  · intro e st' hpc hre hcm
    rcases traced_startIteration_shape s w l with ⟨e', h1, h2⟩ | ⟨h1, h2, h3⟩ |
      ⟨h1, e', st'', ws, h2, h3, h4⟩ | ⟨h1, st'', ws, tl, h2, h3, h4, h5⟩
    · rw [h1] at hre; cases hre
    · rw [h2] at hpc; cases hpc
    · rw [h2] at hpc; cases hpc
    · rw [h2] at hpc
      cases hpc
      rw [h5]
      rcases h4 with ⟨h6, -⟩ | ⟨e', h6, rfl⟩
      · rw [h6] at hcm; cases hcm
      · rw [h6] at hcm
        cases hcm
        simp
  · intro done i st
    rw [SEC.Start]
  · intro done fuel i st hd
    rw [SEC.Start, hd]
    simp
  · intro done fuel i st hd hit
    rw [SEC.Start, hd, hit]
    simp
  · intro done fuel i st st' hd hit
    rw [SEC.Start, hd, hit]
    simp
  · intro done k fuel i st hd
    exact Start_iterations s done k fuel i st hd
  · intro done fuel i hd
    cases hit : s.traced.startIteration (w, (l, [])) with
    | none =>
      refine Or.inl ⟨(hpanic.1 hit).1, (hpanic.1 hit).2, ?_⟩
      rw [SEC.Start, hd, hit]
      simp
    | some st' =>
      refine Or.inr ⟨st', rfl, ?_⟩
      rw [SEC.Start, hd, hit]
      simp

end startLoop

section startLoopWitness

/-- C11 at the saga `A -> B` with `BeginSaga` waiting in the log: the iteration
reads, writes `BeginTransaction[A]`, then commits `BeginSaga`; over a log whose
`Write` fails it reads, attempts the write, logs the error and commits nothing.
`Start` over that failing log, with `ctx.Done()` ready at the third `select`: after
the failed iteration it reads again, logs the failed read of the empty log, and
returns at the third `select`.  `Start` for the saga without steps: it writes
`EndSaga` and commits `BeginSaga`, commits `EndSaga`, logs the failed read of the
empty log, and returns. -/
theorem start_iteration_commit_witness :
    iterationEvents ((secOf (buildLinear "S" chainOk)).traced.startIteration
        ((), ([BeginSaga "S" "id" (some 7)], []))) =
      [Event.read, Event.write (BeginTransaction "S" "id" "A" (some 7)),
       Event.commit (BeginSaga "S" "id" (some 7))] ∧
    Event.commit (BeginSaga "S" "id" (some 7)) ∈
      iterationEvents ((secOf (buildLinear "S" chainOk)).traced.startIteration
        ((), ([BeginSaga "S" "id" (some 7)], []))) ∧
    iterationEvents (secFailingWrite.traced.startIteration
        ((), ([BeginSaga "S" "id" (some 7)], []))) =
      [Event.read, Event.write (BeginTransaction "S" "id" "A" (some 7)),
       Event.log (GoError.wrap "process command  failed: failed command producing"
         (GoError.errorf "failed command producing"))] ∧
    (∀ c, Event.commit c ∉ iterationEvents (secFailingWrite.traced.startIteration
      ((), ([BeginSaga "S" "id" (some 7)], [])))) ∧
    secFailingWrite.traced.Start (fun i => decide (2 ≤ i)) (2 + 7) 0
        ((), ([BeginSaga "S" "id" (some 7)], [])) =
      secFailingWrite.traced.Start (fun i => decide (2 ≤ i)) 7 (0 + 2)
        ((), ([],
          [Event.read, Event.write (BeginTransaction "S" "id" "A" (some 7)),
           Event.log (GoError.wrap "process command  failed: failed command producing"
             (GoError.errorf "failed command producing")),
           Event.read,
           Event.log (GoError.wrap "command read failed: no command"
             (GoError.errorf "no command"))])) ∧
    secFailingWrite.traced.Start (fun i => decide (2 ≤ i)) 9 0
        ((), ([BeginSaga "S" "id" (some 7)], [])) =
      Loop.returned ((), ([],
        [Event.read, Event.write (BeginTransaction "S" "id" "A" (some 7)),
         Event.log (GoError.wrap "process command  failed: failed command producing"
           (GoError.errorf "failed command producing")),
         Event.read,
         Event.log (GoError.wrap "command read failed: no command"
           (GoError.errorf "no command"))])) ∧
    (secOf (buildLinear "S" ([] : List (Step Unit Nat)))).traced.Start
        (fun i => decide (3 ≤ i)) 9 0 ((), ([BeginSaga "S" "id" (some 7)], [])) =
      Loop.returned ((), ([],
        [Event.read, Event.write (EndSaga "S" "id"),
         Event.commit (BeginSaga "S" "id" (some 7)),
         Event.read, Event.commit (EndSaga "S" "id"),
         Event.read,
         Event.log (GoError.wrap "command read failed: no command"
           (GoError.errorf "no command"))])) ∧
    secFailingWrite.traced.Start (fun _ => false) 0 0
        ((), ([BeginSaga "S" "id" (some 7)], [])) =
      Loop.running ((), ([BeginSaga "S" "id" (some 7)], [])) ∧
    secFailingWrite.traced.Start (fun _ => true) 1 0
        ((), ([BeginSaga "S" "id" (some 7)], [])) =
      Loop.returned ((), ([BeginSaga "S" "id" (some 7)], [])) ∧
    (secOf sagaNilFunc).traced.Start (fun _ => false) 9 0
        ((), ([BeginTransaction "S" "id" "A" (some 7)], [])) = Loop.panicked :=
  ⟨by decide,
    (start_iteration_commit (secOf (buildLinear "S" chainOk)) ()
      [BeginSaga "S" "id" (some 7)]).1.2
      ⟨rfl, ((), ([BeginTransaction "S" "id" "A" (some 7)],
        [Event.read, Event.write (BeginTransaction "S" "id" "A" (some 7))])), by decide⟩,
    by decide,
    (start_iteration_commit secFailingWrite () [BeginSaga "S" "id" (some 7)]).2.2.2.1
      (BeginTransaction "S" "id" "A" (some 7)) (GoError.errorf "failed command producing")
      (by decide) rfl,
    ((start_iteration_commit secFailingWrite.traced ()
      ([BeginSaga "S" "id" (some 7)], [])).2.2.2.2.2.2.2.2.2.2.2.2.2.1
      (fun i => decide (2 ≤ i)) 2 7 0 ((), ([BeginSaga "S" "id" (some 7)], []))
      (by decide)).2 _ (by decide),
    by decide,
    by decide,
    (start_iteration_commit secFailingWrite.traced ()
      ([BeginSaga "S" "id" (some 7)], [])).2.2.2.2.2.2.2.2.2.1 (fun _ => false) 0 _,
    (start_iteration_commit secFailingWrite.traced ()
      ([BeginSaga "S" "id" (some 7)], [])).2.2.2.2.2.2.2.2.2.2.1 (fun _ => true) 0 0 _ rfl,
    (start_iteration_commit (secOf sagaNilFunc).traced ()
      ([BeginTransaction "S" "id" "A" (some 7)], [])).2.2.2.2.2.2.2.2.2.2.2.1 (fun _ => false)
      8 0 _ rfl rfl⟩

end startLoopWitness

/-! ### Branching from a builder value; `Begin` on a builder with steps -/

section builderUse

variable {L : Type}

/-- C17, evaluated on the code with Go's slices, for every growth policy of
`append`: with `b = New("s").Begin("A", f).NoCompensation()`, the saga `b.End()` has
`Next("A") = ""`, but after evaluating `b.Then("B", g).NoCompensation()` the saga
`b.End()` has `Next("A") = "B"`: `Then` assigns `NextTransactionName` through the
backing array that `b` shares with its copy.  And with `b` holding `A -> B -> C` in
three cells of a capacity of four, the branch `b.Then("X", f).NoCompensation()`
yields the chain `A, B, C, X` until the second branch
`b.Then("Y", f).NoCompensation()` is evaluated, after which the saga of the first
branch is the chain `A, B, C, Y`. -/
theorem branching_shares_backing_arrays (grow : Nat → Nat) :
    ((branchBase grow).1.End (branchBase grow).2).Next "A" = "" ∧
    ((branchBase grow).1.End (branchThenB grow).2).Next "A" = "B" ∧
    (branchX.1.End branchX.2).walkNext 9 "A" = ["A", "B", "C", "X"] ∧
    (branchX.1.End branchY.2).walkNext 9 "A" = ["A", "B", "C", "Y"] := by
  refine ⟨?_, ?_, by decide, by decide⟩
  · simp [branchBase, shared.TransactionBuilder.NoCompensation, shared.Mem.append, shared.New,
      shared.Builder.Begin, shared.Heap.empty, shared.Builder.End, shared.Builder.read,
      shared.Mem.view, Builder.End, Saga.Next, GoMap.get?, GoMap.insert, GoMap.empty]
  · by_cases h : 1 < max 1 (grow 0)
    · simp [branchThenB, branchBase, shared.TransactionBuilder.NoCompensation,
        shared.Mem.append, shared.New, shared.Builder.Begin, shared.Builder.Then,
        shared.Heap.empty, shared.Builder.End, shared.Builder.read, shared.Mem.view,
        shared.Mem.modifyAt, shared.updateAt, Builder.End, Saga.Next, GoMap.get?,
        GoMap.insert, GoMap.empty, h]
    · simp [branchThenB, branchBase, shared.TransactionBuilder.NoCompensation,
        shared.Mem.append, shared.New, shared.Builder.Begin, shared.Builder.Then,
        shared.Heap.empty, shared.Builder.End, shared.Builder.read, shared.Mem.view,
        shared.Mem.modifyAt, shared.updateAt, Builder.End, Saga.Next, GoMap.get?,
        GoMap.insert, GoMap.empty, h]

/-- C18 as stated fails: `Begin("B", f)` on the builder that already holds `A`,
finalised and ended, yields a saga; the run from `BeginSaga` is `BeginSaga`,
`BeginTransaction[A]`, `EndTransaction[A]`, `EndSaga`, every one of those commands
is processed with a nil result, and `B`, though stored in the saga, is never
begun. -/
theorem begin_on_builder_with_steps_signals_nothing :
    run (secOf sagaBeginTwice) 9 (BeginSaga "S" "id" (some 7)) () =
      [BeginSaga "S" "id" (some 7), BeginTransaction "S" "id" "A" (some 7),
       EndTransaction "S" "id" "A" (some 7), EndSaga "S" "id"] ∧
    (∀ c ∈ run (secOf sagaBeginTwice) 9 (BeginSaga "S" "id" (some 7)) (),
      ((secOf sagaBeginTwice).ProcessCommand c ((), [])).map Prod.fst = some none) ∧
    sagaBeginTwice.FirstTransaction = "A" ∧ sagaBeginTwice.Next "A" = "" ∧
    (sagaBeginTwice.transactions.get? "B").isSome = true := by
  decide

theorem End_of_cons (b : Builder W α) (t0 : Transaction W α) (ts : List (Transaction W α))
    (h : b.transactions = t0 :: ts) :
    b.End =
      { name := b.sagaName
        firstTransaction := t0.Name
        transactions := (t0 :: ts).foldl (fun m t => m.insert t.Name t) GoMap.empty
        compensations :=
          b.compensations.foldl (fun m c => if c.Name = "" then m else m.insert c.Name c)
            GoMap.empty } := by
  unfold Builder.End
  rw [h]

theorem finalise_begin_transactions (b : Builder W α) (e : Step W α) :
    (e.finalise (b.Begin e.name e.func)).transactions = b.transactions ++ [e.transaction ""] := by
  rcases e with ⟨en, ef, esp, ec⟩
  cases esp <;> rcases ec with _ | ⟨c, f⟩ <;> rfl

theorem finalise_begin_compensations (b : Builder W α) (e : Step W α) :
    (e.finalise (b.Begin e.name e.func)).compensations =
      b.compensations ++ [e.compensationRecord ""] := by
  rcases e with ⟨en, ef, esp, ec⟩
  cases esp <;> rcases ec with _ | ⟨c, f⟩ <;> rfl

theorem func_of_mem_transactionsOf (ds : List (Step W α)) (t : Transaction W α)
    (h : t ∈ transactionsOf ds) : t.Func ≠ none := by
  induction ds with
  | nil => cases h
  | cons d ds ih =>
    rw [transactionsOf_cons] at h
    rcases List.mem_cons.1 h with h | h
    · rw [h]; simp [Step.transaction]
    · exact ih h

theorem func_of_compensationRecord (d : Step W α) (prev : String)
    (h : (d.compensationRecord prev).Name ≠ "") : (d.compensationRecord prev).Func ≠ none := by
  rcases d with ⟨dn, df, dsp, dc⟩
  rcases dc with _ | ⟨c, f⟩
  · exact absurd rfl h
  · simp [Step.compensationRecord]

theorem func_of_mem_compensationsOf (prev : String) (ds : List (Step W α))
    (c : Compensation W α) (h : c ∈ compensationsOf prev ds) (hn : c.Name ≠ "") :
    c.Func ≠ none := by
  induction ds generalizing prev with
  | nil => cases h
  | cons d ds ih =>
    rw [compensationsOf_cons] at h
    rcases List.mem_cons.1 h with h | h
    · rw [h] at hn ⊢; exact func_of_compensationRecord d prev hn
    · exact ih _ h

/-- With the in-memory log, a command of one of the six kinds for a registered saga
whose steps all have a function is processed with a nil result. -/
theorem inMemory_nil_result (s : SEC W L α) (sg : Saga W α) (c : Command α)
    (hreg : s.sagas.get? c.SagaName = some sg) (hk : c.Name ∈ commandKinds)
    (hf : ∀ x p w, sg.ExecuteTransaction x p w ≠ none) (w : W) (l : List (Command α)) :
    ∃ st', s.inMemory.ProcessCommand c (w, l) = some (none, st') := by
  simp only [commandKinds, List.mem_cons, List.mem_singleton, List.not_mem_nil,
    or_false] at hk
  rcases hk with h | h | h | h | h | h
  · exact ⟨_, ProcessCommand_beginSaga s.inMemory c sg hreg h (w, l)⟩
  · exact ⟨_, ProcessCommand_endSaga s.inMemory c sg hreg h (w, l)⟩
  · cases hex : sg.ExecuteTransaction c.TransactionID c.SagaParams w with
    | none => exact absurd hex (hf _ _ _)
    | some r =>
      exact ⟨_, ProcessCommand_beginTransaction s.inMemory c sg hreg h (w, l) r.1 r.2 hex⟩
  · exact ⟨_, ProcessCommand_endTransaction s.inMemory c sg hreg h (w, l)⟩
  · exact ⟨_, ProcessCommand_abortTransaction s.inMemory c sg hreg h (w, l)⟩
  · exact ⟨_, ProcessCommand_abortSaga s.inMemory c sg hreg h (w, l)⟩

/-- Over any command log, a command of one of the six kinds for a registered saga
whose steps all have a function is processed without a panic and without an error of
the coordinator: `EndSaga` returns nil, every other kind returns the result of the
one `Write` of its follow-up. -/
theorem ProcessCommand_of_kind (s : SEC W L α) (sg : Saga W α) (c : Command α)
    (hreg : s.sagas.get? c.SagaName = some sg) (hk : c.Name ∈ commandKinds)
    (hf : ∀ x p w, sg.ExecuteTransaction x p w ≠ none) (st : W × L) :
    (c.Name = EndSagaCommand ∧ s.ProcessCommand c st = some (none, st)) ∨
    ∃ X w', s.ProcessCommand c st = s.returnWrite X (w', st.2) := by
  simp only [commandKinds, List.mem_cons, List.mem_singleton, List.not_mem_nil,
    or_false] at hk
  rcases hk with h | h | h | h | h | h
  · exact Or.inr ⟨_, st.1, ProcessCommand_beginSaga s c sg hreg h st⟩
  · exact Or.inl ⟨h, ProcessCommand_endSaga s c sg hreg h st⟩
  · cases hex : sg.ExecuteTransaction c.TransactionID c.SagaParams st.1 with
    | none => exact absurd hex (hf _ _ _)
    | some r =>
      exact Or.inr ⟨_, r.2, ProcessCommand_beginTransaction s c sg hreg h st r.1 r.2 hex⟩
  · exact Or.inr ⟨_, st.1, ProcessCommand_endTransaction s c sg hreg h st⟩
  · exact Or.inr ⟨_, st.1, ProcessCommand_abortTransaction s c sg hreg h st⟩
  · exact Or.inr ⟨_, st.1, ProcessCommand_abortSaga s c sg hreg h st⟩

/-- The steps of a saga made by `Begin` after a linear chain all have a function. -/
theorem beginAfter_executeTransaction_ne_none (n : String) (ds : List (Step W α))
    (e : Step W α) (x : String) (p : Option α) (w : W) :
    (beginAfter n ds e).End.ExecuteTransaction x p w ≠ none := by
  obtain ⟨-, h2, h3⟩ := foldl_andThen_New n ds
  have ht : (beginAfter n ds e).transactions = transactionsOf ds ++ [e.transaction ""] := by
    unfold beginAfter
    rw [finalise_begin_transactions, h2]
  have hc : (beginAfter n ds e).compensations =
      compensationsOf "" ds ++ [e.compensationRecord ""] := by
    unfold beginAfter
    rw [finalise_begin_compensations, h3]
  have htx : ∀ t, t ∈ (beginAfter n ds e).transactions → t.Func ≠ none := by
    intro t h
    rw [ht] at h
    rcases List.mem_append.1 h with h1 | h1
    · exact func_of_mem_transactionsOf _ t h1
    · rw [List.mem_singleton.1 h1]; simp [Step.transaction]
  have hcp : ∀ cp, cp ∈ (beginAfter n ds e).compensations → cp.Name ≠ "" →
      cp.Func ≠ none := by
    intro cp h hn
    rw [hc] at h
    rcases List.mem_append.1 h with h3 | h3
    · exact func_of_mem_compensationsOf "" _ cp h3 hn
    · rw [List.mem_singleton.1 h3] at hn ⊢
      exact func_of_compensationRecord e "" hn
  cases hts : (beginAfter n ds e).transactions with
  | nil =>
    rw [ht] at hts
    exact absurd hts (by simp)
  | cons t0 ts =>
    apply executeTransaction_ne_none
    · intro t hget
      rw [End_of_cons _ t0 ts hts] at hget
      rcases GoMap.mem_of_get?_foldl Transaction.Name _ _ _ _ hget with h | h
      · exact htx t (by rw [hts]; exact h)
      · exact absurd h (by simp [GoMap.get?_empty])
    · intro cp hget
      rw [End_of_cons _ t0 ts hts, GoMap.foldl_skip_empty] at hget
      rcases GoMap.mem_of_get?_foldl Compensation.Name _ _ _ _ hget with h | h
      · obtain ⟨h1, h2⟩ := List.mem_filter.1 h
        exact hcp cp h1 (by simpa using h2)
      · exact absurd h (by simp [GoMap.get?_empty])

/-- C18 amended: `Begin` does not fail when a transaction has already been added.
For every builder that holds the steps of a non-empty linear chain `ds`, calling
`Begin(name, f)` for a further step `e`, finalising it and calling `End` signals no
failure: the transaction of `e` is appended behind the records of `ds`, whose last
transaction keeps its empty `NextTransactionName`, the compensation of `e` gets an
empty `NextCompensationName`, `End` yields a saga whose first transaction is the
first of `ds`, and every command of the six kinds for that saga is processed without
a panic and without an error of the coordinator: over any command log `EndSaga`
returns nil and every other kind returns the result of the one `Write` of its
follow-up, so that the result is nil whenever the `Write` of the log returns nil, as
with the in-memory log. -/
theorem begin_after_steps (n : String) (ds : List (Step W α)) (e : Step W α) (hds : ds ≠ []) :
    (beginAfter n ds e).transactions = transactionsOf ds ++ [e.transaction ""] ∧
    (beginAfter n ds e).compensations = compensationsOf "" ds ++ [e.compensationRecord ""] ∧
    (beginAfter n ds e).End.FirstTransaction = firstName ds ∧
    (∀ (s : SEC W L α) (c : Command α),
      s.sagas.get? c.SagaName = some (beginAfter n ds e).End → c.Name ∈ commandKinds →
      ∀ w l, ∃ st', s.inMemory.ProcessCommand c (w, l) = some (none, st')) ∧
    (∀ (s : SEC W L α) (c : Command α),
      s.sagas.get? c.SagaName = some (beginAfter n ds e).End → c.Name ∈ commandKinds →
      ∀ st : W × L,
        (c.Name = EndSagaCommand ∧ s.ProcessCommand c st = some (none, st)) ∨
        ∃ X w', s.ProcessCommand c st =
          some ((s.commandLogger.Write X st.2).1, (w', (s.commandLogger.Write X st.2).2))) ∧
    (∀ (s : SEC W L α) (c : Command α),
      s.sagas.get? c.SagaName = some (beginAfter n ds e).End → c.Name ∈ commandKinds →
      (∀ X l, (s.commandLogger.Write X l).1 = none) →
      ∀ st : W × L, ∃ st', s.ProcessCommand c st = some (none, st')) := by
  obtain ⟨-, h2, h3⟩ := foldl_andThen_New n ds
  have ht : (beginAfter n ds e).transactions = transactionsOf ds ++ [e.transaction ""] := by
    unfold beginAfter
    rw [finalise_begin_transactions, h2]
  have hc : (beginAfter n ds e).compensations =
      compensationsOf "" ds ++ [e.compensationRecord ""] := by
    unfold beginAfter
    rw [finalise_begin_compensations, h3]
  obtain ⟨d, ds', rfl⟩ : ∃ d ds', ds = d :: ds' := by
    cases ds with
    | nil => exact absurd rfl hds
    | cons d ds' => exact ⟨d, ds', rfl⟩
  have hend := End_of_cons (beginAfter n (d :: ds') e) (d.transaction (firstName ds'))
    (transactionsOf ds' ++ [e.transaction ""]) (by rw [ht]; rfl)
  refine ⟨ht, hc, ?_, ?_, ?_, ?_⟩
  · rw [hend]; rfl
  · intro s c hreg hk w l
    exact inMemory_nil_result s _ c hreg hk
      (beginAfter_executeTransaction_ne_none n (d :: ds') e) w l
  · intro s c hreg hk st
    exact ProcessCommand_of_kind s _ c hreg hk
      (beginAfter_executeTransaction_ne_none n (d :: ds') e) st
  · intro s c hreg hk hw st
    rcases ProcessCommand_of_kind s _ c hreg hk
      (beginAfter_executeTransaction_ne_none n (d :: ds') e) st with ⟨-, h⟩ | ⟨X, w', h⟩
    · exact ⟨st, h⟩
    · refine ⟨(w', (s.commandLogger.Write X st.2).2), ?_⟩
      rw [h]
      unfold SEC.returnWrite
      simp only [hw]

/-- C18 amended, at `New("S").Begin("A", f).NoCompensation()` followed by
`Begin("B", f).NoCompensation()`: with the in-memory log `BeginSaga` is processed with
a nil result; over a log whose `Write` fails, `BeginSaga` returns the error of that
`Write` and `EndSaga` returns nil. -/
theorem begin_after_steps_witness :
    (beginAfter "S" [({ name := "A", func := bodyOk } : Step Unit Nat)]
      { name := "B", func := bodyOk }).End.FirstTransaction = "A" ∧
    (beginAfter "S" [({ name := "A", func := bodyOk } : Step Unit Nat)]
      { name := "B", func := bodyOk }).End.Next "A" = "" ∧
    (∃ st', (secOf (beginAfter "S" [({ name := "A", func := bodyOk } : Step Unit Nat)]
        { name := "B", func := bodyOk }).End).inMemory.ProcessCommand
      (BeginSaga "S" "id" (some 7)) ((), []) = some (none, st')) ∧
    (∃ st', (secOf (beginAfter "S" [({ name := "A", func := bodyOk } : Step Unit Nat)]
        { name := "B", func := bodyOk }).End).ProcessCommand
      (BeginTransaction "S" "id" "B" (some 7)) ((), []) = some (none, st')) ∧
    ((secOf (beginAfter "S" [({ name := "A", func := bodyOk } : Step Unit Nat)]
        { name := "B", func := bodyOk }).End).ProcessCommand
      (BeginTransaction "S" "id" "B" (some 7)) ((), []) =
        some (none, ((), [EndTransaction "S" "id" "B" (some 7)]))) ∧
    ((NewSEC failingWriteLogger discardErrLogger).RegisterSaga
        (beginAfter "S" [({ name := "A", func := bodyOk } : Step Unit Nat)]
          { name := "B", func := bodyOk }).End).ProcessCommand
      (BeginSaga "S" "id" (some 7)) ((), []) =
        some (some (GoError.errorf "failed command producing"), ((), [])) ∧
    ((NewSEC failingWriteLogger discardErrLogger).RegisterSaga
        (beginAfter "S" [({ name := "A", func := bodyOk } : Step Unit Nat)]
          { name := "B", func := bodyOk }).End).ProcessCommand
      (EndSaga "S" "id") ((), []) = some (none, ((), [])) ∧
    ((EndSaga "S" "id" : Command Nat).Name = EndSagaCommand ∧
        ((NewSEC failingWriteLogger discardErrLogger).RegisterSaga
          (beginAfter "S" [({ name := "A", func := bodyOk } : Step Unit Nat)]
            { name := "B", func := bodyOk }).End).ProcessCommand
        (EndSaga "S" "id") ((), []) = some (none, ((), [])) ∨
      ∃ X w', ((NewSEC failingWriteLogger discardErrLogger).RegisterSaga
          (beginAfter "S" [({ name := "A", func := bodyOk } : Step Unit Nat)]
            { name := "B", func := bodyOk }).End).ProcessCommand
        (EndSaga "S" "id") ((), []) =
          some (((failingWriteLogger : CommandLogger (List (Command Nat)) Nat).Write X []).1,
            (w', ((failingWriteLogger : CommandLogger (List (Command Nat)) Nat).Write X []).2))) :=
  have h := @begin_after_steps Unit Nat (List (Command Nat)) "S"
    [({ name := "A", func := bodyOk } : Step Unit Nat)] { name := "B", func := bodyOk }
    (List.cons_ne_nil _ _)
  ⟨h.2.2.1, by decide,
    h.2.2.2.1 (secOf (beginAfter "S" [({ name := "A", func := bodyOk } : Step Unit Nat)]
      { name := "B", func := bodyOk }).End) (BeginSaga "S" "id" (some 7)) rfl (by decide)
      () [],
    h.2.2.2.2.2 (secOf (beginAfter "S" [({ name := "A", func := bodyOk } : Step Unit Nat)]
      { name := "B", func := bodyOk }).End) (BeginTransaction "S" "id" "B" (some 7)) rfl
      (by decide) (fun _ _ => rfl) ((), []),
    by decide, by decide, by decide,
    h.2.2.2.2.1 ((NewSEC failingWriteLogger discardErrLogger).RegisterSaga
      (beginAfter "S" [({ name := "A", func := bodyOk } : Step Unit Nat)]
        { name := "B", func := bodyOk }).End) (EndSaga "S" "id") rfl (by decide) ((), [])⟩

end builderUse

/-! ### Linear use: the builder over shared arrays denotes the builder over lists -/

namespace shared

section memory

variable {T : Type}

theorem length_updateAt (f : T → T) (i : Nat) (l : List T) :
    (updateAt f i l).length = l.length := by
  induction l generalizing i with
  | nil => cases i <;> rfl
  | cons x xs ih =>
    cases i with
    | zero => rfl
    | succ i => simp only [updateAt, List.length_cons, ih]

theorem take_updateAt (f : T → T) (i n : Nat) (l : List T) (h : i < n) :
    (updateAt f i l).take n = updateAt f i (l.take n) := by
  induction l generalizing i n with
  | nil => cases i <;> simp [updateAt]
  | cons x xs ih =>
    obtain ⟨n, rfl⟩ : ∃ k, n = k + 1 := ⟨n - 1, by omega⟩
    cases i with
    | zero => rfl
    | succ i =>
      simp only [updateAt, List.take_succ_cons]
      rw [ih i n (by omega)]

theorem take_succ_updateAt (x : T) (n : Nat) (l : List T) (h : n < l.length) :
    (updateAt (fun _ => x) n l).take (n + 1) = l.take n ++ [x] := by
  induction l generalizing n with
  | nil => simp at h
  | cons y ys ih =>
    cases n with
    | zero => rfl
    | succ n =>
      simp only [updateAt, List.take_succ_cons, List.cons_append]
      rw [ih n (by simpa using h)]

theorem getD_updateAt (g : List T → List T) (hg : g [] = []) (k : Nat) (ls : List (List T)) :
    (updateAt g k ls).getD k [] = g (ls.getD k []) := by
  induction ls generalizing k with
  | nil => cases k <;> simp [updateAt, hg]
  | cons a as ih =>
    cases k with
    | zero => rfl
    | succ k =>
      simp only [updateAt, List.getD_cons_succ]
      exact ih k

theorem getD_append_length (ls : List (List T)) (a : List T) :
    (ls ++ [a]).getD ls.length [] = a := by
  induction ls with
  | nil => rfl
  | cons b bs ih => simp [ih]

theorem Mem.length_view (m : Mem T) (s : Slice) (h : m.Holds s) : (m.view s).length = s.len := by
  unfold Mem.view
  rw [List.length_take]
  exact Nat.min_eq_left (Nat.le_trans h.1 h.2)

theorem Mem.view_modifyAt (m : Mem T) (s : Slice) (i : Nat) (f : T → T) (hi : i < s.len) :
    (m.modifyAt s i f).view s = updateAt f i (m.view s) := by
  unfold Mem.view Mem.modifyAt
  rw [getD_updateAt (updateAt f i) (by cases i <;> rfl), take_updateAt f i s.len _ hi]

theorem Mem.holds_modifyAt (m : Mem T) (s : Slice) (i : Nat) (f : T → T) (h : m.Holds s) :
    (m.modifyAt s i f).Holds s := by
  unfold Mem.Holds Mem.modifyAt
  rw [getD_updateAt (updateAt f i) (by cases i <;> rfl), length_updateAt]
  exact h

theorem Mem.view_append (grow : Nat → Nat) (zero : T) (m : Mem T) (s : Slice) (x : T)
    (h : m.Holds s) :
    (m.append grow zero s x).2.view (m.append grow zero s x).1 = m.view s ++ [x] ∧
      (m.append grow zero s x).2.Holds (m.append grow zero s x).1 := by
  unfold Mem.append
  by_cases hc : s.len < s.cap
  · rw [if_pos hc]
    have hlen : s.len < (m.arrays.getD s.arr []).length := Nat.lt_of_lt_of_le hc h.2
    constructor
    · unfold Mem.view Mem.modifyAt
      simp only
      rw [getD_updateAt (updateAt (fun _ => x) s.len) (by cases s.len <;> rfl),
        take_succ_updateAt x s.len _ hlen]
    · unfold Mem.Holds Mem.modifyAt
      simp only
      rw [getD_updateAt (updateAt (fun _ => x) s.len) (by cases s.len <;> rfl),
        length_updateAt]
      exact ⟨hc, h.2⟩
  · rw [if_neg hc]
    have hv : (m.view s).length = s.len := m.length_view s h
    constructor
    · unfold Mem.view
      simp only
      rw [getD_append_length]
      have : s.len + 1 = (m.view s ++ [x]).length := by simp [hv]
      rw [show (List.take s.len (m.arrays.getD s.arr [])) = m.view s from rfl]
      rw [show m.view s ++ x :: List.replicate (max (s.len + 1) (grow s.cap) - (s.len + 1)) zero =
        (m.view s ++ [x]) ++ List.replicate (max (s.len + 1) (grow s.cap) - (s.len + 1)) zero by
          simp]
      rw [this, List.take_left]
    · unfold Mem.Holds
      simp only
      rw [getD_append_length]
      constructor
      · exact Nat.le_max_left _ _
      · simp only [List.length_append, List.length_cons, List.length_replicate, hv]
        have := Nat.le_max_left (s.len + 1) (grow s.cap)
        omega

end memory

section sharedChain

theorem updateAt_last_eq_setNextOfLast (x : String) (ts : List (Transaction W α))
    (hlen : 0 < ts.length) :
    updateAt (fun t => { t with NextTransactionName := x }) (ts.length - 1) ts =
      setNextOfLast x ts := by
  induction ts with
  | nil => simp at hlen
  | cons t ts ih =>
    cases ts with
    | nil => rfl
    | cons t' ts =>
      have h := ih (by simp)
      simp only [List.length_cons, Nat.add_sub_cancel] at h ⊢
      rw [updateAt, setNextOfLast_cons_cons, h]

/-- `Then` in the heap: the slice of `b` reads as the list with its last
`NextTransactionName` set. -/
theorem Then_view (b : Builder) (h : Heap W α) (name : String) (f : TransactionFunc W α)
    (hT : h.transactions.Holds b.transactions) :
    (b.Then name f h).2.transactions.view b.transactions =
        setNextOfLast name (h.transactions.view b.transactions) ∧
      (b.Then name f h).2.transactions.Holds b.transactions ∧
      (b.Then name f h).2.compensations = h.compensations ∧
      (b.Then name f h).1 =
        { builder := b, index := b.transactions.len, t := { Name := name, Func := some f } } := by
  have hv := h.transactions.length_view b.transactions hT
  unfold Builder.Then
  by_cases hl : b.transactions.len > 0
  · simp only [hl, if_true]
    refine ⟨?_, Mem.holds_modifyAt _ _ _ _ hT, by first | rfl | trivial,
      by first | rfl | trivial⟩
    rw [Mem.view_modifyAt _ _ _ _ (by omega), ← hv,
      updateAt_last_eq_setNextOfLast name _ (by omega)]
  · simp only [hl, if_false]
    refine ⟨?_, hT, by first | rfl | trivial, by first | rfl | trivial⟩
    have h0 : h.transactions.view b.transactions = [] := by
      apply List.eq_nil_of_length_eq_zero
      omega
    rw [h0]
    rfl

/-- One step of a chain in the heap reads as the same step on the lists. -/
theorem andThen_read (grow : Nat → Nat) (b : Builder) (h : Heap W α) (d : Step W α)
    (hT : h.transactions.Holds b.transactions) (hC : h.compensations.Holds b.compensations) :
    (andThen grow (b, h) d).1.read (andThen grow (b, h) d).2 = Step.andThen (b.read h) d ∧
      (andThen grow (b, h) d).2.transactions.Holds (andThen grow (b, h) d).1.transactions ∧
      (andThen grow (b, h) d).2.compensations.Holds
        (andThen grow (b, h) d).1.compensations := by
  obtain ⟨h1, h2, h3, h4⟩ := Then_view b h d.name d.func hT
  have hv := h.transactions.length_view b.transactions hT
  have hB : ∀ B B' : saga.Builder W α, B.sagaName = B'.sagaName →
      B.transactions = B'.transactions → B.compensations = B'.compensations → B = B' := by
    intro B B' e1 e2 e3
    cases B; cases B'; simp only at e1 e2 e3; subst e1 e2 e3; rfl
  have hidx : ¬ (b.transactions.len > 0) → b.transactions.len = 0 := by omega
  rcases d with ⟨dn, df, dsp, dc⟩
  cases dsp <;> rcases dc with _ | ⟨c, f⟩ <;>
    simp only [andThen, h4, Bool.false_eq_true, if_false, if_true,
      TransactionBuilder.NoCompensation, TransactionBuilder.WithCompensation,
      TransactionBuilder.SavePoint] <;>
    refine ⟨hB _ _ ?_ ?_ ?_, (Mem.view_append grow _ _ _ _ h2).2,
      (Mem.view_append grow _ _ _ _ (h3 ▸ hC)).2⟩
  all_goals first
    | (rw [andThen_sagaName]; rfl)
    | (rw [andThen_transactions]
       show Mem.view _ _ = _
       rw [(Mem.view_append grow _ _ _ _ h2).1, h1]
       rfl)
    | (rw [andThen_compensations]
       show Mem.view _ _ = _
       rw [(Mem.view_append grow _ _ _ _ (h3 ▸ hC)).1, h3]
       by_cases hl : b.transactions.len > 0
       · simp [Builder.read, Step.compensationRecord, h1, hv, hl]
       · have h0 := hidx hl
         simp [Builder.read, Step.compensationRecord, h1, hv, h0, nearestCompensationName])

/-- Under linear use the builder over shared arrays denotes the builder over lists:
after any chain of steps from `New`, for every growth policy of `append`, reading
the slices gives the lists of the list builder, so `End` yields the same saga. -/
theorem read_foldl_andThen (grow : Nat → Nat) (n : String) (ds : List (Step W α)) :
    (ds.foldl (andThen grow) (New n, Heap.empty)).1.read
        (ds.foldl (andThen grow) (New n, Heap.empty)).2 =
      ds.foldl Step.andThen (saga.New n) ∧
    (ds.foldl (andThen grow) (New n, Heap.empty)).2.transactions.Holds
      (ds.foldl (andThen grow) (New n, Heap.empty)).1.transactions ∧
    (ds.foldl (andThen grow) (New n, Heap.empty)).2.compensations.Holds
      (ds.foldl (andThen grow) (New n, Heap.empty)).1.compensations := by
  induction ds using List.reverseRecOn with
  | nil => exact ⟨rfl, ⟨Nat.le_refl 0, Nat.zero_le _⟩, ⟨Nat.le_refl 0, Nat.zero_le _⟩⟩
  | append_singleton ds d ih =>
    obtain ⟨h1, h2, h3⟩ := ih
    rw [List.foldl_append, List.foldl_cons, List.foldl_nil, List.foldl_append, List.foldl_cons,
      List.foldl_nil, ← h1]
    exact andThen_read grow _ _ d h2 h3

/-- The saga of a linear chain built over shared arrays is the saga of
`buildLinear`. -/
theorem End_foldl_andThen (grow : Nat → Nat) (n : String) (ds : List (Step W α)) :
    (ds.foldl (andThen grow) (New n, Heap.empty)).1.End
        (ds.foldl (andThen grow) (New n, Heap.empty)).2 = buildLinear n ds := by
  unfold Builder.End
  rw [(read_foldl_andThen grow n ds).1, buildLinear_eq]

end sharedChain

end shared

end saga
